import Mathlib

/-!
# BattleArena: battlefield grid and combat rules

A shallow embedding of `battlefield.c` / `data.c` (grid, position lists,
move and attack legality, damage, area ability, combat resolution) and the
properties of the specification that concern them.

Conventions of the embedding.

* C `int` values are `Int`; every quantity of the game (coordinates < 10,
  counts <= 5, item statistics <= 20, health <= 100) is far from the range
  where signed overflow would occur.
* C arrays are total functions on `Int` indices.  An index outside the
  declared bounds and a dereferenced null pointer are undefined in C; a
  theorem about a result that depends on such an access carries the
  hypotheses that keep the access inside its bounds (team in {1,2}, cells in
  bounds, slot-1 item present).
* A `UNIT *` is a reference into the unit store (`UnitRef`), `NULL` being
  `none`; a `const ITEM *` is the catalog entry it points to, `NULL` being
  `none`.
* Window handles and every drawing call (`display_combat_message`,
  `update_all_displays`, `usleep`, ...) are presentation and are left out.
-/

namespace BattleArena

/-! ## data.h / data.c -/

/-- Catalog entry `ITEM` of `data.h`. -/
structure ITEM where
  name : String
  att : Int
  «def» : Int
  slots : Int
  range : Int
  radius : Int
deriving DecidableEq, Repr

/-- The constant `MAX_NAME`. -/
def MAX_NAME : Nat := 100

/-- Combatant `UNIT` of `data.h`; `name` holds the bytes of the buffer
`char name[MAX_NAME + 1]`, and both item pointers are nullable in C. -/
structure UNIT where
  name : List Nat
  item1 : Option ITEM
  item2 : Option ITEM
  hp : Int
deriving DecidableEq, Repr

/-- The item catalog `items[NUMBER_OF_ITEMS]` of `data.c`. -/
def items : List ITEM :=
  [ ⟨"Sword", 10, 5, 1, 1, 0⟩,
    ⟨"Shield", 0, 15, 1, 0, 0⟩,
    ⟨"Bow", 8, 0, 1, 3, 0⟩,
    ⟨"Staff", 5, 5, 1, 2, 0⟩,
    ⟨"Axe", 12, 3, 1, 1, 0⟩,
    ⟨"Armor", 0, 20, 2, 0, 0⟩,
    ⟨"Dagger", 7, 2, 1, 1, 0⟩,
    ⟨"Spear", 9, 4, 1, 2, 0⟩,
    ⟨"Wand", 6, 0, 1, 3, 0⟩,
    ⟨"Hammer", 11, 6, 2, 1, 0⟩,
    ⟨"Crossbow", 10, 0, 2, 4, 0⟩,
    ⟨"Mace", 8, 7, 1, 1, 0⟩,
    ⟨"Greatsword", 15, 8, 2, 1, 0⟩,
    ⟨"Fireball Staff", 12, 0, 2, 3, 1⟩,
    ⟨"Ice Staff", 8, 0, 2, 3, 2⟩,
    ⟨"Lightning Rod", 14, 0, 2, 2, 1⟩ ]

/-- A name buffer `char name[MAX_NAME + 1]` that holds the string with bytes
`s` (at most 100 of them), zero-filled behind it. -/
def name_buf (s : List Nat) : List Nat :=
  s ++ List.replicate (MAX_NAME + 1 - s.length) 0

/-- The entry behind an item pointer that the code dereferences without a
null check (`attacker->item1->att`).  On `NULL` the C code has no defined
result; the all-zero entry stands in for it and no theorem relies on it. -/
def deref (p : Option ITEM) : ITEM :=
  match p with
  | some i => i
  | none => ⟨"", 0, 0, 0, 0, 0⟩

/-! ## battlefield.h -/

/-- Grid width `MAX_GRID_WIDTH`. -/
def MAX_GRID_WIDTH : Int := 10

/-- Grid height `MAX_GRID_HEIGHT`. -/
def MAX_GRID_HEIGHT : Int := 10

/-- A `UNIT *`: the address of a unit in the unit store. -/
abbrev UnitRef := Nat

/-- The enum `GameState`. -/
inductive GameState where
  | STATE_INIT
  | STATE_POSITIONING
  | STATE_SELECT_UNIT
  | STATE_MOVE_UNIT
  | STATE_SELECT_ACTION
  | STATE_SELECT_TARGET
  | STATE_COMBAT_RESULT
  | STATE_GAME_OVER
deriving DecidableEq, Repr

/-- The struct `GridCell`: a nullable unit pointer and a team tag (0 when empty). -/
structure GridCell where
  unit : Option UnitRef
  team : Int
deriving DecidableEq, Repr

/-- The struct `Position`. -/
structure Position where
  x : Int
  y : Int
deriving DecidableEq, Repr

/-- The struct `Battlefield` without its window handles and grid geometry:
`cells r c` is `cells[r][c]` (row `y`, column `x`), `positions t i` is
`positions[t][i]` and `unit_counts t` is `unit_counts[t]`. -/
structure Battlefield where
  cells : Int → Int → GridCell
  positions : Int → Int → Position
  unit_counts : Int → Int
  cursor_pos : Position
  selected_pos : Position
  has_selection : Bool
  state : GameState

/-- Array store `a[i] = v`. -/
def set1 {α : Type} (a : Int → α) (i : Int) (v : α) : Int → α :=
  fun k => if k = i then v else a k

/-- Array store `a[i][j] = v`. -/
def set2 {α : Type} (a : Int → Int → α) (i j : Int) (v : α) : Int → Int → α :=
  fun k l => if k = i ∧ l = j then v else a k l

/-! ## battlefield.c: grid operations -/

/-- The function `manhattan_distance`: `abs(x1 - x2) + abs(y1 - y2)`. -/
def manhattan_distance (x1 y1 x2 y2 : Int) : Int :=
  ((x1 - x2).natAbs : Int) + ((y1 - y2).natAbs : Int)

/-- The function `init_battlefield`: `memset` to zero, then the explicit resets. -/
def init_battlefield : Battlefield where
  cells := fun _ _ => ⟨none, 0⟩
  positions := fun _ _ => ⟨0, 0⟩
  unit_counts := fun _ => 0
  cursor_pos := ⟨0, 0⟩
  selected_pos := ⟨0, 0⟩
  has_selection := false
  state := GameState.STATE_INIT

/-- The function `is_valid_position`. -/
def is_valid_position (x y : Int) : Bool :=
  decide (x ≥ 0) && decide (x < MAX_GRID_WIDTH) && decide (y ≥ 0) && decide (y < MAX_GRID_HEIGHT)

/-- The function `place_unit`; `unit` is the address of the unit being placed
(the callers pass `&a1[i]` / `&a2[i]`). -/
def place_unit (bf : Battlefield) (unit : UnitRef) (team x y : Int) : Battlefield :=
  if !is_valid_position x y then bf
  else
    let idx := bf.unit_counts (team - 1)
    if idx ≥ 5 then bf
    else
      { bf with
        cells := set2 bf.cells y x ⟨some unit, team⟩
        positions := set2 bf.positions (team - 1) idx ⟨x, y⟩
        unit_counts := set1 bf.unit_counts (team - 1) (idx + 1) }

/-- The search loop shared by `remove_unit` and `move_unit`: the first index
`i` with `0 <= i < n` whose entry equals `(x, y)`, where the loop breaks. -/
def find_pos (row : Int → Position) (n : Int) (x y : Int) : Option Nat :=
  (List.range n.toNat).find?
    (fun i : Nat => decide ((row (i : Int)).x = x) && decide ((row (i : Int)).y = y))

/-- The inner loop of `remove_unit`:
`for (j = i; j < n - 1; j++) row[j] = row[j+1];`. -/
def shift_down (row : Int → Position) (i : Nat) (n : Int) : Int → Position :=
  (List.range' i ((n - 1).toNat - i)).foldl
    (fun r (j : Nat) => set1 r (j : Int) (r ((j : Int) + 1))) row

/-- The function `remove_unit`. -/
def remove_unit (bf : Battlefield) (x y : Int) : Battlefield :=
  if !is_valid_position x y then bf
  else
    let team := (bf.cells y x).team
    if team = 0 then bf
    else
      let n := bf.unit_counts (team - 1)
      let row := bf.positions (team - 1)
      let row1 :=
        match find_pos row n x y with
        | some i => shift_down row i n
        | none => row
      { bf with
        positions := set1 bf.positions (team - 1) row1
        cells := set2 bf.cells y x ⟨none, 0⟩
        unit_counts := set1 bf.unit_counts (team - 1) (n - 1) }

/-- The function `is_valid_move`. -/
def is_valid_move (bf : Battlefield) (from_x from_y to_x to_y : Int) : Bool :=
  if !is_valid_position to_x to_y then false
  else if (bf.cells to_y to_x).unit ≠ none then false
  else
    let dist := manhattan_distance from_x from_y to_x to_y
    decide (dist ≤ 2)

/-- The function `move_unit`: the returned flag and the battlefield afterwards. -/
def move_unit (bf : Battlefield) (from_x from_y to_x to_y : Int) : Bool × Battlefield :=
  if !is_valid_move bf from_x from_y to_x to_y then (false, bf)
  else
    let unit := (bf.cells from_y from_x).unit
    let team := (bf.cells from_y from_x).team
    let row := bf.positions (team - 1)
    let row1 :=
      match find_pos row (bf.unit_counts (team - 1)) from_x from_y with
      | some i => set1 row (i : Int) ⟨to_x, to_y⟩
      | none => row
    let cells1 := set2 bf.cells to_y to_x ⟨unit, team⟩
    let cells2 := set2 cells1 from_y from_x ⟨none, 0⟩
    (true, { bf with positions := set1 bf.positions (team - 1) row1, cells := cells2 })

/-! ## battlefield.c: combat rules -/

/-- The function `is_valid_attack_target`. -/
def is_valid_attack_target (bf : Battlefield) (attacker : UNIT) (x1 y1 x2 y2 : Int) : Bool :=
  if !is_valid_position x2 y2 then false
  else
    let target_cell := bf.cells y2 x2
    if target_cell.unit = none ∨ target_cell.team = (bf.cells y1 x1).team then false
    else
      let dist := manhattan_distance x1 y1 x2 y2
      let range := (deref attacker.item1).range
      let range :=
        match attacker.item2 with
        | some i2 => if i2.range > range then i2.range else range
        | none => range
      decide (dist ≤ range)

/-- The function `calculate_damage`. -/
def calculate_damage (attacker defender : UNIT) : Int :=
  let attack := (deref attacker.item1).att
  let attack :=
    match attacker.item2 with
    | some i2 => attack + i2.att
    | none => attack
  let defense := (deref defender.item1).def
  let defense :=
    match defender.item2 with
    | some i2 => defense + i2.def
    | none => defense
  let damage := attack - defense
  if damage > 0 then damage else 1

/-- The test `item && item->radius > 0` of `has_special_ability` and `use_special_ability`. -/
def area_item (p : Option ITEM) : Bool :=
  match p with
  | some i => decide (i.radius > 0)
  | none => false

/-- The function `has_special_ability`. -/
def has_special_ability (unit : UNIT) : Bool :=
  if area_item unit.item1 then true
  else if area_item unit.item2 then true
  else false

/-! ## battlefield.c: actions that change health -/

/-- The unit store (the army arrays the grid points into) together with the battlefield. -/
structure Game where
  bf : Battlefield
  units : UnitRef → UNIT

/-- The store `target->hp = hp`. -/
def set_hp (units : UnitRef → UNIT) (target : UnitRef) (hp : Int) : UnitRef → UNIT :=
  fun k => if k = target then { units k with hp := hp } else units k

/-- The item chosen at the top of `use_special_ability`: slot 1 when its
radius is positive, else slot 2 when its radius is positive, else `NULL`. -/
def special_item (unit : UNIT) : Option ITEM :=
  if area_item unit.item1 then unit.item1
  else if area_item unit.item2 then unit.item2
  else none

/-- The body of the inner loop of `use_special_ability` for one target cell. -/
def blast_cell (unit : UnitRef) (x y : Int) (g : Game) (target_x target_y : Int) : Game :=
  if !is_valid_position target_x target_y then g
  else
    match (g.bf.cells target_y target_x).unit with
    | none => g
    | some target =>
      if (g.bf.cells target_y target_x).team ≠ (g.bf.cells y x).team then
        let damage := calculate_damage (g.units unit) (g.units target)
        let units1 := set_hp g.units target ((g.units target).hp - damage)
        if (units1 target).hp ≤ 0 then
          { bf := remove_unit g.bf target_x target_y, units := units1 }
        else
          { g with units := units1 }
      else g

/-- The values `-radius, ..., radius` a loop variable `dy` or `dx` runs through. -/
def offsets (radius : Int) : List Int :=
  (List.range (2 * radius + 1).toNat).map (fun k : Nat => (k : Int) - radius)

/-- The function `use_special_ability`, `unit` being the invoking unit. -/
def use_special_ability (g : Game) (unit : UnitRef) (x y : Int) : Game :=
  match special_item (g.units unit) with
  | none => g
  | some it =>
    let radius := it.radius
    (offsets radius).foldl
      (fun g1 dy =>
        (offsets radius).foldl (fun g2 dx => blast_cell unit x y g2 (x + dx) (y + dy)) g1)
      g

/-- The function `update_combat_stats`: `target->hp -= damage`. -/
def update_combat_stats (units : UnitRef → UNIT) (target : UnitRef) (damage : Int) :
    UnitRef → UNIT :=
  set_hp units target ((units target).hp - damage)

/-- The function `perform_combat`: the returned flag, the state afterwards and
the caller's counter `*remaining_units` afterwards.  The two positions are
read through pointers that the call never writes through, so they are passed
by value. -/
def perform_combat (g : Game) (att_pos target_pos : Position) (remaining_units : Int) :
    Bool × Game × Int :=
  match (g.bf.cells att_pos.y att_pos.x).unit, (g.bf.cells target_pos.y target_pos.x).unit with
  | some attacker, some target =>
    let bf1 := { g.bf with cursor_pos := att_pos, has_selection := true, selected_pos := att_pos }
    let bf2 := { bf1 with cursor_pos := target_pos }
    let damage := calculate_damage (g.units attacker) (g.units target)
    let units1 := update_combat_stats g.units target damage
    if (units1 target).hp ≤ 0 then
      let bf3 := remove_unit bf2 target_pos.x target_pos.y
      (true, { bf := { bf3 with has_selection := false }, units := units1 }, remaining_units - 1)
    else
      (true, { bf := { bf2 with has_selection := false }, units := units1 }, remaining_units)
  | _, _ => (false, g, remaining_units)

/-! ## main.c: the AI battle -/

/-- The scan of `simulate_battle_curses` for an attack target, one iteration:
`st` holds `min_dist` and the selected entry `target_pos` (a pointer to
`positions[e][j]`, kept as the index `j`; `NULL` is `none`). -/
def scan_step (bf : Battlefield) (attacker : UNIT) (att_pos : Position) (e : Int)
    (st : Int × Option Nat) (j : Nat) : Int × Option Nat :=
  let pos := bf.positions e (j : Int)
  if is_valid_attack_target bf attacker att_pos.x att_pos.y pos.x pos.y then
    let dist := manhattan_distance att_pos.x att_pos.y pos.x pos.y
    if dist < st.1 then (dist, some j) else st
  else st

/-- The scan of `simulate_battle_curses` over the enemy list `positions[e]`,
started with `min_dist = MAX_GRID_WIDTH + MAX_GRID_HEIGHT` and no target:
the index of the selected entry, if any. -/
def scan_targets (bf : Battlefield) (attacker : UNIT) (att_pos : Position) (e : Int) :
    Option Nat :=
  ((List.range (bf.unit_counts e).toNat).foldl (scan_step bf attacker att_pos e)
    (MAX_GRID_WIDTH + MAX_GRID_HEIGHT, none)).2

/-- The function `find_closest_enemy`. -/
def find_closest_enemy (bf : Battlefield) (team x y : Int) : Position :=
  let enemy_team : Int := if team = 1 then 1 else 0
  ((List.range (bf.unit_counts enemy_team).toNat).foldl
    (fun (st : Int × Position) (i : Nat) =>
      let enemy_pos := bf.positions enemy_team (i : Int)
      let dist := manhattan_distance x y enemy_pos.x enemy_pos.y
      if dist < st.1 then (dist, ⟨enemy_pos.x, enemy_pos.y⟩) else st)
    (MAX_GRID_WIDTH + MAX_GRID_HEIGHT, ⟨-1, -1⟩)).2

/-- The function `move_towards_target`, called as the battle loop calls it:
`unit_pos` is the pointer `&bf.positions[t][i]` into the battlefield itself,
so the increment `unit_pos->x += dx` after `move_unit` is applied to the
list entry as `move_unit` left it. -/
def move_towards_target (bf : Battlefield) (t i : Int) (target : Position) :
    Bool × Battlefield :=
  let unit_pos := bf.positions t i
  if unit_pos.x = target.x ∧ unit_pos.y = target.y then (false, bf)
  else
    let dx : Int := if target.x > unit_pos.x then 1 else if target.x < unit_pos.x then -1 else 0
    let dy : Int := if target.y > unit_pos.y then 1 else if target.y < unit_pos.y then -1 else 0
    if dx ≠ 0 ∧ is_valid_move bf unit_pos.x unit_pos.y (unit_pos.x + dx) unit_pos.y = true then
      let bf1 := (move_unit bf unit_pos.x unit_pos.y (unit_pos.x + dx) unit_pos.y).2
      let p := bf1.positions t i
      (true, { bf1 with positions := set2 bf1.positions t i ⟨p.x + dx, p.y⟩ })
    else if dy ≠ 0 ∧
        is_valid_move bf unit_pos.x unit_pos.y unit_pos.x (unit_pos.y + dy) = true then
      let bf1 := (move_unit bf unit_pos.x unit_pos.y unit_pos.x (unit_pos.y + dy)).2
      let p := bf1.positions t i
      (true, { bf1 with positions := set2 bf1.positions t i ⟨p.x, p.y + dy⟩ })
    else (false, bf)

/-- The fallback branch of `simulate_battle_curses` for entry `i` of the list
of `team`: the flag `acted` and the battlefield afterwards. -/
def ai_fallback (bf : Battlefield) (team : Int) (i : Int) : Bool × Battlefield :=
  let att_pos := bf.positions (team - 1) i
  let closest := find_closest_enemy bf team att_pos.x att_pos.y
  if closest.x ≠ -1 then move_towards_target bf (team - 1) i closest
  else (false, bf)

/-- The three endings that `simulate_battle_curses` announces. -/
inductive Outcome where
  | ARMY1_WINS
  | ARMY2_WINS
  | DRAW
deriving DecidableEq, Repr

/-- The result branch at the end of `simulate_battle_curses`. -/
def battle_result (n1 n2 : Int) : Outcome :=
  if n1 > 0 ∧ n2 ≤ 0 then Outcome.ARMY1_WINS
  else if n2 > 0 ∧ n1 ≤ 0 then Outcome.ARMY2_WINS
  else Outcome.DRAW

/-- The state after `n` successive calls
`perform_combat(&bf, att_pos, target_pos, &remaining)`: the game and the
caller's counter. -/
def repeat_combat (att_pos target_pos : Position) : Nat → Game × Int → Game × Int
  | 0, s => s
  | n + 1, s =>
    (perform_combat (repeat_combat att_pos target_pos n s).1 att_pos target_pos
      (repeat_combat att_pos target_pos n s).2).2

/-! ## main.c: the two-player game -/

/-- The enum `ActionType`. -/
inductive ActionType where
  | ACTION_MOVE
  | ACTION_ATTACK
  | ACTION_SPECIAL
  | ACTION_END_TURN
deriving DecidableEq, Repr

/-- The keys the loop of `simple_game_curses` distinguishes (`wgetch`). -/
inductive Key where
  | KEY_UP
  | KEY_DOWN
  | KEY_LEFT
  | KEY_RIGHT
  | ENTER
  | ESCAPE
  | SAVE
  | QUIT
  | OTHER
deriving DecidableEq, Repr

/-- The constant `GRID_WIDTH` of `main.c`. -/
def GRID_WIDTH : Int := 10

/-- The constant `GRID_HEIGHT` of `main.c`. -/
def GRID_HEIGHT : Int := 10

/-- The variables of `simple_game_curses`: the battlefield and the armies
(`game`), the live counts `*n1`, `*n2`, the active team `turn`, the selected
unit and the two per-turn flags. -/
structure SimpleGame where
  game : Game
  n1 : Int
  n2 : Int
  turn : Int
  selected_unit : Option UnitRef
  has_moved : Bool
  has_attacked : Bool

/-- The function `set_game_state` (the redraw of the hints left out). -/
def set_game_state (bf : Battlefield) (new_state : GameState) : Battlefield :=
  { bf with state := new_state }

/-- The unit behind a `UNIT *` that is dereferenced without a null check; on
`NULL` the C code has no defined result and an empty unit stands in. -/
def deref_unit (units : UnitRef → UNIT) (p : Option UnitRef) : UNIT :=
  match p with
  | some u => units u
  | none => ⟨[], none, none, 0⟩

/-- The statements that end a turn in `simple_game_curses`, applied to the
battlefield `bf` the action left: `turn = 3 - turn`, both flags cleared,
selection cleared, phase back to `STATE_SELECT_UNIT`. -/
def end_turn (s : SimpleGame) (bf : Battlefield) (units : UnitRef → UNIT) : SimpleGame :=
  { s with
    turn := 3 - s.turn
    has_moved := false
    has_attacked := false
    selected_unit := none
    game := { bf := set_game_state { bf with has_selection := false } GameState.STATE_SELECT_UNIT
              units := units } }

/-- The `case 10` (Enter) branch of the loop of `simple_game_curses`;
`menu` is what `show_action_menu` returns when it is shown (`none` for -1). -/
def press_enter (s : SimpleGame) (menu : Option ActionType) : SimpleGame :=
  let bf := s.game.bf
  match bf.state with
  | GameState.STATE_SELECT_UNIT =>
    let cell := bf.cells bf.cursor_pos.y bf.cursor_pos.x
    if cell.unit ≠ none ∧ cell.team = s.turn then
      let bf1 := set_game_state { bf with has_selection := true, selected_pos := bf.cursor_pos }
        GameState.STATE_SELECT_ACTION
      let s1 : SimpleGame :=
        { s with selected_unit := cell.unit, game := { s.game with bf := bf1 } }
      match menu with
      | some ActionType.ACTION_MOVE =>
        if !s1.has_moved then
          { s1 with game := { s1.game with bf := set_game_state bf1 GameState.STATE_MOVE_UNIT } }
        else s1
      | some ActionType.ACTION_ATTACK =>
        if !s1.has_attacked then
          { s1 with
            game := { s1.game with bf := set_game_state bf1 GameState.STATE_SELECT_TARGET } }
        else s1
      | some ActionType.ACTION_END_TURN => end_turn s1 bf1 s1.game.units
      | _ =>
        { s1 with
          selected_unit := none
          game := { s1.game with
                    bf := set_game_state { bf1 with has_selection := false }
                      GameState.STATE_SELECT_UNIT } }
    else s
  | GameState.STATE_MOVE_UNIT =>
    if is_valid_move bf bf.selected_pos.x bf.selected_pos.y bf.cursor_pos.x bf.cursor_pos.y then
      let bf1 :=
        (move_unit bf bf.selected_pos.x bf.selected_pos.y bf.cursor_pos.x bf.cursor_pos.y).2
      end_turn s bf1 s.game.units
    else s
  | GameState.STATE_SELECT_TARGET =>
    if is_valid_attack_target bf (deref_unit s.game.units s.selected_unit)
        bf.selected_pos.x bf.selected_pos.y bf.cursor_pos.x bf.cursor_pos.y then
      let target_pos := bf.cursor_pos
      if (bf.cells target_pos.y target_pos.x).team = 1 then
        let r := perform_combat s.game bf.selected_pos target_pos s.n1
        end_turn { s with n1 := r.2.2 } r.2.1.bf r.2.1.units
      else
        let r := perform_combat s.game bf.selected_pos target_pos s.n2
        end_turn { s with n2 := r.2.2 } r.2.1.bf r.2.1.units
    else s
  | _ => s

/-- One pass through the body of the loop of `simple_game_curses` for the key
read by `wgetch` (a save request writes the file and changes nothing here;
a quit request leaves the loop). -/
def game_key (s : SimpleGame) (ch : Key) (menu : Option ActionType) : SimpleGame :=
  let bf := s.game.bf
  match ch with
  | Key.SAVE => s
  | Key.QUIT => s
  | Key.KEY_UP =>
    if bf.cursor_pos.y > 0 then
      { s with game := { s.game with
          bf := { bf with cursor_pos := ⟨bf.cursor_pos.x, bf.cursor_pos.y - 1⟩ } } }
    else s
  | Key.KEY_DOWN =>
    if bf.cursor_pos.y < GRID_HEIGHT - 1 then
      { s with game := { s.game with
          bf := { bf with cursor_pos := ⟨bf.cursor_pos.x, bf.cursor_pos.y + 1⟩ } } }
    else s
  | Key.KEY_LEFT =>
    if bf.cursor_pos.x > 0 then
      { s with game := { s.game with
          bf := { bf with cursor_pos := ⟨bf.cursor_pos.x - 1, bf.cursor_pos.y⟩ } } }
    else s
  | Key.KEY_RIGHT =>
    if bf.cursor_pos.x < GRID_WIDTH - 1 then
      { s with game := { s.game with
          bf := { bf with cursor_pos := ⟨bf.cursor_pos.x + 1, bf.cursor_pos.y⟩ } } }
    else s
  | Key.ENTER => press_enter s menu
  | Key.ESCAPE =>
    if bf.state ≠ GameState.STATE_SELECT_UNIT then
      { s with
        selected_unit := none
        game := { s.game with
                  bf := set_game_state { bf with has_selection := false }
                    GameState.STATE_SELECT_UNIT } }
    else s
  | Key.OTHER => s

/-! ## main.c: battle setup -/

/-- One placement loop of `simulate_battle_curses` / `simple_game_curses`:
`for (i = 0; i < n; i++) place_unit(&bf, &a[i], team, x, i * 2);` where
`base` is the address of `a[0]` in the unit store. -/
def place_army (bf : Battlefield) (base : UnitRef) (n : Int) (team x : Int) : Battlefield :=
  (List.range n.toNat).foldl
    (fun b (i : Nat) => place_unit b (base + i) team x ((i : Int) * 2)) bf

/-- The two placement loops on a fresh battlefield: army 1 (the array `a1`,
at addresses 0..4 of the unit store) on column 0, army 2 (the array `a2`, at
addresses 5..9) on column `MAX_GRID_WIDTH - 1`. -/
def place_armies (n1 n2 : Int) : Battlefield :=
  place_army (place_army init_battlefield 0 n1 1 0) 5 n2 2 (MAX_GRID_WIDTH - 1)

/-! ## main.c / battlefield.c: army setup -/

/-- The constant `NUMBER_OF_ITEMS`. -/
def NUMBER_OF_ITEMS : Nat := 16

/-- The constant `ITEMS_PER_PAGE`. -/
def ITEMS_PER_PAGE : Int := 5

/-- The constant `ERR_ITEM_COUNT`. -/
def ERR_ITEM_COUNT : Int := -2

/-- The libc function `strncpy(dst, src, n)` by its specification: the bytes
of `src` up to its first zero byte, at most `n` of them, then zero bytes up to
`n` bytes in all; the bytes of `dst` from index `n` on are not written. -/
def strncpy (dst src : List Nat) (n : Nat) : List Nat :=
  let s := (src.take n).takeWhile (fun b => decide (b ≠ 0))
  s ++ List.replicate (n - s.length) 0 ++ dst.drop n

/-- The fields of `ItemMenu` that the selection loop reads and writes. -/
structure ItemMenu where
  current_page : Int
  selected_item : Int
  num_items : Int
  total_pages : Int
deriving DecidableEq, Repr

/-- The function `create_item_menu`: the menu over the whole catalog. -/
def create_item_menu : ItemMenu where
  current_page := 0
  selected_item := 0
  num_items := NUMBER_OF_ITEMS
  total_pages := ((NUMBER_OF_ITEMS : Int) + ITEMS_PER_PAGE - 1) / ITEMS_PER_PAGE

/-- The statements that close a pass of the loop of `show_item_selection`
("ensure selected item is on current page"): a selected index below the first
index of the current page is set to that index, then a selected index beyond
the last index of the page is set to that last index. -/
def keep_on_page (menu : ItemMenu) : ItemMenu :=
  let menu1 :=
    if menu.selected_item < menu.current_page * ITEMS_PER_PAGE then
      { menu with selected_item := menu.current_page * ITEMS_PER_PAGE }
    else menu
  if menu1.selected_item ≥ (menu1.current_page + 1) * ITEMS_PER_PAGE then
    { menu1 with selected_item := (menu1.current_page + 1) * ITEMS_PER_PAGE - 1 }
  else menu1

/-- The function `show_item_selection`, run on the keys that `wgetch` will
deliver: the returned item pointer (`none` for `NULL`), the menu as it is
left, and the keys not yet read.  Every pass that does not return ends with
`keep_on_page`, also the pass of a refused Enter and of a key without a case.
The result is `none` when the keys run out while the menu is still open (the
loop is waiting for input). -/
def show_item_selection (menu : ItemMenu) (slots_available : Int) :
    List Key → Option (Option ITEM × ItemMenu × List Key)
  | [] => none
  | ch :: rest =>
    match ch with
    | Key.KEY_UP =>
      if menu.selected_item > 0 then
        show_item_selection (keep_on_page { menu with selected_item := menu.selected_item - 1 })
          slots_available rest
      else show_item_selection (keep_on_page menu) slots_available rest
    | Key.KEY_DOWN =>
      if menu.selected_item < menu.num_items - 1 then
        show_item_selection (keep_on_page { menu with selected_item := menu.selected_item + 1 })
          slots_available rest
      else show_item_selection (keep_on_page menu) slots_available rest
    | Key.KEY_LEFT =>
      if menu.current_page > 0 then
        show_item_selection
          (keep_on_page
            { menu with
              current_page := menu.current_page - 1
              selected_item := (menu.current_page - 1) * ITEMS_PER_PAGE })
          slots_available rest
      else show_item_selection (keep_on_page menu) slots_available rest
    | Key.KEY_RIGHT =>
      if menu.current_page < menu.total_pages - 1 then
        show_item_selection
          (keep_on_page
            { menu with
              current_page := menu.current_page + 1
              selected_item := (menu.current_page + 1) * ITEMS_PER_PAGE })
          slots_available rest
      else show_item_selection (keep_on_page menu) slots_available rest
    | Key.ENTER =>
      let item := deref (items[menu.selected_item.toNat]?)
      if item.slots ≤ slots_available then some (some item, menu, rest)
      else show_item_selection (keep_on_page menu) slots_available rest
    | Key.ESCAPE => some (none, menu, rest)
    | _ => show_item_selection (keep_on_page menu) slots_available rest

/-- The function `setup_unit_curses` on the line `typed` that `wgetnstr`
reads (it stores at most `MAX_NAME` characters and a terminator) and the keys
the two item menus will read: the return code, the unit as it is left and the
keys not yet read; `none` when the keys run out while a menu is open. -/
def setup_unit_curses (unit : UNIT) (typed : List Nat) (keys : List Key) :
    Option (Int × UNIT × List Key) :=
  let name_buf := typed.take MAX_NAME ++ [0]
  let unit1 := { unit with name := strncpy unit.name name_buf MAX_NAME }
  match show_item_selection create_item_menu 2 keys with
  | none => none
  | some (none, _, rest) => some (ERR_ITEM_COUNT, unit1, rest)
  | some (some item1, menu, rest) =>
    let unit2 := { unit1 with item1 := some item1 }
    let slots_left := 2 - item1.slots
    match show_item_selection menu slots_left rest with
    | none => none
    | some (item2, _, rest2) => some (0, { unit2 with item2 := item2, hp := 100 }, rest2)

/-! ## main.c: saving and loading

The save file is a sequence of bytes.  The layout is the one of the usual
ABIs: an `int` is 4 bytes, two's complement, least significant byte first, and
`SaveUnit` is the 101 name bytes, 3 padding bytes and the three `int`s, 116
bytes in all. -/

/-- The function `item_index`.  The C code compares the pointer with the
address of every catalog entry; an item being modelled by the entry it
points to, this is the index of the first entry equal to it (the entries are
pairwise distinct). -/
def item_index (it : Option ITEM) : Int :=
  match it with
  | none => -1
  | some v =>
    match (List.range NUMBER_OF_ITEMS).find? (fun i => decide (items[i]? = some v)) with
    | some i => (i : Int)
    | none => -1

/-- The 4 bytes of an `int` in memory. -/
def int_bytes (v : Int) : List Nat :=
  let u := (v % 4294967296).toNat
  [u % 256, u / 256 % 256, u / 65536 % 256, u / 16777216 % 256]

/-- The `int` held by the first 4 bytes of `b`. -/
def bytes_int (b : List Nat) : Int :=
  let u := b.getD 0 0 + 256 * b.getD 1 0 + 65536 * b.getD 2 0 + 16777216 * b.getD 3 0
  if u < 2147483648 then (u : Int) else (u : Int) - 4294967296

/-- The size of `SaveUnit`, `sizeof su`. -/
def SAVE_UNIT_SIZE : Nat := 116

/-- The bytes of `su` that `save_game` writes for one unit: `memset` to zero,
`strncpy` of the name into `su.name`, then `hp`, `idx1`, `idx2`. -/
def save_unit (u : UNIT) : List Nat :=
  strncpy (List.replicate (MAX_NAME + 1) 0) u.name MAX_NAME ++ [0, 0, 0] ++
    int_bytes u.hp ++ int_bytes (item_index u.item1) ++ int_bytes (item_index u.item2)

/-- The function `save_game`: `none` when `fopen` fails (the function returns
false), else the contents of the file it writes (it returns true).  The
results of `fwrite` are not looked at by the code; every write is taken to
succeed. -/
def save_game (fopen_ok : Bool) (a1 : Int → UNIT) (n1 : Int) (a2 : Int → UNIT) (n2 : Int)
    (turn : Int) : Option (List Nat) :=
  if !fopen_ok then none
  else
    some (int_bytes n1 ++ int_bytes n2 ++ int_bytes turn ++
      (List.range n1.toNat).flatMap (fun i : Nat => save_unit (a1 (i : Int))) ++
      (List.range n2.toNat).flatMap (fun i : Nat => save_unit (a2 (i : Int))))

/-- The call `fread(p, sizeof(int), 1, f)` on the unread bytes `f` of the
file, `old` being the value of `*p` before: whether an element was read, `*p`
afterwards and the bytes left.  At the end of the file nothing is stored; when
fewer than 4 bytes are left they are stored over the first bytes of `*p`
(the C standard leaves the value of a partly read element open). -/
def fread_int (old : Int) (f : List Nat) : Bool × Int × List Nat :=
  if 4 ≤ f.length then (true, bytes_int (f.take 4), f.drop 4)
  else
    match f with
    | [] => (false, old, [])
    | _ => (false, bytes_int (f ++ (int_bytes old).drop f.length), [])

/-- The expression `(idx >= 0 && idx < NUMBER_OF_ITEMS) ? &items[idx] : NULL` of `load_game`. -/
def load_item (idx : Int) : Option ITEM :=
  if idx ≥ 0 ∧ idx < NUMBER_OF_ITEMS then items[idx.toNat]? else none

/-- The four assignments of `load_game` to the unit `a[i]` from the record
`su` (116 bytes) just read: `strncpy` of `su.name` into the unit's name
buffer, `hp`, and the two items by index. -/
def load_unit (old : UNIT) (su : List Nat) : UNIT where
  name := strncpy old.name (su.take (MAX_NAME + 1)) MAX_NAME
  hp := bytes_int (su.drop 104)
  item1 := load_item (bytes_int (su.drop 108))
  item2 := load_item (bytes_int (su.drop 112))

/-- One unit loop of `load_game` over the indices `idx` still to do: whether
every `fread` delivered a whole record, the array afterwards and the bytes
left.  A short read returns at once. -/
def load_army (a : Int → UNIT) (f : List Nat) : List Nat → Bool × (Int → UNIT) × List Nat
  | [] => (true, a, f)
  | i :: idx =>
    if f.length < SAVE_UNIT_SIZE then (false, a, [])
    else
      load_army (set1 a (i : Int) (load_unit (a (i : Int)) (f.take SAVE_UNIT_SIZE)))
        (f.drop SAVE_UNIT_SIZE) idx

/-- What the caller of `load_game` passes by reference: the two army arrays,
the two counts and the active team. -/
structure Armies where
  a1 : Int → UNIT
  n1 : Int
  a2 : Int → UNIT
  n2 : Int
  turn : Int

/-- The function `load_game` on the contents of the save file (`none` when
`fopen` fails): the returned flag and the caller's variables afterwards. -/
def load_game (file : Option (List Nat)) (st : Armies) : Bool × Armies :=
  match file with
  | none => (false, st)
  | some f =>
    let r1 := fread_int st.n1 f
    let st1 := { st with n1 := r1.2.1 }
    if !r1.1 then (false, st1)
    else
      let r2 := fread_int st1.n2 r1.2.2
      let st2 := { st1 with n2 := r2.2.1 }
      if !r2.1 then (false, st2)
      else
        let r3 := fread_int st2.turn r2.2.2
        let st3 := { st2 with turn := r3.2.1 }
        if !r3.1 then (false, st3)
        else if st3.n1 < 1 ∨ st3.n1 > 5 ∨ st3.n2 < 1 ∨ st3.n2 > 5 then (false, st3)
        else
          let l1 := load_army st3.a1 r3.2.2 (List.range st3.n1.toNat)
          let st4 := { st3 with a1 := l1.2.1 }
          if !l1.1 then (false, st4)
          else
            let l2 := load_army st4.a2 l1.2.2 (List.range st4.n2.toNat)
            let st5 := { st4 with a2 := l2.2.1 }
            if !l2.1 then (false, st5)
            else (true, st5)

/-- The state of `simple_game_curses` when its loop is entered: the armies
placed (`a1[i]` is unit `i` of the store, `a2[i]` unit `5 + i`; `GRID_WIDTH` is
`MAX_GRID_WIDTH`), phase unit-select, team `init_turn` to play. -/
def simple_game_start (units : UnitRef → UNIT) (n1 n2 init_turn : Int) : SimpleGame where
  game := { bf := set_game_state (place_armies n1 n2) GameState.STATE_SELECT_UNIT, units := units }
  n1 := n1
  n2 := n2
  turn := init_turn
  selected_unit := none
  has_moved := false
  has_attacked := false

/-- The loop of `simple_game_curses` on the keys `wgetch` delivers, each with
the choice made in the action menu should it open: the state when the keys
are used up or the loop has ended (a count at zero, or a quit request). -/
def simple_game_loop (s : SimpleGame) : List (Key × Option ActionType) → SimpleGame
  | [] => s
  | (ch, menu) :: rest =>
    if s.n1 > 0 ∧ s.n2 > 0 then
      match ch with
      | Key.QUIT => s
      | _ => simple_game_loop (game_key s ch menu) rest
    else s

/-- The file a save request writes in state `s`:
`save_game(SAVE_FILE, a1, *n1, a2, *n2, turn)`, the file being writable. -/
def save_request (s : SimpleGame) : Option (List Nat) :=
  save_game true (fun i => s.game.units i.toNat) s.n1 (fun i => s.game.units (5 + i.toNat)) s.n2
    s.turn

/-! ## main.c: the loop of the AI battle -/

/-- The variables of `simulate_battle_curses`: the battlefield and the armies
(`game`), the live counts `n1`, `n2` and the round budget `max_rounds`. -/
structure Battle where
  game : Game
  n1 : Int
  n2 : Int
  max_rounds : Int

/-- The state of `simulate_battle_curses` when its loop is entered: the armies
placed, `a1[i]` being unit `i` and `a2[i]` unit `5 + i` of the store. -/
def battle_start (units : UnitRef → UNIT) (n1 n2 max_rounds : Int) : Battle where
  game := { bf := place_armies n1 n2, units := units }
  n1 := n1
  n2 := n2
  max_rounds := max_rounds

/-- The body of the army loops of `simulate_battle_curses` for entry `i` of
the list of `team` (the two copies in the source differ in the team only):
the target scan over the enemy list, then `perform_combat` on the selected
target with the enemy's live count as the caller's counter, or else the
fallback step.  `attacker` is read from the cell the entry names. -/
def ai_unit_action (s : Battle) (team : Int) (i : Nat) : Battle :=
  let bf := s.game.bf
  let att_pos := bf.positions (team - 1) (i : Int)
  let attacker := deref_unit s.game.units (bf.cells att_pos.y att_pos.x).unit
  match scan_targets bf attacker att_pos (3 - team - 1) with
  | some j =>
    let target_pos := bf.positions (3 - team - 1) (j : Int)
    if team = 1 then
      let r := perform_combat s.game att_pos target_pos s.n2
      { s with game := r.2.1, n2 := r.2.2 }
    else
      let r := perform_combat s.game att_pos target_pos s.n1
      { s with game := r.2.1, n1 := r.2.2 }
  | none => { s with game := { s.game with bf := (ai_fallback bf team (i : Int)).2 } }

/-- An army loop `for (i = 0; i < bf.unit_counts[team-1]; i++)` from index
`i` on, the bound being read anew in every iteration.  A position list has 5
entries, so the loop makes at most 5 iterations (`fuel`) while its reads stay
inside the list. -/
def army_loop (team : Int) : Nat → Nat → Battle → Battle
  | 0, _, s => s
  | fuel + 1, i, s =>
    if (i : Int) < s.game.bf.unit_counts (team - 1) then
      army_loop team fuel (i + 1) (ai_unit_action s team i)
    else s

/-- One pass through the body of the loop of `simulate_battle_curses` in which
the user does not quit: the actions of army 1, the actions of army 2 (each
under its guard on the live counts), then the budget step
`if (max_rounds > 0) max_rounds--`. -/
def battle_round (s : Battle) : Battle :=
  let s1 := if s.n1 > 0 ∧ s.n2 > 0 then army_loop 1 5 0 s else s
  let s2 := if s1.n2 > 0 ∧ s1.n1 > 0 then army_loop 2 5 0 s1 else s1
  { s2 with max_rounds := if s2.max_rounds > 0 then s2.max_rounds - 1 else s2.max_rounds }

/-- The loop `while (n1 > 0 && n2 > 0 && max_rounds != 0)` of
`simulate_battle_curses`, `quit r` telling whether the user quits in round
`r`: the number of rounds completed and the state when the loop is left, or
`none` when it is still running after `fuel` tests of its condition. -/
def battle_loop (quit : Nat → Bool) : Nat → Nat → Battle → Option (Nat × Battle)
  | 0, _, _ => none
  | fuel + 1, r, s =>
    if s.n1 > 0 ∧ s.n2 > 0 ∧ s.max_rounds ≠ 0 then
      if quit r then some (r, s)
      else battle_loop quit fuel (r + 1) (battle_round s)
    else some (r, s)

/-! ## Vocabulary of the properties -/

/-- The first `n` entries `row[0], ..., row[n-1]` of an array, as a list. -/
def rowList (row : Int → Position) (n : Int) : List Position :=
  (List.range n.toNat).map (fun i : Nat => row (i : Int))

/-- The position list of `team` (1 or 2): the first `unit_counts[team-1]`
entries of `positions[team-1]`, in array order. -/
def posList (bf : Battlefield) (team : Int) : List Position :=
  rowList (bf.positions (team - 1)) (bf.unit_counts (team - 1))

/-- An empty cell: no unit and team tag 0. -/
def cellEmpty (c : GridCell) : Prop := c.unit = none ∧ c.team = 0

/-- The cell typing of the data model: every in-bounds cell is either empty
(no unit, tag 0) or holds a unit with team tag 1 or 2. -/
def CellsTyped (bf : Battlefield) : Prop :=
  ∀ x y : Int, is_valid_position x y = true →
    cellEmpty (bf.cells y x) ∨
      ((bf.cells y x).unit ≠ none ∧ ((bf.cells y x).team = 1 ∨ (bf.cells y x).team = 2))

/-- The position lists mirror the grid: for each team the count is the length
of its list (within the capacity 5), the list has no duplicates, and the
listed positions are exactly the in-bounds cells tagged with that team. -/
structure ListsMirror (bf : Battlefield) : Prop where
  count_range : ∀ t : Int, t = 1 ∨ t = 2 →
    0 ≤ bf.unit_counts (t - 1) ∧ bf.unit_counts (t - 1) ≤ 5
  nodup : ∀ t : Int, t = 1 ∨ t = 2 → (posList bf t).Nodup
  mem_iff : ∀ t : Int, t = 1 ∨ t = 2 → ∀ p : Position,
    p ∈ posList bf t ↔ (is_valid_position p.x p.y = true ∧ (bf.cells p.y p.x).team = t)

/-- The attack total of the damage formula as the specification words it:
`slot1.attack + (slot2 ? slot2.attack : 0)`. -/
def spec_attack (slot1 : ITEM) (slot2 : Option ITEM) : Int :=
  slot1.att + (match slot2 with
    | some i2 => i2.att
    | none => 0)

/-- The defense total of the damage formula as the specification words it:
`slot1.defense + (slot2 ? slot2.defense : 0)`. -/
def spec_defense (slot1 : ITEM) (slot2 : Option ITEM) : Int :=
  slot1.def + (match slot2 with
    | some i2 => i2.def
    | none => 0)

/-- The effective range as the specification words it: the larger of the
slot-1 range and the slot-2 range when a slot-2 item is present. -/
def spec_effective_range (slot1 : ITEM) (slot2 : Option ITEM) : Int :=
  match slot2 with
  | some i2 => max slot1.range i2.range
  | none => slot1.range

/-- The Chebyshev distance `max(|x1 - x2|, |y1 - y2|)` of the specification. -/
def chebyshev_distance (x1 y1 x2 y2 : Int) : Int :=
  max ((x1 - x2).natAbs : Int) ((y1 - y2).natAbs : Int)

/-- No unit stands on two cells: a unit reference appears in at most one
in-bounds cell (the Grid Cell invariant of the data model). -/
def NoSharedUnit (bf : Battlefield) : Prop :=
  ∀ (x1 y1 x2 y2 : Int) (k : UnitRef),
    is_valid_position x1 y1 = true → is_valid_position x2 y2 = true →
    (bf.cells y1 x1).unit = some k → (bf.cells y2 x2).unit = some k → x1 = x2 ∧ y1 = y2

/-- Unit `k` of the store after one hit by unit `u`: its health lowered by
`calculate_damage u k`, everything else as before. -/
def hit_once (g : Game) (u k : UnitRef) : UNIT :=
  { g.units k with hp := (g.units k).hp - calculate_damage (g.units u) (g.units k) }

/-- The target cells `(x + dx, y + dy)` in the order the two nested loops of
`use_special_ability` visit them (`dy` outer, `dx` inner). -/
def blast_targets (x y radius : Int) : List Position :=
  (offsets radius).flatMap (fun dy => (offsets radius).map (fun dx => (⟨x + dx, y + dy⟩ : Position)))

/-- The test of the loop body of `use_special_ability` on the target cell `c`,
read for unit `k`: the cell is in bounds, holds `k`, and its team tag differs
from the tag of the invoker's cell `(x,y)`. -/
def blast_hits (bf : Battlefield) (x y : Int) (k : UnitRef) (c : Position) : Bool :=
  is_valid_position c.x c.y && decide ((bf.cells c.y c.x).unit = some k) &&
    decide ((bf.cells c.y c.x).team ≠ (bf.cells y x).team)

/-! ## Example states -/

/-- A fresh battlefield with unit 0 of team 1 placed on (0,0). -/
def bf_one : Battlefield := place_unit init_battlefield 0 1 0 0

/-- The battlefield `bf_one` with unit 1 of team 2 placed on (1,0). -/
def bf_two : Battlefield := place_unit bf_one 1 2 1 0

/-- A battlefield on which team 1 has its five units on (0,0), (0,2), (0,4), (0,6), (0,8). -/
def bf_full : Battlefield :=
  place_unit (place_unit (place_unit (place_unit (place_unit init_battlefield
    0 1 0 0) 1 1 0 2) 2 1 0 4) 3 1 0 6) 4 1 0 8

/-- Catalog entry 0, the Sword (attack 10, defense 5, range 1). -/
def sword : ITEM := ⟨"Sword", 10, 5, 1, 1, 0⟩

/-- Catalog entry 13, the Fireball Staff (attack 12, range 3, area radius 1). -/
def fireball_staff : ITEM := ⟨"Fireball Staff", 12, 0, 2, 3, 1⟩

/-- A game on `bf_two`: unit 0 (team 1, on (0,0)) has a Sword and 100 health,
unit 1 (team 2, on (1,0)) has a Sword and 3 health; every other unit of the
store has a Sword and 100 health. -/
def game_two : Game where
  bf := bf_two
  units := fun k => if k = 1 then ⟨name_buf [66], some sword, none, 3⟩ else ⟨name_buf [65], some sword, none, 100⟩

/-- The battlefield `bf_two` with unit 2 of team 2 placed on (2,0). -/
def bf_three : Battlefield := place_unit bf_two 2 2 2 0

/-- A game on `bf_three`: unit 0 (team 1, on (0,0)) has a Fireball Staff (area
radius 1), every other unit of the store has a Sword; all have 100 health.
Unit 1 stands at Chebyshev distance 1 of the invoker, unit 2 at distance 2. -/
def game_blast : Game where
  bf := bf_three
  units := fun k =>
    if k = 0 then ⟨name_buf [77], some fireball_staff, none, 100⟩ else ⟨name_buf [66], some sword, none, 100⟩

/-- The duel of the end-to-end scenario on `bf_two`: unit 0 (team 1, on (0,0))
holds the single item `a1`, unit 1 (team 2, on the adjacent cell (1,0)) holds
the single item `d1`; both start with 100 health. -/
def duel (a1 d1 : ITEM) : Game where
  bf := bf_two
  units := fun k =>
    if k = 1 then ⟨name_buf [68], some d1, none, 100⟩ else ⟨name_buf [65], some a1, none, 100⟩

/-- The duel after `k` hits that the defender survived: grid, lists and
counts are those of `bf_two`, the defender has lost `5 * k` health and the
caller's counter of army 2 is still 1. -/
def DuelAfter (a1 d1 : ITEM) (k : Nat) (s : Game × Int) : Prop :=
  s.1.bf.cells = bf_two.cells ∧ s.1.bf.positions = bf_two.positions ∧
  s.1.bf.unit_counts = bf_two.unit_counts ∧
  s.1.units 0 = ⟨name_buf [65], some a1, none, 100⟩ ∧
  s.1.units 1 = ⟨name_buf [68], some d1, none, 100 - 5 * (k : Int)⟩ ∧ s.2 = 1

/-- The opening position of a battle between two 1-unit armies: unit 0 of
team 1 on (0,0), unit 1 of team 2 on (9,0). -/
def bf_far : Battlefield := place_unit bf_one 1 2 9 0

/-- The turn has passed from `s` to `s1`: the active team is the other team,
the selection is cleared, both per-turn flags are cleared and the phase is
unit-select. -/
def TurnEnded (s s1 : SimpleGame) : Prop :=
  s1.turn = 3 - s.turn ∧ s1.selected_unit = none ∧ s1.game.bf.has_selection = false ∧
  s1.has_moved = false ∧ s1.has_attacked = false ∧
  s1.game.bf.state = GameState.STATE_SELECT_UNIT

/-- A two-player game on `game_two` in phase `st`, team 1 to play with its
unit 0 on (0,0) selected and the cursor on `cursor`. -/
def sg (st : GameState) (cursor : Position) : SimpleGame where
  game :=
    { game_two with
      bf := { bf_two with
              state := st, has_selection := true, selected_pos := ⟨0, 0⟩, cursor_pos := cursor } }
  n1 := 1
  n2 := 1
  turn := 1
  selected_unit := some 0
  has_moved := false
  has_attacked := false

/-- The accesses of one pass of the loop stay inside defined behaviour: the
cursor and the selected position are on the grid, and in the attack-target
phase a unit with a slot-1 item is selected. -/
def DefinedAccess (s : SimpleGame) : Prop :=
  is_valid_position s.game.bf.cursor_pos.x s.game.bf.cursor_pos.y = true ∧
  is_valid_position s.game.bf.selected_pos.x s.game.bf.selected_pos.y = true ∧
  (s.game.bf.state = GameState.STATE_SELECT_TARGET →
    ∃ u, s.selected_unit = some u ∧ (s.game.units u).item1 ≠ none)

/-- The total slot-cost of the items a unit has equipped. -/
def slot_cost (u : UNIT) : Int :=
  (match u.item1 with
    | some i => i.slots
    | none => 0) +
  (match u.item2 with
    | some i => i.slots
    | none => 0)

/-- The selection stays on the catalog: the menu is over the 16 items in 4
pages and the selected index is one of them. -/
def MenuOnCatalog (menu : ItemMenu) : Prop :=
  menu.num_items = 16 ∧ menu.total_pages = 4 ∧
  0 ≤ menu.current_page ∧ menu.current_page < 4 ∧
  0 ≤ menu.selected_item ∧ menu.selected_item < 16

/-- The selected index is one of the indices of the current page. -/
def OnPage (menu : ItemMenu) : Prop :=
  menu.current_page * ITEMS_PER_PAGE ≤ menu.selected_item ∧
  menu.selected_item < (menu.current_page + 1) * ITEMS_PER_PAGE

/-- The catalog entry "Axe" (index 4). -/
def axe : ITEM := ⟨"Axe", 12, 3, 1, 1, 0⟩

/-- The catalog entry "Armor" (index 5). -/
def armor : ITEM := ⟨"Armor", 0, 20, 2, 0, 0⟩

/-- The C string held by a character buffer: the bytes before the first zero byte. -/
def c_string (buf : List Nat) : List Nat :=
  buf.takeWhile (fun b => decide (b ≠ 0))

/-- The first header integer of a save file (the count of army 1). -/
def header_n1 (f : List Nat) : Int := bytes_int (f.take 4)

/-- The second header integer of a save file (the count of army 2). -/
def header_n2 (f : List Nat) : Int := bytes_int ((f.drop 4).take 4)

/-- The third header integer of a save file (the active team). -/
def header_turn (f : List Nat) : Int := bytes_int ((f.drop 8).take 4)

/-- The bytes of unit record number `j` of a save file, counted from 0 behind
the 12 header bytes, army 1 first. -/
def file_record (f : List Nat) (j : Nat) : List Nat :=
  (f.drop (12 + SAVE_UNIT_SIZE * j)).take SAVE_UNIT_SIZE

/-- A caller's state before a load: two armies of two units each, every unit
named "O" with a Sword and 50 health, team 1 to play. -/
def armies_before : Armies where
  a1 := fun _ => ⟨name_buf [79], some sword, none, 50⟩
  n1 := 2
  a2 := fun _ => ⟨name_buf [79], some sword, none, 50⟩
  n2 := 2
  turn := 1

/-- A save file whose first count is 7: the three header integers 7, 1, 2. -/
def file_bad_count : List Nat := int_bytes 7 ++ int_bytes 1 ++ int_bytes 2

/-- A save file that ends early: the header 1, 1, 2 and the record of one
unit (named "N", Sword, 99 health) where two records are due. -/
def file_one_record : List Nat :=
  int_bytes 1 ++ int_bytes 1 ++ int_bytes 2 ++ save_unit ⟨name_buf [78], some sword, none, 99⟩

/-- A unit whose name is 100 bytes long (a hundred letters "A", terminated
in byte 100 of the buffer), with a Sword and 100 health. -/
def unit_long_name : UNIT := ⟨List.replicate 100 65 ++ [0], some sword, none, 100⟩

/-- The caller's state of the Load Game branch of `main` before the call:
arrays that hold whatever the stack held (here the byte 88 everywhere, no
items, health 0) and counts not yet set. -/
def armies_stack : Armies where
  a1 := fun _ => ⟨List.replicate 101 88, none, none, 0⟩
  n1 := 0
  a2 := fun _ => ⟨List.replicate 101 88, none, none, 0⟩
  n2 := 0
  turn := 0

/-- A unit that a save record can hold: its health is an `int` and each of
its items is absent or an entry of the catalog. -/
def Storable (u : UNIT) : Prop :=
  (-2147483648 ≤ u.hp ∧ u.hp < 2147483648) ∧
  (∀ i, u.item1 = some i → i ∈ items) ∧ (∀ i, u.item2 = some i → i ∈ items)

/-- Armies as a loaded game may hold them: `a1[0]` (unit 0) has a Bow and 10
health, `a2[0]` (unit 5) has a Crossbow (attack 10, range 4), every other unit
a Sword; all but unit 0 have 100 health. -/
def units_loaded : UnitRef → UNIT := fun k =>
  if k = 0 then ⟨name_buf [65], some ⟨"Bow", 8, 0, 1, 3, 0⟩, none, 10⟩
  else if k = 5 then ⟨name_buf [67], some ⟨"Crossbow", 10, 0, 2, 4, 0⟩, none, 100⟩
  else ⟨name_buf [66], some sword, none, 100⟩

/-- The key `ch` pressed `n` times (no menu opens). -/
def presses (ch : Key) (n : Nat) : List (Key × Option ActionType) :=
  List.replicate n (ch, none)

/-- A play of the two-player game, team 2 to start: the unit of army 2 walks
from (9,0) to (4,0) in three moves, army 1 ending its turn each time, and
then attacks the unit of army 1 on (0,0). -/
def keys_defeat : List (Key × Option ActionType) :=
  presses Key.KEY_RIGHT 9 ++ [(Key.ENTER, some ActionType.ACTION_MOVE)] ++
    presses Key.KEY_LEFT 2 ++ [(Key.ENTER, none)] ++
  presses Key.KEY_LEFT 7 ++ [(Key.ENTER, some ActionType.ACTION_END_TURN)] ++
  presses Key.KEY_RIGHT 7 ++ [(Key.ENTER, some ActionType.ACTION_MOVE)] ++
    presses Key.KEY_LEFT 2 ++ [(Key.ENTER, none)] ++
  presses Key.KEY_LEFT 5 ++ [(Key.ENTER, some ActionType.ACTION_END_TURN)] ++
  presses Key.KEY_RIGHT 5 ++ [(Key.ENTER, some ActionType.ACTION_MOVE)] ++
    presses Key.KEY_LEFT 1 ++ [(Key.ENTER, none)] ++
  presses Key.KEY_LEFT 4 ++ [(Key.ENTER, some ActionType.ACTION_END_TURN)] ++
  presses Key.KEY_RIGHT 4 ++ [(Key.ENTER, some ActionType.ACTION_ATTACK)] ++
    presses Key.KEY_LEFT 4 ++ [(Key.ENTER, none)]

/-- The state of the two-player game after the play `keys_defeat` from the
setup with armies of 2 and 1 units. -/
def game_after_defeat : SimpleGame :=
  simple_game_loop (simple_game_start units_loaded 2 1 2) keys_defeat

/-- The blast of unit `u` from `(x,y)` finishes off the unit on the target
cell `c`: the cell is in bounds, holds a unit whose team tag differs from the
tag of the invoker's cell, and the hit takes that unit's health to 0 or
below. -/
def blast_defeats (g : Game) (u : UnitRef) (x y : Int) (c : Position) : Bool :=
  is_valid_position c.x c.y &&
    match (g.bf.cells c.y c.x).unit with
    | none => false
    | some k =>
      decide ((g.bf.cells c.y c.x).team ≠ (g.bf.cells y x).team) &&
        decide ((g.units k).hp - calculate_damage (g.units u) (g.units k) ≤ 0)

/-- A game on `bf_three` in which the blast of unit 0 (Fireball Staff, attack
12, radius 1, on (0,0)) defeats its neighbour: unit 1 on (1,0) has a Sword
(defense 5) and 7 health; every other unit has a Sword and 100 health. -/
def game_blast_weak : Game where
  bf := bf_three
  units := fun k =>
    if k = 0 then ⟨name_buf [77], some fireball_staff, none, 100⟩
    else if k = 1 then ⟨name_buf [87], some sword, none, 7⟩
    else ⟨name_buf [66], some sword, none, 100⟩

/-- The live counts of the caller agree with the counts of the battlefield. -/
def CountsAgree (bf : Battlefield) (n1 n2 : Int) : Prop :=
  n1 = bf.unit_counts 0 ∧ n2 = bf.unit_counts 1

/-- The invariant of the loop of the two-player game: typed cells, lists that
mirror the grid, live counts that agree with the battlefield's, the cursor on
the grid and, in the two target phases, a selected position that holds a
unit. -/
structure GameInv (s : SimpleGame) : Prop where
  typed : CellsTyped s.game.bf
  mirror : ListsMirror s.game.bf
  counts : CountsAgree s.game.bf s.n1 s.n2
  cursor : is_valid_position s.game.bf.cursor_pos.x s.game.bf.cursor_pos.y = true
  selected : s.game.bf.state = GameState.STATE_MOVE_UNIT ∨
      s.game.bf.state = GameState.STATE_SELECT_TARGET →
    is_valid_position s.game.bf.selected_pos.x s.game.bf.selected_pos.y = true ∧
      (s.game.bf.cells s.game.bf.selected_pos.y s.game.bf.selected_pos.x).unit ≠ none

/-- The column on which the battle setup places the units of `team`. -/
def home_column (team : Int) : Int := if team = 1 then 0 else MAX_GRID_WIDTH - 1

/-- The step in `x` that takes a unit of `team` towards the other army. -/
def advance (team : Int) : Int := if team = 1 then 1 else -1

/-- The shape of the battlefield of an AI battle as long as every iteration of
the army loops has found a unit under its list entry.  Cells are typed and no
list names a coordinate twice; the units of a team stand on its home column or
one step in front of it; a list entry of a team is in bounds and is either at
home (on the home column, on a cell of its team, the cell in front of it
free) or ahead (two steps in front of the home column, its unit standing on
the cell between). -/
structure Deployed (bf : Battlefield) : Prop where
  typed : CellsTyped bf
  nodup : ∀ t : Int, t = 1 ∨ t = 2 → (posList bf t).Nodup
  column : ∀ t : Int, t = 1 ∨ t = 2 → ∀ x y : Int, is_valid_position x y = true →
    (bf.cells y x).team = t → x = home_column t ∨ x = home_column t + advance t
  entry : ∀ t : Int, t = 1 ∨ t = 2 → ∀ p ∈ posList bf t, is_valid_position p.x p.y = true ∧
    ((p.x = home_column t ∧ (bf.cells p.y p.x).team = t ∧
        (bf.cells p.y (p.x + advance t)).unit = none) ∨
      (p.x = home_column t + 2 * advance t ∧ (bf.cells p.y (p.x - advance t)).team = t))

/-- The iteration of the army loop of `team` for entry `i` finds a unit under
the entry: `attacker` is not `NULL`. -/
def AttackerPresent (s : Battle) (team : Int) (i : Nat) : Prop :=
  (s.game.bf.cells (s.game.bf.positions (team - 1) (i : Int)).y
    (s.game.bf.positions (team - 1) (i : Int)).x).unit ≠ none

/-- The invariant of the AI battle: a deployed battlefield whose counts agree
with the live counts of the loop. -/
structure BattleInv (s : Battle) : Prop where
  deployed : Deployed s.game.bf
  counts : CountsAgree s.game.bf s.n1 s.n2

/-- The states the loop of `simulate_battle_curses` reaches from `s0` through
iterations of its two army loops that find a unit under their entry (in any
order and number, for entries below the count of the acting team) and
through its budget step. -/
inductive BattleReach (s0 : Battle) : Battle → Prop
  | start : BattleReach s0 s0
  | action (s : Battle) (team : Int) (i : Nat) :
      BattleReach s0 s → (team = 1 ∨ team = 2) →
      (i : Int) < s.game.bf.unit_counts (team - 1) → AttackerPresent s team i →
      BattleReach s0 (ai_unit_action s team i)
  | budget (s : Battle) (m : Int) : BattleReach s0 s → BattleReach s0 { s with max_rounds := m }

/-- Every iteration the army loop of `team` makes from index `i` on, started
in state `s`, finds a unit under its entry. -/
def army_loop_present (team : Int) : Nat → Nat → Battle → Bool
  | 0, _, _ => true
  | fuel + 1, i, s =>
    if (i : Int) < s.game.bf.unit_counts (team - 1) then
      (s.game.bf.cells (s.game.bf.positions (team - 1) (i : Int)).y
          (s.game.bf.positions (team - 1) (i : Int)).x).unit.isSome &&
        army_loop_present team fuel (i + 1) (ai_unit_action s team i)
    else true

/-- Every iteration of the two army loops in the round that starts in state
`s` finds a unit under its entry. -/
def round_present (s : Battle) : Bool :=
  (if s.n1 > 0 ∧ s.n2 > 0 then army_loop_present 1 5 0 s else true) &&
    (if (if s.n1 > 0 ∧ s.n2 > 0 then army_loop 1 5 0 s else s).n2 > 0 ∧
        (if s.n1 > 0 ∧ s.n2 > 0 then army_loop 1 5 0 s else s).n1 > 0 then
      army_loop_present 2 5 0 (if s.n1 > 0 ∧ s.n2 > 0 then army_loop 1 5 0 s else s)
    else true)

/-! ## Auxiliary lemmas: arrays as lists -/

theorem valid_pos_iff (x y : Int) :
    is_valid_position x y = true ↔ 0 ≤ x ∧ x < 10 ∧ 0 ≤ y ∧ y < 10 := by
  simp [is_valid_position, MAX_GRID_WIDTH, MAX_GRID_HEIGHT, and_assoc]

theorem manhattan_distance_eq_abs (x1 y1 x2 y2 : Int) :
    manhattan_distance x1 y1 x2 y2 = |x1 - x2| + |y1 - y2| := by
  simp [manhattan_distance, Int.natCast_natAbs]

theorem chebyshev_distance_eq_abs (x1 y1 x2 y2 : Int) :
    chebyshev_distance x1 y1 x2 y2 = max |x1 - x2| |y1 - y2| := by
  simp [chebyshev_distance, Int.natCast_natAbs]

theorem set1_same {α : Type} (a : Int → α) (i : Int) (v : α) : set1 a i v i = v := by
  simp [set1]

theorem set1_other {α : Type} (a : Int → α) (i k : Int) (v : α) (h : k ≠ i) :
    set1 a i v k = a k := by
  simp [set1, h]

theorem rowList_length (row : Int → Position) (n : Int) : (rowList row n).length = n.toNat := by
  simp [rowList]

theorem rowList_getElem (row : Int → Position) (n : Int) (i : Nat)
    (h : i < (rowList row n).length) : (rowList row n)[i] = row (i : Int) := by
  simp [rowList]

theorem mem_rowList {row : Int → Position} {n : Int} {p : Position} :
    p ∈ rowList row n ↔ ∃ i : Nat, i < n.toNat ∧ row (i : Int) = p := by
  simp [rowList]

theorem rowList_congr {row row1 : Int → Position} {n : Int}
    (h : ∀ i : Nat, i < n.toNat → row1 (i : Int) = row (i : Int)) :
    rowList row1 n = rowList row n := by
  apply List.ext_getElem
  · simp [rowList_length]
  · intro i h1 h2
    rw [rowList_getElem, rowList_getElem]
    exact h i (by simpa [rowList_length] using h1)

theorem rowList_append (row : Int → Position) (n : Int) (p : Position) (hn : 0 ≤ n) :
    rowList (set1 row n p) (n + 1) = rowList row n ++ [p] := by
  obtain ⟨m, rfl⟩ := Int.eq_ofNat_of_zero_le hn
  have h1 : ((m : Int) + 1).toNat = m + 1 := by omega
  simp only [rowList, h1, List.range_succ, List.map_append, List.map_cons, List.map_nil,
    Int.toNat_ofNat, set1_same]
  congr 1
  apply List.map_congr_left
  intro i hi
  have : i < m := List.mem_range.mp hi
  exact set1_other _ _ _ _ (by omega)

theorem rowList_set (row : Int → Position) (n : Int) (i : Nat) (p : Position) :
    rowList (set1 row (i : Int) p) n = (rowList row n).set i p := by
  apply List.ext_getElem
  · simp [rowList_length]
  · intro k h1 h2
    rw [rowList_getElem, List.getElem_set]
    by_cases hk : i = k
    · subst hk; simp [set1_same]
    · rw [if_neg hk, rowList_getElem, set1_other]
      omega

theorem find_range_some (p : Nat → Bool) (n i : Nat) :
    (List.range n).find? p = some i ↔ i < n ∧ p i = true ∧ ∀ j, j < i → p j = false := by
  induction n generalizing i with
  | zero => simp
  | succ n ih =>
    rw [List.range_succ, List.find?_append]
    cases hf : (List.range n).find? p with
    | some k =>
      obtain ⟨hk, hpk, hklt⟩ := (ih k).mp hf
      simp only [Option.or_some, Option.some.injEq]
      constructor
      · rintro rfl
        exact ⟨by omega, hpk, hklt⟩
      · rintro ⟨_, hpi, hlt⟩
        rcases Nat.lt_trichotomy k i with h | h | h
        · rw [hlt k h] at hpk; exact absurd hpk (by simp)
        · exact h
        · rw [hklt i h] at hpi; exact absurd hpi (by simp)
    | none =>
      have hnone : ∀ j, j < n → p j = false := by
        intro j hj
        have := List.find?_eq_none.mp hf j (List.mem_range.mpr hj)
        simpa using this
      simp only [Option.none_or]
      by_cases hpn : p n = true
      · simp only [List.find?_cons, hpn, Option.some.injEq]
        constructor
        · rintro rfl
          exact ⟨by omega, hpn, hnone⟩
        · rintro ⟨hi, hpi, hlt⟩
          rcases Nat.lt_trichotomy n i with h | h | h
          · omega
          · exact h
          · rw [hnone i h] at hpi; exact absurd hpi (by simp)
      · have hpn1 : p n = false := by simpa using hpn
        simp only [List.find?_cons, hpn1, List.find?_nil]
        constructor
        · intro h; exact absurd h (by simp)
        · rintro ⟨hi, hpi, _⟩
          have : i < n ∨ i = n := by omega
          rcases this with h | h
          · rw [hnone i h] at hpi; exact absurd hpi (by simp)
          · subst h; rw [hpn1] at hpi; exact absurd hpi (by simp)

theorem find_range_none (p : Nat → Bool) (n : Nat) :
    (List.range n).find? p = none ↔ ∀ j, j < n → p j = false := by
  rw [List.find?_eq_none]
  constructor
  · intro h j hj
    simpa using h j (List.mem_range.mpr hj)
  · intro h j hj
    simp [h j (List.mem_range.mp hj)]

theorem find_pos_some {row : Int → Position} {n x y : Int} {i : Nat} :
    find_pos row n x y = some i ↔
      i < n.toNat ∧ row (i : Int) = ⟨x, y⟩ ∧ ∀ j : Nat, j < i → row (j : Int) ≠ ⟨x, y⟩ := by
  unfold find_pos
  rw [find_range_some]
  have key : ∀ k : Nat, (decide ((row (k : Int)).x = x) && decide ((row (k : Int)).y = y)) = true ↔
      row (k : Int) = ⟨x, y⟩ := by
    intro k
    cases hr : row (k : Int) with
    | mk a b => simp
  constructor
  · rintro ⟨h1, h2, h3⟩
    refine ⟨h1, (key i).mp h2, fun j hj hc => ?_⟩
    have := h3 j hj
    rw [(key j).mpr hc] at this
    exact absurd this (by simp)
  · rintro ⟨h1, h2, h3⟩
    refine ⟨h1, (key i).mpr h2, fun j hj => ?_⟩
    by_contra hc
    exact h3 j hj ((key j).mp (by simpa using hc))

theorem find_pos_none {row : Int → Position} {n x y : Int} :
    find_pos row n x y = none ↔ (⟨x, y⟩ : Position) ∉ rowList row n := by
  unfold find_pos
  rw [find_range_none, mem_rowList]
  have key : ∀ k : Nat, (decide ((row (k : Int)).x = x) && decide ((row (k : Int)).y = y)) = true ↔
      row (k : Int) = ⟨x, y⟩ := by
    intro k
    cases hr : row (k : Int) with
    | mk a b => simp
  constructor
  · rintro h ⟨i, hi, hr⟩
    have := h i hi
    rw [(key i).mpr hr] at this
    exact absurd this (by simp)
  · intro h j hj
    by_contra hc
    exact h ⟨j, hj, (key j).mp (by simpa using hc)⟩

theorem find_pos_of_mem {row : Int → Position} {n x y : Int}
    (h : (⟨x, y⟩ : Position) ∈ rowList row n) : ∃ i, find_pos row n x y = some i := by
  cases hf : find_pos row n x y with
  | some i => exact ⟨i, rfl⟩
  | none => exact absurd h (find_pos_none.mp hf)

theorem foldl_shift (m : Nat) (row : Int → Position) (s : Nat) (k : Int) :
    (List.range' s m).foldl (fun r (j : Nat) => set1 r (j : Int) (r ((j : Int) + 1))) row k =
      if (s : Int) ≤ k ∧ k < (s : Int) + (m : Int) then row (k + 1) else row k := by
  induction m generalizing row s with
  | zero =>
    simp only [List.range'_zero, List.foldl_nil]
    rw [if_neg]; omega
  | succ m ih =>
    simp only [List.range'_succ, List.foldl_cons]
    rw [ih]
    by_cases h1 : ((s : Int) ≤ k ∧ k < (s : Int) + ((m + 1 : Nat) : Int))
    · rw [if_pos h1]
      by_cases h2 : k = (s : Int)
      · subst h2
        rw [if_neg (by push_cast; omega), set1_same]
      · rw [if_pos (by push_cast; omega), set1_other _ _ _ _ (by omega)]
    · rw [if_neg h1, if_neg (by push_cast at h1 ⊢; omega), set1_other _ _ _ _ (by push_cast at h1; omega)]

theorem shift_down_apply (row : Int → Position) (i : Nat) (n : Int) (k : Int) :
    shift_down row i n k = if (i : Int) ≤ k ∧ k < n - 1 then row (k + 1) else row k := by
  unfold shift_down
  rw [foldl_shift]
  by_cases h : (i : Int) ≤ k ∧ k < n - 1
  · rw [if_pos h, if_pos]; omega
  · rw [if_neg h, if_neg]; omega

theorem rowList_shift (row : Int → Position) (i : Nat) (n : Int) (hi : i < n.toNat) :
    rowList (shift_down row i n) (n - 1) = (rowList row n).eraseIdx i := by
  apply List.ext_getElem
  · rw [List.length_eraseIdx_of_lt (by rw [rowList_length]; exact hi), rowList_length,
      rowList_length]
    omega
  · intro k h1 h2
    rw [rowList_getElem, List.getElem_eraseIdx, shift_down_apply]
    rw [rowList_length] at h1
    by_cases hk : k < i
    · rw [dif_pos hk, if_neg (by omega), rowList_getElem]
    · rw [dif_neg hk, if_pos (by omega), rowList_getElem]
      push_cast; rfl

theorem set2_same {α : Type} (a : Int → Int → α) (i j : Int) (v : α) : set2 a i j v i j = v := by
  simp [set2]

theorem set2_other {α : Type} (a : Int → Int → α) (i j k l : Int) (v : α)
    (h : ¬ (k = i ∧ l = j)) : set2 a i j v k l = a k l := by
  simp only [set2, if_neg h]

theorem set2_row_same {α : Type} (a : Int → Int → α) (i j : Int) (v : α) :
    set2 a i j v i = set1 (a i) j v := by
  funext l
  simp [set2, set1]

theorem set2_row_other {α : Type} (a : Int → Int → α) (i j k : Int) (v : α) (h : k ≠ i) :
    set2 a i j v k = a k := by
  funext l
  simp [set2, h]

/-! ## Auxiliary lemmas: what each grid operation does -/

theorem place_unit_noop_invalid (bf : Battlefield) (u : UnitRef) (team x y : Int)
    (hv : is_valid_position x y = false) : place_unit bf u team x y = bf := by
  simp [place_unit, hv]

theorem place_unit_noop_full (bf : Battlefield) (u : UnitRef) (team x y : Int)
    (hc : 5 ≤ bf.unit_counts (team - 1)) : place_unit bf u team x y = bf := by
  unfold place_unit
  by_cases hv : is_valid_position x y = true
  · simp [hv, hc]
  · simp [hv]

theorem place_unit_eq (bf : Battlefield) (u : UnitRef) (team x y : Int)
    (hv : is_valid_position x y = true) (hc : bf.unit_counts (team - 1) < 5) :
    place_unit bf u team x y =
      { bf with
        cells := set2 bf.cells y x ⟨some u, team⟩
        positions := set2 bf.positions (team - 1) (bf.unit_counts (team - 1)) ⟨x, y⟩
        unit_counts := set1 bf.unit_counts (team - 1) (bf.unit_counts (team - 1) + 1) } := by
  have : ¬ (5 ≤ bf.unit_counts (team - 1)) := by omega
  simp [place_unit, hv, this]

theorem place_unit_posList_same (bf : Battlefield) (u : UnitRef) (team x y : Int)
    (hv : is_valid_position x y = true) (hc : bf.unit_counts (team - 1) < 5)
    (h0 : 0 ≤ bf.unit_counts (team - 1)) :
    posList (place_unit bf u team x y) team = posList bf team ++ [⟨x, y⟩] := by
  rw [place_unit_eq bf u team x y hv hc]
  simp only [posList, set2_row_same, set1_same]
  exact rowList_append _ _ _ h0

theorem place_unit_posList_other (bf : Battlefield) (u : UnitRef) (team x y t : Int)
    (ht : t ≠ team) : posList (place_unit bf u team x y) t = posList bf t := by
  by_cases hv : is_valid_position x y = true
  · by_cases hc : bf.unit_counts (team - 1) < 5
    · rw [place_unit_eq bf u team x y hv hc]
      have h : t - 1 ≠ team - 1 := by omega
      simp only [posList, set2_row_other _ _ _ _ _ h, set1_other _ _ _ _ h]
    · rw [place_unit_noop_full bf u team x y (by omega)]
  · rw [place_unit_noop_invalid bf u team x y (by simpa using hv)]

theorem remove_unit_noop_invalid (bf : Battlefield) (x y : Int)
    (hv : is_valid_position x y = false) : remove_unit bf x y = bf := by
  simp [remove_unit, hv]

theorem remove_unit_noop_untagged (bf : Battlefield) (x y : Int)
    (h0 : (bf.cells y x).team = 0) : remove_unit bf x y = bf := by
  unfold remove_unit
  by_cases hv : is_valid_position x y = true
  · simp [hv, h0]
  · simp [hv]

theorem remove_unit_cells (bf : Battlefield) (x y : Int)
    (hv : is_valid_position x y = true) (ht : (bf.cells y x).team ≠ 0) :
    (remove_unit bf x y).cells = set2 bf.cells y x ⟨none, 0⟩ := by
  simp [remove_unit, hv, ht]

theorem remove_unit_counts (bf : Battlefield) (x y : Int)
    (hv : is_valid_position x y = true) (ht : (bf.cells y x).team ≠ 0) :
    (remove_unit bf x y).unit_counts =
      set1 bf.unit_counts ((bf.cells y x).team - 1)
        (bf.unit_counts ((bf.cells y x).team - 1) - 1) := by
  simp [remove_unit, hv, ht]

theorem remove_unit_posList_other (bf : Battlefield) (x y t : Int)
    (ht : t ≠ (bf.cells y x).team) : posList (remove_unit bf x y) t = posList bf t := by
  by_cases hv : is_valid_position x y = true
  · by_cases h0 : (bf.cells y x).team = 0
    · rw [remove_unit_noop_untagged bf x y h0]
    · have h : t - 1 ≠ (bf.cells y x).team - 1 := by omega
      simp only [remove_unit, hv, h0, posList, Bool.not_true, Bool.false_eq_true, if_false,
        set1_other _ _ _ _ h]
  · rw [remove_unit_noop_invalid bf x y (by simpa using hv)]

theorem remove_unit_posList_same (bf : Battlefield) (x y : Int) (i : Nat)
    (hv : is_valid_position x y = true) (ht : (bf.cells y x).team ≠ 0)
    (hf : find_pos (bf.positions ((bf.cells y x).team - 1))
      (bf.unit_counts ((bf.cells y x).team - 1)) x y = some i) :
    posList (remove_unit bf x y) (bf.cells y x).team =
      (posList bf (bf.cells y x).team).eraseIdx i := by
  have hi := (find_pos_some.mp hf).1
  simp only [remove_unit, hv, ht, posList, Bool.not_true, Bool.false_eq_true, if_false,
    set1_same, hf]
  exact rowList_shift _ _ _ hi

theorem is_valid_move_iff (bf : Battlefield) (fx fy tx ty : Int) :
    is_valid_move bf fx fy tx ty = true ↔
      (is_valid_position tx ty = true ∧ (bf.cells ty tx).unit = none ∧
        manhattan_distance fx fy tx ty ≤ 2) := by
  unfold is_valid_move
  by_cases hv : is_valid_position tx ty = true
  · by_cases hu : (bf.cells ty tx).unit = none
    · simp [hv, hu]
    · simp [hv, hu]
  · simp [hv]

theorem move_unit_fst (bf : Battlefield) (fx fy tx ty : Int) :
    (move_unit bf fx fy tx ty).1 = is_valid_move bf fx fy tx ty := by
  unfold move_unit
  cases is_valid_move bf fx fy tx ty <;> simp

theorem move_unit_fail (bf : Battlefield) (fx fy tx ty : Int)
    (h : is_valid_move bf fx fy tx ty = false) : move_unit bf fx fy tx ty = (false, bf) := by
  simp [move_unit, h]

theorem move_unit_cells (bf : Battlefield) (fx fy tx ty : Int)
    (h : is_valid_move bf fx fy tx ty = true) :
    (move_unit bf fx fy tx ty).2.cells =
      set2 (set2 bf.cells ty tx ⟨(bf.cells fy fx).unit, (bf.cells fy fx).team⟩) fy fx ⟨none, 0⟩ := by
  simp [move_unit, h]

theorem move_unit_counts (bf : Battlefield) (fx fy tx ty : Int) :
    (move_unit bf fx fy tx ty).2.unit_counts = bf.unit_counts := by
  unfold move_unit
  cases is_valid_move bf fx fy tx ty <;> simp

theorem move_unit_posList_other (bf : Battlefield) (fx fy tx ty t : Int)
    (ht : t ≠ (bf.cells fy fx).team) :
    posList (move_unit bf fx fy tx ty).2 t = posList bf t := by
  unfold move_unit
  cases is_valid_move bf fx fy tx ty
  · simp
  · have h : t - 1 ≠ (bf.cells fy fx).team - 1 := by omega
    simp only [posList, Bool.not_true, Bool.false_eq_true, if_false, set1_other _ _ _ _ h]

theorem move_unit_posList_same (bf : Battlefield) (fx fy tx ty : Int) (i : Nat)
    (h : is_valid_move bf fx fy tx ty = true)
    (hf : find_pos (bf.positions ((bf.cells fy fx).team - 1))
      (bf.unit_counts ((bf.cells fy fx).team - 1)) fx fy = some i) :
    posList (move_unit bf fx fy tx ty).2 (bf.cells fy fx).team =
      (posList bf (bf.cells fy fx).team).set i ⟨tx, ty⟩ := by
  simp only [move_unit, h, posList, Bool.not_true, Bool.false_eq_true, if_false, set1_same, hf]
  exact rowList_set _ _ _ _

/-! ## Auxiliary lemmas: the grid invariants -/

theorem typed_init : CellsTyped init_battlefield := by
  intro x y _
  exact Or.inl ⟨rfl, rfl⟩

theorem mirror_init : ListsMirror init_battlefield := by
  refine ⟨fun t _ => ?_, fun t _ => ?_, fun t ht p => ?_⟩
  · simp [init_battlefield]
  · simp [posList, rowList, init_battlefield]
  · simp only [posList, rowList, init_battlefield, Int.toNat_zero, List.range_zero, List.map_nil,
      List.not_mem_nil, false_iff, not_and]
    intro _ h
    omega

theorem typed_place (bf : Battlefield) (u : UnitRef) (team x y : Int) (hc : CellsTyped bf)
    (ht : team = 1 ∨ team = 2) : CellsTyped (place_unit bf u team x y) := by
  by_cases hv : is_valid_position x y = true
  · by_cases hn : bf.unit_counts (team - 1) < 5
    · rw [place_unit_eq bf u team x y hv hn]
      intro a b hab
      by_cases hp : b = y ∧ a = x
      · obtain ⟨rfl, rfl⟩ := hp
        right
        simp only [set2_same]
        exact ⟨by simp, ht⟩
      · simp only [set2_other _ _ _ _ _ _ hp]
        exact hc a b hab
    · rw [place_unit_noop_full bf u team x y (by omega)]; exact hc
  · rw [place_unit_noop_invalid bf u team x y (by simpa using hv)]; exact hc

theorem mirror_place (bf : Battlefield) (u : UnitRef) (team x y : Int) (hm : ListsMirror bf)
    (ht : team = 1 ∨ team = 2) (h0 : (bf.cells y x).team = 0) :
    ListsMirror (place_unit bf u team x y) := by
  by_cases hv : is_valid_position x y = true
  · by_cases hn : bf.unit_counts (team - 1) < 5
    · have hr := hm.count_range team ht
      have hnot : (⟨x, y⟩ : Position) ∉ posList bf team := by
        intro hmem
        have := ((hm.mem_iff team ht _).mp hmem).2
        simp only at this
        omega
      have hcells : (place_unit bf u team x y).cells = set2 bf.cells y x ⟨some u, team⟩ := by
        rw [place_unit_eq bf u team x y hv hn]
      have hcnt : (place_unit bf u team x y).unit_counts =
          set1 bf.unit_counts (team - 1) (bf.unit_counts (team - 1) + 1) := by
        rw [place_unit_eq bf u team x y hv hn]
      refine ⟨fun t ht1 => ?_, fun t ht1 => ?_, fun t ht1 p => ?_⟩
      · rw [hcnt]
        by_cases hte : t = team
        · subst hte; rw [set1_same]; omega
        · rw [set1_other _ _ _ _ (by omega)]; exact hm.count_range t ht1
      · by_cases hte : t = team
        · subst hte
          rw [place_unit_posList_same bf u t x y hv hn hr.1]
          rw [List.nodup_append]
          refine ⟨hm.nodup t ht, List.nodup_singleton _, ?_⟩
          intro q hq hq1
          rw [List.mem_singleton] at hq1
          subst hq1
          exact hnot hq
        · rw [place_unit_posList_other bf u team x y t hte]; exact hm.nodup t ht1
      · rw [hcells]
        by_cases hte : t = team
        · subst hte
          rw [place_unit_posList_same bf u t x y hv hn hr.1, List.mem_append, List.mem_singleton]
          by_cases hp : p.y = y ∧ p.x = x
          · obtain ⟨hy, hx⟩ := hp
            have : p = ⟨x, y⟩ := by cases p; simp_all
            subst this
            simp [set2_same, hv]
          · rw [set2_other _ _ _ _ _ _ hp, hm.mem_iff t ht]
            have : p ≠ ⟨x, y⟩ := by
              intro h; subst h; exact hp ⟨rfl, rfl⟩
            simp [this]
        · rw [place_unit_posList_other bf u team x y t hte, hm.mem_iff t ht1]
          by_cases hp : p.y = y ∧ p.x = x
          · obtain ⟨hy, hx⟩ := hp
            rw [hy, hx, set2_same, h0]
            constructor
            · rintro ⟨_, h⟩; omega
            · rintro ⟨_, h⟩; exact absurd h.symm hte
          · rw [set2_other _ _ _ _ _ _ hp]
    · rw [place_unit_noop_full bf u team x y (by omega)]; exact hm
  · rw [place_unit_noop_invalid bf u team x y (by simpa using hv)]; exact hm

theorem mem_set_nodup {l : List Position} {i : Nat} (hl : l.Nodup) (hi : i < l.length)
    (b q : Position) : q ∈ l.set i b ↔ q = b ∨ (q ∈ l ∧ q ≠ l[i]) := by
  constructor
  · intro hq
    obtain ⟨k, hk, rfl⟩ := List.getElem_of_mem hq
    rw [List.getElem_set]
    by_cases hik : i = k
    · left; rw [if_pos hik]
    · right
      rw [if_neg hik]
      rw [List.length_set] at hk
      refine ⟨List.getElem_mem _, fun h => hik ?_⟩
      exact ((List.Nodup.getElem_inj_iff hl).mp h).symm
  · rintro (rfl | ⟨hq, hne⟩)
    · exact List.mem_set _ _ hi _
    · obtain ⟨k, hk, rfl⟩ := List.getElem_of_mem hq
      have hik : i ≠ k := by
        intro h; subst h; exact hne rfl
      have hk2 : k < (l.set i b).length := by rw [List.length_set]; exact hk
      have : (l.set i b)[k] = l[k] := by
        rw [List.getElem_set, if_neg hik]
      rw [← this]
      exact List.getElem_mem _

theorem typed_tag {bf : Battlefield} {x y : Int} (hc : CellsTyped bf)
    (hv : is_valid_position x y = true) (ht : (bf.cells y x).team ≠ 0) :
    (bf.cells y x).unit ≠ none ∧ ((bf.cells y x).team = 1 ∨ (bf.cells y x).team = 2) := by
  rcases hc x y hv with h | h
  · exact absurd h.2 ht
  · exact h

theorem typed_unit {bf : Battlefield} {x y : Int} (hc : CellsTyped bf)
    (hv : is_valid_position x y = true) (hu : (bf.cells y x).unit ≠ none) :
    (bf.cells y x).team = 1 ∨ (bf.cells y x).team = 2 := by
  rcases hc x y hv with h | h
  · exact absurd h.1 hu
  · exact h.2

theorem typed_empty {bf : Battlefield} {x y : Int} (hc : CellsTyped bf)
    (hv : is_valid_position x y = true) (hu : (bf.cells y x).unit = none) :
    (bf.cells y x).team = 0 := by
  rcases hc x y hv with h | h
  · exact h.2
  · exact absurd hu h.1

/-- Under the mirror invariant the search of `remove_unit` / `move_unit` for a
tagged in-bounds cell finds its entry. -/
theorem mirror_find {bf : Battlefield} {x y : Int} (hm : ListsMirror bf)
    (hv : is_valid_position x y = true)
    (ht : (bf.cells y x).team = 1 ∨ (bf.cells y x).team = 2) :
    ∃ i : Nat, find_pos (bf.positions ((bf.cells y x).team - 1))
        (bf.unit_counts ((bf.cells y x).team - 1)) x y = some i ∧
      ∃ h : i < (posList bf (bf.cells y x).team).length,
        (posList bf (bf.cells y x).team)[i] = ⟨x, y⟩ := by
  have hmem : (⟨x, y⟩ : Position) ∈ posList bf (bf.cells y x).team :=
    (hm.mem_iff _ ht _).mpr ⟨hv, rfl⟩
  obtain ⟨i, hi⟩ := find_pos_of_mem hmem
  have hs := find_pos_some.mp hi
  have hlen : i < (posList bf (bf.cells y x).team).length := by
    simp only [posList, rowList_length]; exact hs.1
  refine ⟨i, hi, hlen, ?_⟩
  simp only [posList, rowList_getElem]
  exact hs.2.1

theorem remove_unit_posList_erase (bf : Battlefield) (x y : Int) (hm : ListsMirror bf)
    (hv : is_valid_position x y = true)
    (ht : (bf.cells y x).team = 1 ∨ (bf.cells y x).team = 2) :
    posList (remove_unit bf x y) (bf.cells y x).team =
      (posList bf (bf.cells y x).team).erase ⟨x, y⟩ := by
  obtain ⟨i, hf, hlen, hget⟩ := mirror_find hm hv ht
  rw [remove_unit_posList_same bf x y i hv (by omega) hf, ← hget]
  exact ((hm.nodup _ ht).erase_getElem i hlen).symm

theorem typed_remove (bf : Battlefield) (x y : Int) (hc : CellsTyped bf) :
    CellsTyped (remove_unit bf x y) := by
  by_cases hv : is_valid_position x y = true
  · by_cases h0 : (bf.cells y x).team = 0
    · rw [remove_unit_noop_untagged bf x y h0]; exact hc
    · rw [CellsTyped, remove_unit_cells bf x y hv h0]
      intro a b hab
      by_cases hp : b = y ∧ a = x
      · obtain ⟨rfl, rfl⟩ := hp
        left
        simp only [set2_same]
        exact ⟨rfl, rfl⟩
      · simp only [set2_other _ _ _ _ _ _ hp]
        exact hc a b hab
  · rw [remove_unit_noop_invalid bf x y (by simpa using hv)]; exact hc

theorem mirror_remove (bf : Battlefield) (x y : Int) (hc : CellsTyped bf) (hm : ListsMirror bf) :
    ListsMirror (remove_unit bf x y) := by
  by_cases hv : is_valid_position x y = true
  · by_cases h0 : (bf.cells y x).team = 0
    · rw [remove_unit_noop_untagged bf x y h0]; exact hm
    · have hT := (typed_tag hc hv h0).2
      obtain ⟨i, hf, hlen, hget⟩ := mirror_find hm hv hT
      have hr := hm.count_range _ hT
      have hpos : 1 ≤ bf.unit_counts ((bf.cells y x).team - 1) := by
        have := (find_pos_some.mp hf).1
        omega
      refine ⟨fun t ht1 => ?_, fun t ht1 => ?_, fun t ht1 p => ?_⟩
      · rw [remove_unit_counts bf x y hv h0]
        by_cases hte : t = (bf.cells y x).team
        · subst hte; rw [set1_same]; omega
        · rw [set1_other _ _ _ _ (by omega)]; exact hm.count_range t ht1
      · by_cases hte : t = (bf.cells y x).team
        · subst hte
          rw [remove_unit_posList_erase bf x y hm hv hT]
          exact (hm.nodup _ hT).erase _
        · rw [remove_unit_posList_other bf x y t hte]; exact hm.nodup t ht1
      · rw [remove_unit_cells bf x y hv h0]
        by_cases hte : t = (bf.cells y x).team
        · subst hte
          rw [remove_unit_posList_erase bf x y hm hv hT, (hm.nodup _ hT).mem_erase_iff,
            hm.mem_iff _ hT]
          by_cases hp : p.y = y ∧ p.x = x
          · have hpe : p = ⟨x, y⟩ := by cases p; simp_all
            subst hpe
            simp only [set2_same, ne_eq, not_true_eq_false, false_and, false_iff, not_and]
            intro _ h
            exact h0 h.symm
          · rw [set2_other _ _ _ _ _ _ hp]
            have : p ≠ ⟨x, y⟩ := by
              intro h; subst h; exact hp ⟨rfl, rfl⟩
            simp [this]
        · rw [remove_unit_posList_other bf x y t hte, hm.mem_iff t ht1]
          by_cases hp : p.y = y ∧ p.x = x
          · obtain ⟨hy, hx⟩ := hp
            rw [hy, hx, set2_same]
            constructor
            · rintro ⟨_, h⟩; exact absurd h.symm hte
            · rintro ⟨_, h⟩; simp only at h; omega
          · rw [set2_other _ _ _ _ _ _ hp]
  · rw [remove_unit_noop_invalid bf x y (by simpa using hv)]; exact hm

theorem typed_move (bf : Battlefield) (fx fy tx ty : Int) (hc : CellsTyped bf)
    (hv : is_valid_position fx fy = true) (hu : (bf.cells fy fx).unit ≠ none) :
    CellsTyped (move_unit bf fx fy tx ty).2 := by
  cases hs : is_valid_move bf fx fy tx ty with
  | false => rw [move_unit_fail bf fx fy tx ty hs]; exact hc
  | true =>
    rw [CellsTyped, move_unit_cells bf fx fy tx ty hs]
    intro a b hab
    by_cases hp : b = fy ∧ a = fx
    · obtain ⟨rfl, rfl⟩ := hp
      left
      simp only [set2_same]
      exact ⟨rfl, rfl⟩
    · rw [set2_other _ _ _ _ _ _ hp]
      by_cases hq : b = ty ∧ a = tx
      · obtain ⟨rfl, rfl⟩ := hq
        right
        simp only [set2_same]
        exact ⟨hu, typed_unit hc hv hu⟩
      · rw [set2_other _ _ _ _ _ _ hq]
        exact hc a b hab

theorem mirror_move (bf : Battlefield) (fx fy tx ty : Int) (hc : CellsTyped bf)
    (hm : ListsMirror bf) (hv : is_valid_position fx fy = true)
    (hu : (bf.cells fy fx).unit ≠ none) : ListsMirror (move_unit bf fx fy tx ty).2 := by
  cases hs : is_valid_move bf fx fy tx ty with
  | false => rw [move_unit_fail bf fx fy tx ty hs]; exact hm
  | true =>
    obtain ⟨hvt, hut, _⟩ := (is_valid_move_iff bf fx fy tx ty).mp hs
    have hT := typed_unit hc hv hu
    have ht0 := typed_empty hc hvt hut
    obtain ⟨i, hf, hlen, hget⟩ := mirror_find hm hv hT
    have hne : ¬ (ty = fy ∧ tx = fx) := by
      rintro ⟨rfl, rfl⟩; exact hu hut
    have hto : (⟨tx, ty⟩ : Position) ∉ posList bf (bf.cells fy fx).team := by
      intro hmem
      have := ((hm.mem_iff _ hT _).mp hmem).2
      simp only at this
      omega
    refine ⟨fun t ht1 => ?_, fun t ht1 => ?_, fun t ht1 p => ?_⟩
    · rw [move_unit_counts]; exact hm.count_range t ht1
    · by_cases hte : t = (bf.cells fy fx).team
      · subst hte
        rw [move_unit_posList_same bf fx fy tx ty i hs hf]
        exact (hm.nodup _ hT).set hto
      · rw [move_unit_posList_other bf fx fy tx ty t hte]; exact hm.nodup t ht1
    · rw [move_unit_cells bf fx fy tx ty hs]
      by_cases hte : t = (bf.cells fy fx).team
      · subst hte
        rw [move_unit_posList_same bf fx fy tx ty i hs hf, mem_set_nodup (hm.nodup _ hT) hlen,
          hget, hm.mem_iff _ hT]
        by_cases hp : p.y = fy ∧ p.x = fx
        · have hpe : p = ⟨fx, fy⟩ := by cases p; simp_all
          subst hpe
          simp only [set2_same]
          constructor
          · rintro (h | ⟨_, h⟩)
            · rw [Position.mk.injEq] at h
              exact absurd ⟨h.2.symm, h.1.symm⟩ hne
            · exact absurd rfl h
          · rintro ⟨_, h⟩; omega
        · rw [set2_other _ _ _ _ _ _ hp]
          have hpn : p ≠ ⟨fx, fy⟩ := by
            intro h; subst h; exact hp ⟨rfl, rfl⟩
          by_cases hq : p.y = ty ∧ p.x = tx
          · have hpe : p = ⟨tx, ty⟩ := by cases p; simp_all
            subst hpe
            simp [set2_same, hvt]
          · rw [set2_other _ _ _ _ _ _ hq]
            have hqn : p ≠ ⟨tx, ty⟩ := by
              intro h; subst h; exact hq ⟨rfl, rfl⟩
            simp [hpn, hqn]
      · rw [move_unit_posList_other bf fx fy tx ty t hte, hm.mem_iff t ht1]
        by_cases hp : p.y = fy ∧ p.x = fx
        · obtain ⟨hy, hx⟩ := hp
          rw [hy, hx, set2_same]
          constructor
          · rintro ⟨_, h⟩; exact absurd h.symm hte
          · rintro ⟨_, h⟩; simp only at h; omega
        · rw [set2_other _ _ _ _ _ _ hp]
          by_cases hq : p.y = ty ∧ p.x = tx
          · obtain ⟨hy, hx⟩ := hq
            rw [hy, hx, set2_same, ht0]
            constructor
            · rintro ⟨_, h⟩; omega
            · rintro ⟨_, h⟩; exact absurd h.symm hte
          · rw [set2_other _ _ _ _ _ _ hq]

theorem typed_bf_one : CellsTyped bf_one :=
  typed_place _ _ _ _ _ typed_init (Or.inl rfl)

theorem mirror_bf_one : ListsMirror bf_one :=
  mirror_place _ _ _ _ _ mirror_init (Or.inl rfl) rfl

theorem typed_bf_two : CellsTyped bf_two :=
  typed_place _ _ _ _ _ typed_bf_one (Or.inr rfl)

theorem mirror_bf_two : ListsMirror bf_two :=
  mirror_place _ _ _ _ _ mirror_bf_one (Or.inr rfl) (by decide)

/-! ## Placement, removal and relocation -/

/-- C1 (as amended): on a battlefield whose position lists mirror the grid, for
a team in {1,2} with fewer than 5 placed units and an in-bounds cell `(x,y)`
that does not already carry that team's tag, after `place_unit` the cell
holds `u` with tag `team`, the team's position list contains `(x,y)` exactly
once, and the team's count is one more than before. -/
theorem place_unit_places (bf : Battlefield) (u : UnitRef) (team x y : Int)
    (hm : ListsMirror bf) (ht : team = 1 ∨ team = 2) (hn : bf.unit_counts (team - 1) < 5)
    (hv : is_valid_position x y = true) (hfree : (bf.cells y x).team ≠ team) :
    (place_unit bf u team x y).cells y x = ⟨some u, team⟩ ∧
    (posList (place_unit bf u team x y) team).count ⟨x, y⟩ = 1 ∧
    (place_unit bf u team x y).unit_counts (team - 1) = bf.unit_counts (team - 1) + 1 := by
  have hnot : (⟨x, y⟩ : Position) ∉ posList bf team := fun hmem =>
    hfree ((hm.mem_iff team ht _).mp hmem).2
  refine ⟨?_, ?_, ?_⟩
  · rw [place_unit_eq bf u team x y hv hn]
    simp only [set2_same]
  · rw [place_unit_posList_same bf u team x y hv hn (hm.count_range team ht).1, List.count_append,
      List.count_eq_zero_of_not_mem hnot, List.count_singleton_self]
  · rw [place_unit_eq bf u team x y hv hn]
    simp only [set1_same]

/-- Witness of C1: placing unit 0 for team 1 on (0,0) of the fresh battlefield. -/
theorem place_unit_places_witness :
    (place_unit init_battlefield 0 1 0 0).cells 0 0 = ⟨some 0, 1⟩ ∧
    (posList (place_unit init_battlefield 0 1 0 0) 1).count ⟨0, 0⟩ = 1 ∧
    (place_unit init_battlefield 0 1 0 0).unit_counts (1 - 1) =
      init_battlefield.unit_counts (1 - 1) + 1 :=
  place_unit_places init_battlefield 0 1 0 0 mirror_init (Or.inl rfl) (by decide) (by decide)
    (by decide)

/-- Counterexample to C1 as stated: `bf_one` mirrors its grid, team 1 has one
unit (fewer than 5) and (0,0) is in bounds, yet placing a second unit of
team 1 on the occupied cell (0,0) lists (0,0) twice. -/
theorem place_unit_on_own_cell_lists_twice :
    CellsTyped bf_one ∧ ListsMirror bf_one ∧ bf_one.unit_counts (1 - 1) < 5 ∧
    is_valid_position 0 0 = true ∧
    (posList (place_unit bf_one 1 1 0 0) 1).count ⟨0, 0⟩ = 2 :=
  ⟨typed_bf_one, mirror_bf_one, by decide, by decide, by decide⟩

/-- C2: `move_unit` returns true exactly when the destination is in bounds, the
destination cell holds no unit and the Manhattan distance from the source is
at most 2; whenever it returns false the battlefield is exactly as before. -/
theorem move_unit_legality (bf : Battlefield) (fx fy tx ty : Int) :
    ((move_unit bf fx fy tx ty).1 = true ↔
      (is_valid_position tx ty = true ∧ (bf.cells ty tx).unit = none ∧
        manhattan_distance fx fy tx ty ≤ 2)) ∧
    ((move_unit bf fx fy tx ty).1 = false → (move_unit bf fx fy tx ty).2 = bf) := by
  constructor
  · rw [move_unit_fst, is_valid_move_iff]
  · intro h
    rw [move_unit_fst] at h
    rw [move_unit_fail bf fx fy tx ty h]

/-- Witness of C2: the unit on (0,0) of `bf_two` cannot move onto the occupied
cell (1,0), and the refused move leaves the battlefield as it was. -/
theorem move_unit_legality_witness :
    (move_unit bf_two 0 0 1 0).1 = false ∧ (move_unit bf_two 0 0 1 0).2 = bf_two :=
  ⟨by decide, (move_unit_legality bf_two 0 0 1 0).2 (by decide)⟩

/-- C3: on a battlefield whose position lists mirror the grid, after a
successful `move_unit` from an occupied in-bounds cell the source cell is
empty, the destination cell holds the same unit with the same team tag, the
entry of the team's position list that was equal to the source is the
destination at the same index, and every other list entry, every other cell
and both counts are unchanged. -/
theorem move_unit_relocates (bf : Battlefield) (fx fy tx ty : Int)
    (hc : CellsTyped bf) (hm : ListsMirror bf) (hv : is_valid_position fx fy = true)
    (hu : (bf.cells fy fx).unit ≠ none) (hs : (move_unit bf fx fy tx ty).1 = true) :
    (move_unit bf fx fy tx ty).2.cells fy fx = ⟨none, 0⟩ ∧
    (move_unit bf fx fy tx ty).2.cells ty tx = bf.cells fy fx ∧
    (∃ i : Nat, (posList bf (bf.cells fy fx).team)[i]? = some ⟨fx, fy⟩ ∧
      posList (move_unit bf fx fy tx ty).2 (bf.cells fy fx).team =
        (posList bf (bf.cells fy fx).team).set i ⟨tx, ty⟩) ∧
    (∀ t : Int, t ≠ (bf.cells fy fx).team →
      posList (move_unit bf fx fy tx ty).2 t = posList bf t) ∧
    (∀ r c : Int, ¬ (r = fy ∧ c = fx) → ¬ (r = ty ∧ c = tx) →
      (move_unit bf fx fy tx ty).2.cells r c = bf.cells r c) ∧
    (move_unit bf fx fy tx ty).2.unit_counts = bf.unit_counts := by
  rw [move_unit_fst] at hs
  obtain ⟨_, hut, _⟩ := (is_valid_move_iff bf fx fy tx ty).mp hs
  have hT := typed_unit hc hv hu
  obtain ⟨i, hf, hlen, hget⟩ := mirror_find hm hv hT
  have hne : ¬ (ty = fy ∧ tx = fx) := by
    rintro ⟨rfl, rfl⟩; exact hu hut
  refine ⟨?_, ?_, ⟨i, ?_, move_unit_posList_same bf fx fy tx ty i hs hf⟩,
    fun t ht => move_unit_posList_other bf fx fy tx ty t ht, fun r c h1 h2 => ?_,
    move_unit_counts bf fx fy tx ty⟩
  · rw [move_unit_cells bf fx fy tx ty hs, set2_same]
  · rw [move_unit_cells bf fx fy tx ty hs, set2_other _ _ _ _ _ _ hne, set2_same]
  · rw [List.getElem?_eq_getElem hlen, hget]
  · rw [move_unit_cells bf fx fy tx ty hs, set2_other _ _ _ _ _ _ h1, set2_other _ _ _ _ _ _ h2]

/-- Witness of C3: on `bf_two` the unit of team 1 moves from (0,0) to (0,1). -/
theorem move_unit_relocates_witness :
    (move_unit bf_two 0 0 0 1).2.cells 0 0 = ⟨none, 0⟩ ∧
    (move_unit bf_two 0 0 0 1).2.cells 1 0 = bf_two.cells 0 0 ∧
    (∃ i : Nat, (posList bf_two (bf_two.cells 0 0).team)[i]? = some ⟨0, 0⟩ ∧
      posList (move_unit bf_two 0 0 0 1).2 (bf_two.cells 0 0).team =
        (posList bf_two (bf_two.cells 0 0).team).set i ⟨0, 1⟩) ∧
    (∀ t : Int, t ≠ (bf_two.cells 0 0).team →
      posList (move_unit bf_two 0 0 0 1).2 t = posList bf_two t) ∧
    (∀ r c : Int, ¬ (r = 0 ∧ c = 0) → ¬ (r = 1 ∧ c = 0) →
      (move_unit bf_two 0 0 0 1).2.cells r c = bf_two.cells r c) ∧
    (move_unit bf_two 0 0 0 1).2.unit_counts = bf_two.unit_counts :=
  move_unit_relocates bf_two 0 0 0 1 typed_bf_two mirror_bf_two (by decide) (by decide)
    (by decide)

/-- C4: on a battlefield whose position lists mirror the grid, after
`remove_unit` on an occupied in-bounds cell `(x,y)` the cell is empty (no
unit, team tag 0), the owning team's count is one less, that team's position
list is the old list with the entry `(x,y)` excised (the other entries keep
their order), and every other team's list and count are unchanged. -/
theorem remove_unit_excises (bf : Battlefield) (x y : Int)
    (hc : CellsTyped bf) (hm : ListsMirror bf) (hv : is_valid_position x y = true)
    (hu : (bf.cells y x).unit ≠ none) :
    (remove_unit bf x y).cells y x = ⟨none, 0⟩ ∧
    (remove_unit bf x y).unit_counts ((bf.cells y x).team - 1) =
      bf.unit_counts ((bf.cells y x).team - 1) - 1 ∧
    posList (remove_unit bf x y) (bf.cells y x).team =
      (posList bf (bf.cells y x).team).erase ⟨x, y⟩ ∧
    (∀ t : Int, t ≠ (bf.cells y x).team →
      posList (remove_unit bf x y) t = posList bf t ∧
      (remove_unit bf x y).unit_counts (t - 1) = bf.unit_counts (t - 1)) := by
  have hT := typed_unit hc hv hu
  have h0 : (bf.cells y x).team ≠ 0 := by omega
  refine ⟨?_, ?_, remove_unit_posList_erase bf x y hm hv hT, fun t ht => ⟨?_, ?_⟩⟩
  · rw [remove_unit_cells bf x y hv h0, set2_same]
  · rw [remove_unit_counts bf x y hv h0, set1_same]
  · exact remove_unit_posList_other bf x y t ht
  · rw [remove_unit_counts bf x y hv h0, set1_other _ _ _ _ (by omega)]

/-- Witness of C4: removing the unit of team 2 from (1,0) of `bf_two`. -/
theorem remove_unit_excises_witness :
    (remove_unit bf_two 1 0).cells 0 1 = ⟨none, 0⟩ ∧
    (remove_unit bf_two 1 0).unit_counts ((bf_two.cells 0 1).team - 1) =
      bf_two.unit_counts ((bf_two.cells 0 1).team - 1) - 1 ∧
    posList (remove_unit bf_two 1 0) (bf_two.cells 0 1).team =
      (posList bf_two (bf_two.cells 0 1).team).erase ⟨1, 0⟩ ∧
    (∀ t : Int, t ≠ (bf_two.cells 0 1).team →
      posList (remove_unit bf_two 1 0) t = posList bf_two t ∧
      (remove_unit bf_two 1 0).unit_counts (t - 1) = bf_two.unit_counts (t - 1)) :=
  remove_unit_excises bf_two 1 0 typed_bf_two mirror_bf_two (by decide) (by decide)

/-- C5: invalid spatial operations are no-ops.  `place_unit` with an
out-of-bounds position or for a team that already has 5 placed units, and
`remove_unit` on an empty or out-of-bounds cell, return the battlefield
unchanged (every cell, both position arrays and both counts). -/
theorem invalid_spatial_ops_are_noops :
    (∀ (bf : Battlefield) (u : UnitRef) (team x y : Int),
      is_valid_position x y = false → place_unit bf u team x y = bf) ∧
    (∀ (bf : Battlefield) (u : UnitRef) (team x y : Int),
      (team = 1 ∨ team = 2) → 5 ≤ bf.unit_counts (team - 1) → place_unit bf u team x y = bf) ∧
    (∀ (bf : Battlefield) (x y : Int), cellEmpty (bf.cells y x) → remove_unit bf x y = bf) ∧
    (∀ (bf : Battlefield) (x y : Int),
      is_valid_position x y = false → remove_unit bf x y = bf) :=
  ⟨place_unit_noop_invalid, fun bf u team x y _ h => place_unit_noop_full bf u team x y h,
    fun bf x y h => remove_unit_noop_untagged bf x y h.2, remove_unit_noop_invalid⟩

/-- Witness of C5: an out-of-bounds placement, a sixth placement for team 1, a
removal from the empty cell (3,3) and an out-of-bounds removal. -/
theorem invalid_spatial_ops_are_noops_witness :
    place_unit bf_one 7 2 10 0 = bf_one ∧ place_unit bf_full 5 1 1 1 = bf_full ∧
    remove_unit bf_one 3 3 = bf_one ∧ remove_unit bf_one 0 (-1) = bf_one :=
  ⟨invalid_spatial_ops_are_noops.1 bf_one 7 2 10 0 (by decide),
    invalid_spatial_ops_are_noops.2.1 bf_full 5 1 1 1 (Or.inl rfl) (by decide),
    invalid_spatial_ops_are_noops.2.2.1 bf_one 3 3 ⟨by decide, by decide⟩,
    invalid_spatial_ops_are_noops.2.2.2 bf_one 0 (-1) (by decide)⟩

/-- C6: grid/index consistency is an invariant.  The cell typing together with
the mirror property (for each team the count is the length of its position
list, the list has no duplicates and lists exactly the in-bounds cells tagged
with that team) holds of `init_battlefield` and is preserved by `place_unit`
onto an empty in-bounds cell, by `remove_unit` of any cell and by a
successful `move_unit` from an occupied cell. -/
theorem grid_index_consistency :
    (CellsTyped init_battlefield ∧ ListsMirror init_battlefield) ∧
    (∀ (bf : Battlefield) (u : UnitRef) (team x y : Int),
      CellsTyped bf → ListsMirror bf → (team = 1 ∨ team = 2) →
      is_valid_position x y = true → cellEmpty (bf.cells y x) →
      CellsTyped (place_unit bf u team x y) ∧ ListsMirror (place_unit bf u team x y)) ∧
    (∀ (bf : Battlefield) (x y : Int), CellsTyped bf → ListsMirror bf →
      CellsTyped (remove_unit bf x y) ∧ ListsMirror (remove_unit bf x y)) ∧
    (∀ (bf : Battlefield) (fx fy tx ty : Int), CellsTyped bf → ListsMirror bf →
      is_valid_position fx fy = true → (bf.cells fy fx).unit ≠ none →
      (move_unit bf fx fy tx ty).1 = true →
      CellsTyped (move_unit bf fx fy tx ty).2 ∧ ListsMirror (move_unit bf fx fy tx ty).2) :=
  ⟨⟨typed_init, mirror_init⟩,
    fun bf u team x y hc hm ht _ he =>
      ⟨typed_place bf u team x y hc ht, mirror_place bf u team x y hm ht he.2⟩,
    fun bf x y hc hm => ⟨typed_remove bf x y hc, mirror_remove bf x y hc hm⟩,
    fun bf fx fy tx ty hc hm hv hu _ =>
      ⟨typed_move bf fx fy tx ty hc hv hu, mirror_move bf fx fy tx ty hc hm hv hu⟩⟩

/-- Witness of C6: the invariant after placing on the empty cell (5,5) of
`bf_two`, after removing its unit on (1,0) and after moving its unit from
(0,0) to (0,1). -/
theorem grid_index_consistency_witness :
    (CellsTyped (place_unit bf_two 2 1 5 5) ∧ ListsMirror (place_unit bf_two 2 1 5 5)) ∧
    (CellsTyped (remove_unit bf_two 1 0) ∧ ListsMirror (remove_unit bf_two 1 0)) ∧
    (CellsTyped (move_unit bf_two 0 0 0 1).2 ∧ ListsMirror (move_unit bf_two 0 0 0 1).2) :=
  ⟨grid_index_consistency.2.1 bf_two 2 1 5 5 typed_bf_two mirror_bf_two (Or.inl rfl)
      (by decide) ⟨by decide, by decide⟩,
    grid_index_consistency.2.2.1 bf_two 1 0 typed_bf_two mirror_bf_two,
    grid_index_consistency.2.2.2 bf_two 0 0 0 1 typed_bf_two mirror_bf_two (by decide)
      (by decide) (by decide)⟩

/-! ## Combat rules -/

/-- C7: for an attacker and a defender that each have a slot-1 item (and an
optional slot-2 item), `calculate_damage` is `max 1 (A - D)` with `A` the sum
of the attacker's equipped attack values and `D` the sum of the defender's
equipped defense values; in particular it is at least 1. -/
theorem calculate_damage_formula (attacker defender : UNIT) (a1 d1 : ITEM)
    (ha : attacker.item1 = some a1) (hd : defender.item1 = some d1) :
    calculate_damage attacker defender =
      max 1 (spec_attack a1 attacker.item2 - spec_defense d1 defender.item2) ∧
    1 ≤ calculate_damage attacker defender := by
  have key : calculate_damage attacker defender =
      max 1 (spec_attack a1 attacker.item2 - spec_defense d1 defender.item2) := by
    unfold calculate_damage spec_attack spec_defense
    rw [ha, hd]
    simp only [deref]
    cases attacker.item2 <;> cases defender.item2 <;> simp only [] <;> split <;> omega
  exact ⟨key, by rw [key]; exact le_max_left _ _⟩

/-- Witness of C7: a unit with a Sword (attack 10) against a unit with a Shield
and Armor (defense 15 + 20): attack below defense, damage 1. -/
theorem calculate_damage_formula_witness :
    calculate_damage ⟨name_buf [97], some ⟨"Sword", 10, 5, 1, 1, 0⟩, none, 100⟩
        ⟨name_buf [100], some ⟨"Shield", 0, 15, 1, 0, 0⟩, some ⟨"Armor", 0, 20, 2, 0, 0⟩, 100⟩ =
      max 1 (spec_attack ⟨"Sword", 10, 5, 1, 1, 0⟩ none -
        spec_defense ⟨"Shield", 0, 15, 1, 0, 0⟩ (some ⟨"Armor", 0, 20, 2, 0, 0⟩)) ∧
    1 ≤ calculate_damage ⟨name_buf [97], some ⟨"Sword", 10, 5, 1, 1, 0⟩, none, 100⟩
        ⟨name_buf [100], some ⟨"Shield", 0, 15, 1, 0, 0⟩, some ⟨"Armor", 0, 20, 2, 0, 0⟩, 100⟩ :=
  calculate_damage_formula _ _ _ _ rfl rfl

/-- The test of `is_valid_attack_target` for an attacker with a slot-1 item,
in the terms of the specification. -/
theorem attack_target_iff (bf : Battlefield) (attacker : UNIT) (i1 : ITEM) (x1 y1 x2 y2 : Int)
    (h1 : attacker.item1 = some i1) :
    is_valid_attack_target bf attacker x1 y1 x2 y2 = true ↔
    (is_valid_position x2 y2 = true ∧ (bf.cells y2 x2).unit ≠ none ∧
      (bf.cells y2 x2).team ≠ (bf.cells y1 x1).team ∧
      manhattan_distance x1 y1 x2 y2 ≤ spec_effective_range i1 attacker.item2) := by
  unfold is_valid_attack_target spec_effective_range
  rw [h1]
  simp only [deref]
  by_cases hv : is_valid_position x2 y2 = true
  · by_cases hu : (bf.cells y2 x2).unit = none
    · simp [hv, hu]
    · by_cases ht : (bf.cells y2 x2).team = (bf.cells y1 x1).team
      · simp [hv, hu, ht]
      · cases h2 : attacker.item2 with
        | none => simp [hv, hu, ht]
        | some i2 =>
          simp only [hv, hu, ht, Bool.not_true, Bool.false_eq_true, if_false, or_self,
            decide_eq_true_eq, ne_eq, not_false_eq_true, true_and]
          split <;> rw [max_def] <;> split <;> constructor <;> intro h <;> omega
  · simp [hv]

/-- C8: for an attacker with a slot-1 item standing on `(x1,y1)`,
`is_valid_attack_target` is true exactly when `(x2,y2)` is in bounds, its cell
holds a unit whose team tag differs from the tag of the attacker's cell, and
the Manhattan distance between the two cells is at most the effective range;
hence it is false for a same-team target and for a distance exceeding
`max(item1.range, item2.range or 0)`. -/
theorem attack_legality (bf : Battlefield) (attacker : UNIT) (i1 : ITEM) (x1 y1 x2 y2 : Int)
    (_hv1 : is_valid_position x1 y1 = true) (h1 : attacker.item1 = some i1) :
    (is_valid_attack_target bf attacker x1 y1 x2 y2 = true ↔
      (is_valid_position x2 y2 = true ∧ (bf.cells y2 x2).unit ≠ none ∧
        (bf.cells y2 x2).team ≠ (bf.cells y1 x1).team ∧
        manhattan_distance x1 y1 x2 y2 ≤ spec_effective_range i1 attacker.item2)) ∧
    ((bf.cells y2 x2).team = (bf.cells y1 x1).team →
      is_valid_attack_target bf attacker x1 y1 x2 y2 = false) ∧
    (manhattan_distance x1 y1 x2 y2 >
        max i1.range (match attacker.item2 with
          | some i2 => i2.range
          | none => 0) →
      is_valid_attack_target bf attacker x1 y1 x2 y2 = false) := by
  have key := attack_target_iff bf attacker i1 x1 y1 x2 y2 h1
  refine ⟨key, fun ht => ?_, fun hd => ?_⟩
  · rw [← Bool.not_eq_true, key]
    exact fun h => h.2.2.1 ht
  · rw [← Bool.not_eq_true, key]
    intro h
    have hr := h.2.2.2
    have : spec_effective_range i1 attacker.item2 ≤
        max i1.range (match attacker.item2 with
          | some i2 => i2.range
          | none => 0) := by
      unfold spec_effective_range
      cases attacker.item2 with
      | none => exact le_max_left _ _
      | some i2 => exact le_refl _
    omega

/-- Witness of C8: on `bf_two` the Sword unit on (0,0) may attack the enemy on
the adjacent cell (1,0). -/
theorem attack_legality_witness :
    is_valid_attack_target bf_two ⟨name_buf [65], some sword, none, 100⟩ 0 0 1 0 = true :=
  (attack_legality bf_two ⟨name_buf [65], some sword, none, 100⟩ sword 0 0 1 0 (by decide) rfl).1.mpr
    ⟨by decide, by decide, by decide, by decide⟩

/-! ## Combat resolution -/

/-- The selection fields that `perform_combat` writes do not affect `remove_unit`. -/
theorem remove_unit_ui (bf : Battlefield) (c s : Position) (h : Bool) (x y : Int) :
    remove_unit { bf with cursor_pos := c, has_selection := h, selected_pos := s } x y =
      { remove_unit bf x y with cursor_pos := c, has_selection := h, selected_pos := s } := by
  unfold remove_unit
  by_cases hv : is_valid_position x y = true
  · by_cases h0 : (bf.cells y x).team = 0
    · simp [hv, h0]
    · simp [hv, h0]
  · simp [hv]

theorem set_hp_same (units : UnitRef → UNIT) (t : UnitRef) (hp : Int) :
    set_hp units t hp t = { units t with hp := hp } := by
  simp [set_hp]

theorem set_hp_other (units : UnitRef → UNIT) (t k : UnitRef) (hp : Int) (h : k ≠ t) :
    set_hp units t hp k = units k := by
  simp [set_hp, h]

theorem perform_combat_defeat (g : Game) (ap tp : Position) (rem : Int) (a t : UnitRef)
    (ha : (g.bf.cells ap.y ap.x).unit = some a) (ht : (g.bf.cells tp.y tp.x).unit = some t)
    (hd : (g.units t).hp - calculate_damage (g.units a) (g.units t) ≤ 0) :
    perform_combat g ap tp rem =
      (true,
        { bf := { remove_unit g.bf tp.x tp.y with
                  cursor_pos := tp, has_selection := false, selected_pos := ap }
          units := set_hp g.units t ((g.units t).hp - calculate_damage (g.units a) (g.units t)) },
        rem - 1) := by
  unfold perform_combat
  rw [ha, ht]
  simp only [update_combat_stats, set_hp_same, hd, if_true, remove_unit_ui]

theorem perform_combat_survive (g : Game) (ap tp : Position) (rem : Int) (a t : UnitRef)
    (ha : (g.bf.cells ap.y ap.x).unit = some a) (ht : (g.bf.cells tp.y tp.x).unit = some t)
    (hd : 0 < (g.units t).hp - calculate_damage (g.units a) (g.units t)) :
    perform_combat g ap tp rem =
      (true,
        { bf := { g.bf with cursor_pos := tp, has_selection := false, selected_pos := ap }
          units := set_hp g.units t ((g.units t).hp - calculate_damage (g.units a) (g.units t)) },
        rem) := by
  have hd1 : ¬ ((g.units t).hp - calculate_damage (g.units a) (g.units t) ≤ 0) := by omega
  unfold perform_combat
  rw [ha, ht]
  simp only [update_combat_stats, set_hp_same, hd1, if_false]

/-- C9: with an attacker and a target on the two given in-bounds cells of a
battlefield with typed cells, `perform_combat` succeeds and lowers the health
of the target by exactly `calculate_damage attacker target` (`hit_once`),
leaving every other unit as it was.  If the new health is at most 0, the
target cell is emptied in the same call, the `unit_counts` entry of the
target's team and the caller's counter both drop by exactly 1, and, the
position lists mirroring the grid, the target's position is excised from its
team's list and no longer occurs there.  If the new health is positive, the
cells, the position arrays, the counts and the caller's counter are
unchanged. -/
theorem perform_combat_resolves (g : Game) (att_pos target_pos : Position) (remaining : Int)
    (a t : UnitRef) (hc : CellsTyped g.bf)
    (_hva : is_valid_position att_pos.x att_pos.y = true)
    (hvt : is_valid_position target_pos.x target_pos.y = true)
    (ha : (g.bf.cells att_pos.y att_pos.x).unit = some a)
    (ht : (g.bf.cells target_pos.y target_pos.x).unit = some t)
    (_hia : (g.units a).item1 ≠ none) (_hit : (g.units t).item1 ≠ none) :
    (perform_combat g att_pos target_pos remaining).1 = true ∧
    (perform_combat g att_pos target_pos remaining).2.1.units t = hit_once g a t ∧
    (∀ k : UnitRef, k ≠ t →
      (perform_combat g att_pos target_pos remaining).2.1.units k = g.units k) ∧
    ((hit_once g a t).hp ≤ 0 →
      (perform_combat g att_pos target_pos remaining).2.1.bf.cells target_pos.y target_pos.x =
        ⟨none, 0⟩ ∧
      (perform_combat g att_pos target_pos remaining).2.1.bf.unit_counts
          ((g.bf.cells target_pos.y target_pos.x).team - 1) =
        g.bf.unit_counts ((g.bf.cells target_pos.y target_pos.x).team - 1) - 1 ∧
      (perform_combat g att_pos target_pos remaining).2.2 = remaining - 1 ∧
      (ListsMirror g.bf →
        posList (perform_combat g att_pos target_pos remaining).2.1.bf
            (g.bf.cells target_pos.y target_pos.x).team =
          (posList g.bf (g.bf.cells target_pos.y target_pos.x).team).erase target_pos ∧
        target_pos ∉ posList (perform_combat g att_pos target_pos remaining).2.1.bf
            (g.bf.cells target_pos.y target_pos.x).team)) ∧
    (0 < (hit_once g a t).hp →
      (perform_combat g att_pos target_pos remaining).2.1.bf.cells = g.bf.cells ∧
      (perform_combat g att_pos target_pos remaining).2.1.bf.positions = g.bf.positions ∧
      (perform_combat g att_pos target_pos remaining).2.1.bf.unit_counts = g.bf.unit_counts ∧
      (perform_combat g att_pos target_pos remaining).2.2 = remaining) := by
  have hu : (g.bf.cells target_pos.y target_pos.x).unit ≠ none := by rw [ht]; simp
  have hT := typed_unit hc hvt hu
  have h0 : (g.bf.cells target_pos.y target_pos.x).team ≠ 0 := by omega
  have hfst : (perform_combat g att_pos target_pos remaining).1 = true := by
    unfold perform_combat
    rw [ha, ht]
    simp only []
    split <;> rfl
  have hunits : (perform_combat g att_pos target_pos remaining).2.1.units =
      set_hp g.units t ((g.units t).hp - calculate_damage (g.units a) (g.units t)) := by
    unfold perform_combat
    rw [ha, ht]
    simp only [update_combat_stats]
    split <;> rfl
  refine ⟨hfst, ?_, fun k hk => ?_, fun hd => ?_, fun hd => ?_⟩
  · rw [hunits, set_hp_same]; rfl
  · rw [hunits, set_hp_other _ _ _ _ hk]
  · rw [perform_combat_defeat g att_pos target_pos remaining a t ha ht hd]
    refine ⟨?_, ?_, rfl, fun hm => ?_⟩
    · show (remove_unit g.bf target_pos.x target_pos.y).cells target_pos.y target_pos.x = _
      rw [remove_unit_cells g.bf _ _ hvt h0, set2_same]
    · show (remove_unit g.bf target_pos.x target_pos.y).unit_counts _ = _
      rw [remove_unit_counts g.bf _ _ hvt h0, set1_same]
    · have hpl : posList (remove_unit g.bf target_pos.x target_pos.y)
            (g.bf.cells target_pos.y target_pos.x).team =
          (posList g.bf (g.bf.cells target_pos.y target_pos.x).team).erase target_pos :=
        remove_unit_posList_erase g.bf target_pos.x target_pos.y hm hvt hT
      refine ⟨hpl, ?_⟩
      show target_pos ∉ posList (remove_unit g.bf target_pos.x target_pos.y) _
      rw [hpl, (hm.nodup _ hT).mem_erase_iff]
      exact fun h => h.1 rfl
  · rw [perform_combat_survive g att_pos target_pos remaining a t ha ht hd]
    exact ⟨rfl, rfl, rfl, rfl⟩

/-- Witness of C9: on `game_two` the Sword unit on (0,0) hits the unit on (1,0)
(3 health, damage 5), which is defeated and removed in the same call. -/
theorem perform_combat_resolves_witness :
    (perform_combat game_two ⟨0, 0⟩ ⟨1, 0⟩ 1).2.1.units 1 = hit_once game_two 0 1 ∧
    (perform_combat game_two ⟨0, 0⟩ ⟨1, 0⟩ 1).2.1.bf.cells 0 1 = ⟨none, 0⟩ ∧
    (perform_combat game_two ⟨0, 0⟩ ⟨1, 0⟩ 1).2.1.bf.unit_counts
        ((game_two.bf.cells 0 1).team - 1) =
      game_two.bf.unit_counts ((game_two.bf.cells 0 1).team - 1) - 1 ∧
    (perform_combat game_two ⟨0, 0⟩ ⟨1, 0⟩ 1).2.2 = 1 - 1 ∧
    posList (perform_combat game_two ⟨0, 0⟩ ⟨1, 0⟩ 1).2.1.bf (game_two.bf.cells 0 1).team =
      (posList game_two.bf (game_two.bf.cells 0 1).team).erase ⟨1, 0⟩ ∧
    (⟨1, 0⟩ : Position) ∉
      posList (perform_combat game_two ⟨0, 0⟩ ⟨1, 0⟩ 1).2.1.bf (game_two.bf.cells 0 1).team :=
  have h := perform_combat_resolves game_two ⟨0, 0⟩ ⟨1, 0⟩ 1 0 1 typed_bf_two
    (by decide) (by decide) (by decide) (by decide) (by decide) (by decide)
  have hd := h.2.2.2.1 (by decide)
  ⟨h.2.1, hd.1, hd.2.1, hd.2.2.1, (hd.2.2.2 mirror_bf_two).1, (hd.2.2.2 mirror_bf_two).2⟩

/-! ## Area ability -/

theorem remove_unit_cells_other (bf : Battlefield) (x y r c : Int) (h : ¬ (r = y ∧ c = x)) :
    (remove_unit bf x y).cells r c = bf.cells r c := by
  by_cases hv : is_valid_position x y = true
  · by_cases h0 : (bf.cells y x).team = 0
    · rw [remove_unit_noop_untagged bf x y h0]
    · rw [remove_unit_cells bf x y hv h0, set2_other _ _ _ _ _ _ h]
  · rw [remove_unit_noop_invalid bf x y (by simpa using hv)]

theorem calculate_damage_congr {a a1 d d1 : UNIT} (ha1 : a1.item1 = a.item1)
    (ha2 : a1.item2 = a.item2) (hd1 : d1.item1 = d.item1) (hd2 : d1.item2 = d.item2) :
    calculate_damage a1 d1 = calculate_damage a d := by
  unfold calculate_damage
  rw [ha1, ha2, hd1, hd2]

theorem blast_cell_units (u : UnitRef) (x y : Int) (g : Game) (tx ty : Int) (k : UnitRef) :
    (blast_cell u x y g tx ty).units k =
      if blast_hits g.bf x y k ⟨tx, ty⟩ = true then
        { g.units k with hp := (g.units k).hp - calculate_damage (g.units u) (g.units k) }
      else g.units k := by
  unfold blast_cell blast_hits
  by_cases hv : is_valid_position tx ty = true
  · cases hu : (g.bf.cells ty tx).unit with
    | none => simp [hv, hu]
    | some t =>
      by_cases ht : (g.bf.cells ty tx).team = (g.bf.cells y x).team
      · simp [hv, hu, ht]
      · by_cases hk : t = k
        · subst hk
          simp only [hv, hu, ht, Bool.not_true, Bool.false_eq_true, if_false, ne_eq,
            not_false_eq_true, if_true, decide_True, Bool.and_self]
          split <;> simp [set_hp_same]
        · have hk1 : k ≠ t := fun h => hk h.symm
          simp only [hv, hu, ht, Bool.not_true, Bool.false_eq_true, if_false, ne_eq,
            not_false_eq_true, if_true, Option.some.injEq, hk, decide_False, Bool.and_false,
            Bool.false_and]
          split <;> simp [set_hp_other _ _ _ _ hk1]
  · simp [hv]

theorem blast_cell_cells_other (u : UnitRef) (x y : Int) (g : Game) (tx ty r c : Int)
    (h : ¬ (r = ty ∧ c = tx)) : (blast_cell u x y g tx ty).bf.cells r c = g.bf.cells r c := by
  unfold blast_cell
  by_cases hv : is_valid_position tx ty = true
  · cases hu : (g.bf.cells ty tx).unit with
    | none => simp [hv]
    | some t =>
      by_cases ht : (g.bf.cells ty tx).team = (g.bf.cells y x).team
      · simp [hv, ht]
      · simp only [hv, ht, Bool.not_true, Bool.false_eq_true, if_false, ne_eq,
          not_false_eq_true, if_true]
        split
        · exact remove_unit_cells_other g.bf tx ty r c h
        · rfl
  · simp [hv]

theorem blast_cell_own_cell (u : UnitRef) (x y : Int) (g : Game) :
    blast_cell u x y g x y = g := by
  unfold blast_cell
  by_cases hv : is_valid_position x y = true
  · cases hu : (g.bf.cells y x).unit with
    | none => simp [hv]
    | some t => simp [hv]
  · simp [hv]

theorem blast_cell_tag (u : UnitRef) (x y : Int) (g : Game) (tx ty : Int) :
    ((blast_cell u x y g tx ty).bf.cells y x).team = (g.bf.cells y x).team := by
  by_cases h : y = ty ∧ x = tx
  · obtain ⟨rfl, rfl⟩ := h
    rw [blast_cell_own_cell]
  · rw [blast_cell_cells_other u x y g tx ty y x h]

theorem blast_cell_items (u : UnitRef) (x y : Int) (g : Game) (tx ty : Int) (k : UnitRef) :
    ((blast_cell u x y g tx ty).units k).item1 = (g.units k).item1 ∧
    ((blast_cell u x y g tx ty).units k).item2 = (g.units k).item2 := by
  rw [blast_cell_units]
  split <;> exact ⟨rfl, rfl⟩

theorem blast_cell_hits_later (u : UnitRef) (x y : Int) (g : Game) (c c1 : Position)
    (k : UnitRef) (h : c1 ≠ c) :
    blast_hits (blast_cell u x y g c.x c.y).bf x y k c1 = blast_hits g.bf x y k c1 := by
  have hne : ¬ (c1.y = c.y ∧ c1.x = c.x) := by
    rintro ⟨hy, hx⟩
    apply h
    cases c1; cases c; simp_all
  unfold blast_hits
  rw [blast_cell_cells_other u x y g c.x c.y c1.y c1.x hne, blast_cell_tag]

/-- The health bookkeeping of the blast loop over any duplicate-free list of
target cells: each unit loses the damage once per visited cell on which the
loop test finds it. -/
theorem blast_fold_units (u : UnitRef) (x y : Int) (L : List Position) (hL : L.Nodup)
    (g : Game) (k : UnitRef) :
    (L.foldl (fun g1 c => blast_cell u x y g1 c.x c.y) g).units k =
      { g.units k with
        hp := (g.units k).hp -
          (L.countP (blast_hits g.bf x y k) : Int) *
            calculate_damage (g.units u) (g.units k) } := by
  induction L generalizing g with
  | nil =>
    simp only [List.foldl_nil, List.countP_nil, Nat.cast_zero, zero_mul, sub_zero]
  | cons c L ih =>
    rw [List.nodup_cons] at hL
    rw [List.foldl_cons, ih hL.2]
    have hcount : L.countP (blast_hits (blast_cell u x y g c.x c.y).bf x y k) =
        L.countP (blast_hits g.bf x y k) := by
      apply List.countP_congr
      intro c1 hc1
      have hne : c1 ≠ c := by
        intro h; subst h; exact hL.1 hc1
      rw [blast_cell_hits_later u x y g c c1 k hne]
    have hdmg : calculate_damage ((blast_cell u x y g c.x c.y).units u)
        ((blast_cell u x y g c.x c.y).units k) = calculate_damage (g.units u) (g.units k) :=
      calculate_damage_congr (blast_cell_items u x y g c.x c.y u).1
        (blast_cell_items u x y g c.x c.y u).2 (blast_cell_items u x y g c.x c.y k).1
        (blast_cell_items u x y g c.x c.y k).2
    rw [hcount, hdmg, blast_cell_units, List.countP_cons]
    by_cases hh : blast_hits g.bf x y k c = true
    · simp only [hh, if_true, Nat.cast_add, Nat.cast_one, UNIT.mk.injEq, true_and]
      ring
    · simp only [hh, if_false, Nat.cast_add, Nat.cast_zero, add_zero, Bool.false_eq_true]

theorem foldl_nested {α : Type} (f : α → Position → α) (x y : Int) (A B : List Int) (g : α) :
    A.foldl (fun g1 dy => B.foldl (fun g2 dx => f g2 ⟨x + dx, y + dy⟩) g1) g =
      (A.flatMap (fun dy => B.map (fun dx => (⟨x + dx, y + dy⟩ : Position)))).foldl f g := by
  induction A generalizing g with
  | nil => rfl
  | cons a A ih =>
    rw [List.foldl_cons, List.flatMap_cons, List.foldl_append, List.foldl_map, ih]

theorem use_special_ability_eq (g : Game) (u : UnitRef) (x y : Int) (it : ITEM)
    (h : special_item (g.units u) = some it) :
    use_special_ability g u x y =
      (blast_targets x y it.radius).foldl (fun g1 c => blast_cell u x y g1 c.x c.y) g := by
  unfold use_special_ability blast_targets
  rw [h]
  exact foldl_nested (fun g1 c => blast_cell u x y g1 c.x c.y) x y _ _ g

theorem mem_offsets (r d : Int) : d ∈ offsets r ↔ -r ≤ d ∧ d ≤ r := by
  unfold offsets
  rw [List.mem_map]
  constructor
  · rintro ⟨k, hk, rfl⟩
    have := List.mem_range.mp hk
    omega
  · rintro ⟨h1, h2⟩
    refine ⟨(d + r).toNat, List.mem_range.mpr (by omega), by omega⟩

theorem nodup_offsets (r : Int) : (offsets r).Nodup := by
  unfold offsets
  apply List.Nodup.map _ (List.nodup_range _)
  intro a b h
  simp only at h
  omega

theorem mem_blast_targets (x y r : Int) (c : Position) :
    c ∈ blast_targets x y r ↔ (-r ≤ c.x - x ∧ c.x - x ≤ r) ∧ (-r ≤ c.y - y ∧ c.y - y ≤ r) := by
  unfold blast_targets
  simp only [List.mem_flatMap, List.mem_map, mem_offsets]
  constructor
  · rintro ⟨dy, hdy, dx, hdx, rfl⟩
    simp only
    omega
  · rintro ⟨hx, hy⟩
    refine ⟨c.y - y, hy, c.x - x, hx, ?_⟩
    cases c
    simp

theorem nodup_blast_targets (x y r : Int) : (blast_targets x y r).Nodup := by
  unfold blast_targets
  rw [List.nodup_flatMap]
  constructor
  · intro dy _
    apply List.Nodup.map _ (nodup_offsets r)
    intro a b h
    simp only [Position.mk.injEq] at h
    omega
  · apply List.Nodup.pairwise_of_forall_ne (nodup_offsets r)
    intro a _ b _ hab
    simp only [Function.onFun]
    intro c hca hcb
    simp only [List.mem_map] at hca hcb
    obtain ⟨_, _, rfl⟩ := hca
    obtain ⟨_, _, h⟩ := hcb
    simp only [Position.mk.injEq] at h
    omega

theorem mem_blast_targets_iff (x y r : Int) (c : Position) :
    c ∈ blast_targets x y r ↔ chebyshev_distance x y c.x c.y ≤ r := by
  rw [mem_blast_targets]
  unfold chebyshev_distance
  rw [max_le_iff]
  omega

theorem blast_count_hit (bf : Battlefield) (x y : Int) (k : UnitRef) (L : List Position)
    (hL : L.Nodup) (hs : NoSharedUnit bf) (c0 : Position) (hc0 : c0 ∈ L)
    (hv : is_valid_position c0.x c0.y = true) (hu : (bf.cells c0.y c0.x).unit = some k)
    (ht : (bf.cells c0.y c0.x).team ≠ (bf.cells y x).team) :
    L.countP (blast_hits bf x y k) = 1 := by
  have hcongr : L.countP (blast_hits bf x y k) = L.countP (fun c => c == c0) := by
    apply List.countP_congr
    intro c _
    constructor
    · intro h
      unfold blast_hits at h
      simp only [Bool.and_eq_true, decide_eq_true_eq] at h
      obtain ⟨hx, hy⟩ := hs c.x c.y c0.x c0.y k h.1.1 hv h.1.2 hu
      have : c = c0 := by cases c; cases c0; simp_all
      simp [this]
    · intro h
      have : c = c0 := by simpa using h
      subst this
      unfold blast_hits
      simp [hv, hu, ht]
  rw [hcongr]
  exact List.count_eq_one_of_mem hL hc0

theorem blast_count_miss (bf : Battlefield) (x y : Int) (k : UnitRef) (L : List Position)
    (h : ∀ c ∈ L, blast_hits bf x y k c = false) : L.countP (blast_hits bf x y k) = 0 := by
  rw [List.countP_eq_zero]
  intro c hc
  rw [h c hc]
  simp

theorem unit_hp_sub_zero (v : UNIT) (d : Int) : { v with hp := v.hp - ((0 : Nat) : Int) * d } = v := by
  cases v
  simp

theorem unit_hp_sub_one (g : Game) (u k : UnitRef) :
    { g.units k with
      hp := (g.units k).hp - ((1 : Nat) : Int) * calculate_damage (g.units u) (g.units k) } =
      hit_once g u k := by
  unfold hit_once
  simp

theorem special_item_radius (v : UNIT) (it : ITEM) (h : special_item v = some it) :
    0 < it.radius := by
  unfold special_item at h
  by_cases h1 : area_item v.item1 = true
  · rw [if_pos h1] at h
    rw [h] at h1
    simpa [area_item] using h1
  · rw [if_neg h1] at h
    by_cases h2 : area_item v.item2 = true
    · rw [if_pos h2] at h
      rw [h] at h2
      simpa [area_item] using h2
    · rw [if_neg h2] at h
      exact absurd h (by simp)

theorem special_item_none (v : UNIT) (h : has_special_ability v = false) :
    special_item v = none := by
  unfold has_special_ability at h
  unfold special_item
  by_cases h1 : area_item v.item1 = true
  · simp [h1] at h
  · by_cases h2 : area_item v.item2 = true
    · simp [h1, h2] at h
    · simp [h1, h2]

theorem noshared_init : NoSharedUnit init_battlefield := by
  intro x1 y1 x2 y2 k _ _ h
  exact absurd h (by simp [init_battlefield])

theorem noshared_place (bf : Battlefield) (u : UnitRef) (team x y : Int) (h : NoSharedUnit bf)
    (hfresh : ∀ a b : Int, is_valid_position a b = true → (bf.cells b a).unit ≠ some u) :
    NoSharedUnit (place_unit bf u team x y) := by
  by_cases hv : is_valid_position x y = true
  · by_cases hn : bf.unit_counts (team - 1) < 5
    · rw [NoSharedUnit, place_unit_eq bf u team x y hv hn]
      intro x1 y1 x2 y2 k hv1 hv2 h1 h2
      simp only at h1 h2
      by_cases hp1 : y1 = y ∧ x1 = x
      · by_cases hp2 : y2 = y ∧ x2 = x
        · omega
        · obtain ⟨rfl, rfl⟩ := hp1
          rw [set2_same] at h1
          rw [set2_other _ _ _ _ _ _ hp2] at h2
          simp only [Option.some.injEq] at h1
          subst h1
          exact absurd h2 (hfresh x2 y2 hv2)
      · rw [set2_other _ _ _ _ _ _ hp1] at h1
        by_cases hp2 : y2 = y ∧ x2 = x
        · obtain ⟨rfl, rfl⟩ := hp2
          rw [set2_same] at h2
          simp only [Option.some.injEq] at h2
          subst h2
          exact absurd h1 (hfresh x1 y1 hv1)
        · rw [set2_other _ _ _ _ _ _ hp2] at h2
          exact h x1 y1 x2 y2 k hv1 hv2 h1 h2
    · rw [place_unit_noop_full bf u team x y (by omega)]; exact h
  · rw [place_unit_noop_invalid bf u team x y (by simpa using hv)]; exact h

theorem noshared_bf_two : NoSharedUnit bf_two := by
  apply noshared_place _ _ _ _ _ (noshared_place _ _ _ _ _ noshared_init _)
  · intro a b _
    rw [place_unit_eq _ _ _ _ _ (by decide) (by decide)]
    simp only [set2, init_battlefield]
    split <;> simp
  · intro a b _
    simp [init_battlefield]

theorem noshared_bf_three : NoSharedUnit bf_three := by
  apply noshared_place _ _ _ _ _ noshared_bf_two
  intro a b _
  unfold bf_two bf_one
  rw [place_unit_eq _ _ _ _ _ (by decide) (by decide),
    place_unit_eq _ _ _ _ _ (by decide) (by decide)]
  simp only [set2, init_battlefield]
  split
  · simp
  · split <;> simp

/-- C10: area ability.  Let unit `u` stand on the in-bounds cell `(x,y)` of a
battlefield on which no unit stands on two cells, and let the first area item
of `u` (slot 1 if its radius is positive, else slot 2) be `it`.  Then
`it.radius > 0` and `use_special_ability` changes the units as follows.  A
unit standing on an in-bounds cell whose team tag differs from the tag of the
invoker's cell and whose Chebyshev distance to `(x,y)` is at most the radius
loses exactly `calculate_damage invoker target` health, once (`hit_once`);
every other unit on the grid and every unit not on the grid is unchanged.
In particular an enemy at distance exactly the radius is hit, a unit at
distance radius + 1 is not, and a unit on a cell with the invoker's tag (the
invoker and its team-mates) is never damaged.  For a unit without an item of
positive area radius the call changes nothing. -/
theorem use_special_ability_blast :
    (∀ (g : Game) (u : UnitRef) (x y : Int) (it : ITEM),
      NoSharedUnit g.bf → is_valid_position x y = true → (g.bf.cells y x).unit = some u →
      (∀ (a b : Int) (k : UnitRef), is_valid_position a b = true →
        (g.bf.cells b a).unit = some k → (g.units k).item1 ≠ none) →
      special_item (g.units u) = some it →
      0 < it.radius ∧
      (∀ (k : UnitRef) (tx ty : Int), is_valid_position tx ty = true →
        (g.bf.cells ty tx).unit = some k →
        (((g.bf.cells ty tx).team ≠ (g.bf.cells y x).team ∧
            chebyshev_distance x y tx ty ≤ it.radius) →
          (use_special_ability g u x y).units k = hit_once g u k) ∧
        (¬ ((g.bf.cells ty tx).team ≠ (g.bf.cells y x).team ∧
            chebyshev_distance x y tx ty ≤ it.radius) →
          (use_special_ability g u x y).units k = g.units k) ∧
        (((g.bf.cells ty tx).team ≠ (g.bf.cells y x).team ∧
            chebyshev_distance x y tx ty = it.radius) →
          (use_special_ability g u x y).units k = hit_once g u k) ∧
        (chebyshev_distance x y tx ty = it.radius + 1 →
          (use_special_ability g u x y).units k = g.units k) ∧
        ((g.bf.cells ty tx).team = (g.bf.cells y x).team →
          (use_special_ability g u x y).units k = g.units k)) ∧
      (∀ k : UnitRef,
        (∀ tx ty : Int, is_valid_position tx ty = true → (g.bf.cells ty tx).unit ≠ some k) →
        (use_special_ability g u x y).units k = g.units k)) ∧
    (∀ (g : Game) (u : UnitRef) (x y : Int),
      has_special_ability (g.units u) = false → use_special_ability g u x y = g) := by
  constructor
  · intro g u x y it hs _ _ _ hit
    have hhit : ∀ (k : UnitRef) (tx ty : Int), is_valid_position tx ty = true →
        (g.bf.cells ty tx).unit = some k →
        ((g.bf.cells ty tx).team ≠ (g.bf.cells y x).team ∧
            chebyshev_distance x y tx ty ≤ it.radius) →
        (use_special_ability g u x y).units k = hit_once g u k := by
      intro k tx ty hv hk hq
      rw [use_special_ability_eq g u x y it hit,
        blast_fold_units u x y _ (nodup_blast_targets x y it.radius) g k,
        blast_count_hit g.bf x y k _ (nodup_blast_targets x y it.radius) hs ⟨tx, ty⟩
          ((mem_blast_targets_iff x y it.radius ⟨tx, ty⟩).mpr hq.2) hv hk hq.1]
      exact unit_hp_sub_one g u k
    have hmiss : ∀ (k : UnitRef) (tx ty : Int), is_valid_position tx ty = true →
        (g.bf.cells ty tx).unit = some k →
        ¬ ((g.bf.cells ty tx).team ≠ (g.bf.cells y x).team ∧
            chebyshev_distance x y tx ty ≤ it.radius) →
        (use_special_ability g u x y).units k = g.units k := by
      intro k tx ty hv hk hq
      rw [use_special_ability_eq g u x y it hit,
        blast_fold_units u x y _ (nodup_blast_targets x y it.radius) g k,
        blast_count_miss g.bf x y k _ ?_]
      · exact unit_hp_sub_zero _ _
      · intro c hc
        by_contra hh
        have hh1 : blast_hits g.bf x y k c = true := by simpa using hh
        unfold blast_hits at hh1
        simp only [Bool.and_eq_true, decide_eq_true_eq] at hh1
        obtain ⟨hx, hy⟩ := hs c.x c.y tx ty k hh1.1.1 hv hh1.1.2 hk
        apply hq
        rw [← hx, ← hy]
        exact ⟨hh1.2, (mem_blast_targets_iff x y it.radius c).mp hc⟩
    refine ⟨special_item_radius _ _ hit, fun k tx ty hv hk =>
      ⟨hhit k tx ty hv hk, hmiss k tx ty hv hk, fun hq => ?_, fun hq => ?_, fun hq => ?_⟩,
      fun k hk => ?_⟩
    · exact hhit k tx ty hv hk ⟨hq.1, le_of_eq hq.2⟩
    · exact hmiss k tx ty hv hk (fun h => by have := h.2; omega)
    · exact hmiss k tx ty hv hk (fun h => h.1 hq)
    · rw [use_special_ability_eq g u x y it hit,
        blast_fold_units u x y _ (nodup_blast_targets x y it.radius) g k,
        blast_count_miss g.bf x y k _ ?_]
      · exact unit_hp_sub_zero _ _
      · intro c _
        by_contra hh
        have hh1 : blast_hits g.bf x y k c = true := by simpa using hh
        unfold blast_hits at hh1
        simp only [Bool.and_eq_true, decide_eq_true_eq] at hh1
        exact hk c.x c.y hh1.1.1 hh1.1.2
  · intro g u x y h
    unfold use_special_ability
    rw [special_item_none _ h]

/-- Witness of C10: on `game_blast` the Fireball Staff (radius 1) of unit 0 on
(0,0) hits the enemy unit 1 on (1,0), at Chebyshev distance exactly 1, and
leaves the enemy unit 2 on (2,0), at distance 2, and the invoker untouched;
on `game_two` unit 0 has no area item and the call changes nothing. -/
theorem use_special_ability_blast_witness :
    ((use_special_ability game_blast 0 0 0).units 1 = hit_once game_blast 0 1 ∧
      (use_special_ability game_blast 0 0 0).units 2 = game_blast.units 2 ∧
      (use_special_ability game_blast 0 0 0).units 0 = game_blast.units 0) ∧
    use_special_ability game_two 0 0 0 = game_two :=
  have h := use_special_ability_blast.1 game_blast 0 0 0 fireball_staff noshared_bf_three
    (by decide) (by decide)
    (fun _ _ k _ _ => by simp only [game_blast]; split <;> simp) rfl
  ⟨⟨(h.2.1 1 1 0 (by decide) (by decide)).2.2.1 ⟨by decide, by decide⟩,
      (h.2.1 2 2 0 (by decide) (by decide)).2.2.2.1 (by decide),
      (h.2.1 0 0 0 (by decide) (by decide)).2.2.2.2 rfl⟩,
    use_special_ability_blast.2 game_two 0 0 0 (by decide)⟩

/-! ## Battle outcome and the end-to-end duel -/

/-- C18: after the AI battle loop army 1 is declared the winner exactly when
its live count is positive and army 2's is not, army 2 exactly when its live
count is positive and army 1's is not, and every other ending (both counts
at most zero, or both armies still alive) is declared a draw. -/
theorem battle_result_cases (n1 n2 : Int) :
    (battle_result n1 n2 = Outcome.ARMY1_WINS ↔ (n1 > 0 ∧ n2 ≤ 0)) ∧
    (battle_result n1 n2 = Outcome.ARMY2_WINS ↔ (n2 > 0 ∧ n1 ≤ 0)) ∧
    (battle_result n1 n2 = Outcome.DRAW ↔ ((n1 ≤ 0 ∧ n2 ≤ 0) ∨ (n1 > 0 ∧ n2 > 0))) ∧
    battle_result 0 0 = Outcome.DRAW := by
  unfold battle_result
  refine ⟨?_, ?_, ?_, by decide⟩ <;>
    (split_ifs with h1 h2 <;> constructor <;> intro h <;>
      first
      | rfl
      | omega
      | exact absurd h (by decide))

theorem duel_damage (a1 d1 : ITEM) (ha : a1.att = 10) (hd : d1.def = 5) (n1 n2 : List Nat)
    (h1 h2 : Int) :
    calculate_damage ⟨n1, some a1, none, h1⟩ ⟨n2, some d1, none, h2⟩ = 5 := by
  simp [calculate_damage, deref, ha, hd]

theorem duel_after_zero (a1 d1 : ITEM) : DuelAfter a1 d1 0 (duel a1 d1, 1) := by
  refine ⟨rfl, rfl, rfl, ?_, ?_, rfl⟩
  · simp [duel]
  · simp [duel]

theorem duel_after_step (a1 d1 : ITEM) (ha : a1.att = 10) (hd : d1.def = 5) (k : Nat)
    (hk : k + 1 ≤ 19) (s : Game × Int) (hs : DuelAfter a1 d1 k s) :
    DuelAfter a1 d1 (k + 1) (perform_combat s.1 ⟨0, 0⟩ ⟨1, 0⟩ s.2).2 := by
  obtain ⟨hc, hp, hn, hu0, hu1, hr⟩ := hs
  have hca : (s.1.bf.cells (⟨0, 0⟩ : Position).y (⟨0, 0⟩ : Position).x).unit = some 0 := by
    rw [hc]; decide
  have hct : (s.1.bf.cells (⟨1, 0⟩ : Position).y (⟨1, 0⟩ : Position).x).unit = some 1 := by
    rw [hc]; decide
  have hdmg : calculate_damage (s.1.units 0) (s.1.units 1) = 5 := by
    rw [hu0, hu1]; exact duel_damage a1 d1 ha hd _ _ _ _
  have hpos : 0 < (s.1.units 1).hp - calculate_damage (s.1.units 0) (s.1.units 1) := by
    rw [hdmg, hu1]
    simp only
    omega
  rw [perform_combat_survive s.1 ⟨0, 0⟩ ⟨1, 0⟩ s.2 0 1 hca hct hpos]
  refine ⟨hc, hp, hn, ?_, ?_, hr⟩
  · simp only
    rw [set_hp_other _ _ _ _ (by decide), hu0]
  · simp only
    rw [set_hp_same, hdmg, hu1]
    simp only [UNIT.mk.injEq, true_and]
    push_cast
    omega

theorem duel_after (a1 d1 : ITEM) (ha : a1.att = 10) (hd : d1.def = 5) (k : Nat) (hk : k ≤ 19) :
    DuelAfter a1 d1 k (repeat_combat ⟨0, 0⟩ ⟨1, 0⟩ k (duel a1 d1, 1)) := by
  induction k with
  | zero => exact duel_after_zero a1 d1
  | succ k ih =>
    exact duel_after_step a1 d1 ha hd k hk _ (ih (by omega))

/-- C11: the end-to-end duel.  Two 1-unit armies stand on the adjacent cells
(0,0) and (1,0); the attacker holds an item with attack 10 and range at least
1, the defender an item with defense 5.  Before each of the first 20 hits the
attack is legal and the damage is exactly 5; after `k <= 19` hits the
defender has `100 - 5 k` health and is still on its cell, with both counters
of army 2 at 1; the 20th hit brings it to 0 and removes it in the same call,
team 2's count and the caller's counter are 0, and army 1 is declared the
winner. -/
theorem duel_twenty_hits (a1 d1 : ITEM) (ha : a1.att = 10) (hr : 1 ≤ a1.range)
    (hd : d1.def = 5) :
    manhattan_distance 0 0 1 0 = 1 ∧
    (∀ k : Nat, k ≤ 19 →
      ((repeat_combat ⟨0, 0⟩ ⟨1, 0⟩ k (duel a1 d1, 1)).1.units 1).hp = 100 - 5 * (k : Int) ∧
      (repeat_combat ⟨0, 0⟩ ⟨1, 0⟩ k (duel a1 d1, 1)).1.bf.cells 0 1 = ⟨some 1, 2⟩ ∧
      (repeat_combat ⟨0, 0⟩ ⟨1, 0⟩ k (duel a1 d1, 1)).1.bf.unit_counts 1 = 1 ∧
      (repeat_combat ⟨0, 0⟩ ⟨1, 0⟩ k (duel a1 d1, 1)).2 = 1 ∧
      is_valid_attack_target (repeat_combat ⟨0, 0⟩ ⟨1, 0⟩ k (duel a1 d1, 1)).1.bf
        ((repeat_combat ⟨0, 0⟩ ⟨1, 0⟩ k (duel a1 d1, 1)).1.units 0) 0 0 1 0 = true ∧
      calculate_damage ((repeat_combat ⟨0, 0⟩ ⟨1, 0⟩ k (duel a1 d1, 1)).1.units 0)
        ((repeat_combat ⟨0, 0⟩ ⟨1, 0⟩ k (duel a1 d1, 1)).1.units 1) = 5) ∧
    ((repeat_combat ⟨0, 0⟩ ⟨1, 0⟩ 20 (duel a1 d1, 1)).1.units 1).hp = 0 ∧
    (repeat_combat ⟨0, 0⟩ ⟨1, 0⟩ 20 (duel a1 d1, 1)).1.bf.cells 0 1 = ⟨none, 0⟩ ∧
    (repeat_combat ⟨0, 0⟩ ⟨1, 0⟩ 20 (duel a1 d1, 1)).1.bf.unit_counts 1 = 0 ∧
    posList (repeat_combat ⟨0, 0⟩ ⟨1, 0⟩ 20 (duel a1 d1, 1)).1.bf 2 = [] ∧
    (repeat_combat ⟨0, 0⟩ ⟨1, 0⟩ 20 (duel a1 d1, 1)).1.bf.unit_counts 0 = 1 ∧
    (repeat_combat ⟨0, 0⟩ ⟨1, 0⟩ 20 (duel a1 d1, 1)).2 = 0 ∧
    battle_result 1 (repeat_combat ⟨0, 0⟩ ⟨1, 0⟩ 20 (duel a1 d1, 1)).2 = Outcome.ARMY1_WINS := by
  refine ⟨by decide, fun k hk => ?_, ?_⟩
  · obtain ⟨hc, _, hn, hu0, hu1, hrem⟩ := duel_after a1 d1 ha hd k hk
    refine ⟨by rw [hu1], by rw [hc]; decide, by rw [hn]; decide, hrem, ?_, ?_⟩
    · rw [attack_target_iff _ _ a1 0 0 1 0 (by rw [hu0]), hc, hu0]
      refine ⟨by decide, by decide, by decide, ?_⟩
      have : manhattan_distance 0 0 1 0 = 1 := by decide
      rw [this]
      simp only [spec_effective_range]
      exact hr
    · rw [hu0, hu1]; exact duel_damage a1 d1 ha hd _ _ _ _
  · obtain ⟨hc, hp, hn, hu0, hu1, hrem⟩ := duel_after a1 d1 ha hd 19 (le_refl _)
    have hca : ((repeat_combat ⟨0, 0⟩ ⟨1, 0⟩ 19 (duel a1 d1, 1)).1.bf.cells
        (⟨0, 0⟩ : Position).y (⟨0, 0⟩ : Position).x).unit = some 0 := by
      rw [hc]; decide
    have hct : ((repeat_combat ⟨0, 0⟩ ⟨1, 0⟩ 19 (duel a1 d1, 1)).1.bf.cells
        (⟨1, 0⟩ : Position).y (⟨1, 0⟩ : Position).x).unit = some 1 := by
      rw [hc]; decide
    have hdmg : calculate_damage ((repeat_combat ⟨0, 0⟩ ⟨1, 0⟩ 19 (duel a1 d1, 1)).1.units 0)
        ((repeat_combat ⟨0, 0⟩ ⟨1, 0⟩ 19 (duel a1 d1, 1)).1.units 1) = 5 := by
      rw [hu0, hu1]; exact duel_damage a1 d1 ha hd _ _ _ _
    have hle : ((repeat_combat ⟨0, 0⟩ ⟨1, 0⟩ 19 (duel a1 d1, 1)).1.units 1).hp -
        calculate_damage ((repeat_combat ⟨0, 0⟩ ⟨1, 0⟩ 19 (duel a1 d1, 1)).1.units 0)
          ((repeat_combat ⟨0, 0⟩ ⟨1, 0⟩ 19 (duel a1 d1, 1)).1.units 1) ≤ 0 := by
      rw [hdmg, hu1]; simp
    have hteam : ((repeat_combat ⟨0, 0⟩ ⟨1, 0⟩ 19 (duel a1 d1, 1)).1.bf.cells 0 1).team = 2 := by
      rw [hc]; decide
    have hstep : repeat_combat ⟨0, 0⟩ ⟨1, 0⟩ 20 (duel a1 d1, 1) =
        (perform_combat (repeat_combat ⟨0, 0⟩ ⟨1, 0⟩ 19 (duel a1 d1, 1)).1 ⟨0, 0⟩ ⟨1, 0⟩
          (repeat_combat ⟨0, 0⟩ ⟨1, 0⟩ 19 (duel a1 d1, 1)).2).2 := rfl
    rw [hstep, perform_combat_defeat _ ⟨0, 0⟩ ⟨1, 0⟩ _ 0 1 hca hct hle]
    have hcnt : (remove_unit (repeat_combat ⟨0, 0⟩ ⟨1, 0⟩ 19 (duel a1 d1, 1)).1.bf 1 0).unit_counts =
        set1 bf_two.unit_counts 1 0 := by
      rw [remove_unit_counts _ 1 0 (by decide) (by rw [hteam]; decide), hteam, hn]
      rfl
    refine ⟨?_, ?_, ?_, ?_, ?_, ?_, ?_⟩
    · simp only
      rw [set_hp_same, hdmg, hu1]
      simp
    · show (remove_unit _ 1 0).cells 0 1 = _
      rw [remove_unit_cells _ 1 0 (by decide) (by rw [hteam]; decide), set2_same]
    · show (remove_unit _ 1 0).unit_counts 1 = 0
      rw [hcnt]; rfl
    · show rowList ((remove_unit _ 1 0).positions (2 - 1)) ((remove_unit _ 1 0).unit_counts (2 - 1)) = []
      rw [hcnt]; rfl
    · show (remove_unit _ 1 0).unit_counts 0 = 1
      rw [hcnt]; rfl
    · simp only [hrem]; rfl
    · simp only [hrem]; rfl

/-- Witness of C11: Sword (attack 10, defense 5, range 1) against Sword. -/
theorem duel_twenty_hits_witness :
    ((repeat_combat ⟨0, 0⟩ ⟨1, 0⟩ 19 (duel sword sword, 1)).1.units 1).hp = 100 - 5 * ((19 : Nat) : Int) ∧
    (repeat_combat ⟨0, 0⟩ ⟨1, 0⟩ 19 (duel sword sword, 1)).1.bf.cells 0 1 = ⟨some 1, 2⟩ ∧
    ((repeat_combat ⟨0, 0⟩ ⟨1, 0⟩ 20 (duel sword sword, 1)).1.units 1).hp = 0 ∧
    (repeat_combat ⟨0, 0⟩ ⟨1, 0⟩ 20 (duel sword sword, 1)).1.bf.cells 0 1 = ⟨none, 0⟩ ∧
    battle_result 1 (repeat_combat ⟨0, 0⟩ ⟨1, 0⟩ 20 (duel sword sword, 1)).2 =
      Outcome.ARMY1_WINS :=
  have h := duel_twenty_hits sword sword rfl (by decide) rfl
  ⟨(h.2.1 19 (le_refl _)).1, (h.2.1 19 (le_refl _)).2.1, h.2.2.1, h.2.2.2.1,
    h.2.2.2.2.2.2.2.2⟩

/-! ## AI target selection -/

/-- The target scan as a fold over the indices `0, ..., n-1`: either nothing
is selected and no passing entry is closer than the initial bound `M`, or the
selected index passes, holds the running minimum, is minimal among all
passing indices and strictly closer than every earlier passing index. -/
theorem scan_fold_inv (pass : Nat → Bool) (dist : Nat → Int) (M : Int) (n : Nat) :
    (((List.range n).foldl
        (fun (st : Int × Option Nat) (j : Nat) =>
          if pass j = true then (if dist j < st.1 then (dist j, some j) else st) else st)
        (M, none)).2 = none →
      ∀ j, j < n → pass j = true → M ≤ dist j) ∧
    (∀ j, ((List.range n).foldl
        (fun (st : Int × Option Nat) (j : Nat) =>
          if pass j = true then (if dist j < st.1 then (dist j, some j) else st) else st)
        (M, none)) = (dist j, some j) ∨
      ((List.range n).foldl
        (fun (st : Int × Option Nat) (j : Nat) =>
          if pass j = true then (if dist j < st.1 then (dist j, some j) else st) else st)
        (M, none)).2 ≠ some j) ∧
    (((List.range n).foldl
        (fun (st : Int × Option Nat) (j : Nat) =>
          if pass j = true then (if dist j < st.1 then (dist j, some j) else st) else st)
        (M, none)).2 = none →
      ((List.range n).foldl
        (fun (st : Int × Option Nat) (j : Nat) =>
          if pass j = true then (if dist j < st.1 then (dist j, some j) else st) else st)
        (M, none)).1 = M) ∧
    (∀ j, ((List.range n).foldl
        (fun (st : Int × Option Nat) (j : Nat) =>
          if pass j = true then (if dist j < st.1 then (dist j, some j) else st) else st)
        (M, none)).2 = some j →
      j < n ∧ pass j = true ∧ dist j < M ∧ (∀ i, i < n → pass i = true → dist j ≤ dist i) ∧
        (∀ i, i < j → pass i = true → dist j < dist i)) := by
  induction n with
  | zero => simp
  | succ n ih =>
    rw [List.range_succ, List.foldl_append]
    simp only [List.foldl_cons, List.foldl_nil]
    generalize hst : (List.range n).foldl
        (fun (st : Int × Option Nat) (j : Nat) =>
          if pass j = true then (if dist j < st.1 then (dist j, some j) else st) else st)
        (M, none) = st at ih
    obtain ⟨m, o⟩ := st
    obtain ⟨ih1, ih2, ih3, ih4⟩ := ih
    simp only at ih1 ih2 ih3 ih4
    by_cases hp : pass n = true
    · by_cases hd : dist n < m
      · simp only [hp, hd, if_true]
        refine ⟨fun h => absurd h (by simp), fun j => ?_, fun h => absurd h (by simp), ?_⟩
        · by_cases hj : j = n
          · left; rw [hj]
          · right; simp only [ne_eq, Option.some.injEq]; exact fun h => hj h.symm
        · intro j hj
          simp only [Option.some.injEq] at hj
          subst hj
          cases o with
          | none =>
            have hm := ih3 rfl
            refine ⟨by omega, hp, by omega, fun i hi hpi => ?_, fun i hi hpi => ?_⟩
            · rcases Nat.lt_succ_iff_lt_or_eq.mp hi with h | h
              · have := ih1 rfl i h hpi; omega
              · rw [h]
            · have := ih1 rfl i hi hpi; omega
          | some k =>
            obtain ⟨hk, hpk, hkM, hmin, hfirst⟩ := ih4 k rfl
            have hkm : dist k = m := by
              rcases ih2 k with h | h
              · exact (Prod.mk.inj h).1.symm
              · exact absurd rfl h
            refine ⟨by omega, hp, by omega, fun i hi hpi => ?_, fun i hi hpi => ?_⟩
            · rcases Nat.lt_succ_iff_lt_or_eq.mp hi with h | h
              · have := hmin i h hpi; omega
              · rw [h]
            · have := hmin i hi hpi; omega
      · simp only [hp, hd, if_true, if_false]
        refine ⟨fun h j hj hpj => ?_, ih2, ih3, fun j hj => ?_⟩
        · rcases Nat.lt_succ_iff_lt_or_eq.mp hj with h1 | h1
          · exact ih1 h j h1 hpj
          · rw [h1]; have := ih3 h; omega
        · obtain ⟨hk, hpk, hkM, hmin, hfirst⟩ := ih4 j hj
          have hkm : dist j = m := by
            rcases ih2 j with h | h
            · exact (Prod.mk.inj h).1.symm
            · exact absurd hj h
          refine ⟨by omega, hpk, hkM, fun i hi hpi => ?_, hfirst⟩
          rcases Nat.lt_succ_iff_lt_or_eq.mp hi with h | h
          · exact hmin i h hpi
          · rw [h]; omega
    · simp only [hp, if_false]
      refine ⟨fun h j hj hpj => ?_, ih2, ih3, fun j hj => ?_⟩
      · rcases Nat.lt_succ_iff_lt_or_eq.mp hj with h1 | h1
        · exact ih1 h j h1 hpj
        · rw [h1] at hpj; exact absurd hpj hp
      · obtain ⟨hk, hpk, hkM, hmin, hfirst⟩ := ih4 j hj
        refine ⟨by omega, hpk, hkM, fun i hi hpi => ?_, hfirst⟩
        rcases Nat.lt_succ_iff_lt_or_eq.mp hi with h | h
        · exact hmin i h hpi
        · rw [h] at hpi; exact absurd hpi hp

theorem manhattan_lt_bound (x1 y1 x2 y2 : Int) (h1 : is_valid_position x1 y1 = true)
    (h2 : is_valid_position x2 y2 = true) :
    manhattan_distance x1 y1 x2 y2 < MAX_GRID_WIDTH + MAX_GRID_HEIGHT := by
  rw [valid_pos_iff] at h1 h2
  unfold manhattan_distance MAX_GRID_WIDTH MAX_GRID_HEIGHT
  omega

theorem attack_target_valid (bf : Battlefield) (attacker : UNIT) (x1 y1 x2 y2 : Int)
    (h : is_valid_attack_target bf attacker x1 y1 x2 y2 = true) :
    is_valid_position x2 y2 = true := by
  unfold is_valid_attack_target at h
  by_cases hv : is_valid_position x2 y2 = true
  · exact hv
  · simp [hv] at h

theorem scan_targets_spec (bf : Battlefield) (attacker : UNIT) (att_pos : Position) (e : Int)
    (hv : is_valid_position att_pos.x att_pos.y = true) :
    (scan_targets bf attacker att_pos e = none →
      ∀ j : Nat, j < (bf.unit_counts e).toNat →
        is_valid_attack_target bf attacker att_pos.x att_pos.y (bf.positions e (j : Int)).x
          (bf.positions e (j : Int)).y ≠ true) ∧
    (∀ j : Nat, scan_targets bf attacker att_pos e = some j →
      j < (bf.unit_counts e).toNat ∧
      is_valid_attack_target bf attacker att_pos.x att_pos.y (bf.positions e (j : Int)).x
        (bf.positions e (j : Int)).y = true ∧
      (∀ i : Nat, i < (bf.unit_counts e).toNat →
        is_valid_attack_target bf attacker att_pos.x att_pos.y (bf.positions e (i : Int)).x
          (bf.positions e (i : Int)).y = true →
        manhattan_distance att_pos.x att_pos.y (bf.positions e (j : Int)).x
            (bf.positions e (j : Int)).y ≤
          manhattan_distance att_pos.x att_pos.y (bf.positions e (i : Int)).x
            (bf.positions e (i : Int)).y) ∧
      (∀ i : Nat, i < j →
        is_valid_attack_target bf attacker att_pos.x att_pos.y (bf.positions e (i : Int)).x
          (bf.positions e (i : Int)).y = true →
        manhattan_distance att_pos.x att_pos.y (bf.positions e (j : Int)).x
            (bf.positions e (j : Int)).y <
          manhattan_distance att_pos.x att_pos.y (bf.positions e (i : Int)).x
            (bf.positions e (i : Int)).y)) := by
  have key := scan_fold_inv
    (fun j : Nat => is_valid_attack_target bf attacker att_pos.x att_pos.y
      (bf.positions e (j : Int)).x (bf.positions e (j : Int)).y)
    (fun j : Nat => manhattan_distance att_pos.x att_pos.y (bf.positions e (j : Int)).x
      (bf.positions e (j : Int)).y)
    (MAX_GRID_WIDTH + MAX_GRID_HEIGHT) (bf.unit_counts e).toNat
  obtain ⟨k1, _, _, k4⟩ := key
  constructor
  · intro hnone j hj hp
    have hb := k1 hnone j hj hp
    have := manhattan_lt_bound _ _ _ _ hv (attack_target_valid _ _ _ _ _ _ hp)
    simp only at hb
    omega
  · intro j hj
    obtain ⟨h1, h2, _, h4, h5⟩ := k4 j hj
    exact ⟨h1, h2, h4, h5⟩

theorem rowList_getElem? (row : Int → Position) (n : Int) (j : Nat) (p : Position) :
    (rowList row n)[j]? = some p ↔ j < n.toNat ∧ row (j : Int) = p := by
  constructor
  · intro h
    obtain ⟨hj, he⟩ := List.getElem?_eq_some.mp h
    rw [rowList_getElem] at he
    rw [rowList_length] at hj
    exact ⟨hj, he⟩
  · rintro ⟨hj, rfl⟩
    have hj1 : j < (rowList row n).length := by rw [rowList_length]; exact hj
    rw [List.getElem?_eq_getElem hj1, rowList_getElem]

/-- C16: AI target selection.  For an acting unit with a slot-1 item on the
in-bounds position `att_pos`, the scan over the position list of `enemy`
selects an entry if and only if at least one listed position passes
`is_valid_attack_target`; the selected entry passes it, has the minimum
Manhattan distance among all listed positions that pass it, and is strictly
closer than every passing entry before it in list order (so among ties it
is the first). -/
theorem target_scan_selects (bf : Battlefield) (attacker : UNIT) (i1 : ITEM)
    (att_pos : Position) (enemy : Int) (hv : is_valid_position att_pos.x att_pos.y = true)
    (_h1 : attacker.item1 = some i1) :
    ((scan_targets bf attacker att_pos (enemy - 1)).isSome = true ↔
      ∃ p ∈ posList bf enemy,
        is_valid_attack_target bf attacker att_pos.x att_pos.y p.x p.y = true) ∧
    (∀ j : Nat, scan_targets bf attacker att_pos (enemy - 1) = some j →
      ∃ q : Position, (posList bf enemy)[j]? = some q ∧
        is_valid_attack_target bf attacker att_pos.x att_pos.y q.x q.y = true ∧
        (∀ p ∈ posList bf enemy,
          is_valid_attack_target bf attacker att_pos.x att_pos.y p.x p.y = true →
          manhattan_distance att_pos.x att_pos.y q.x q.y ≤
            manhattan_distance att_pos.x att_pos.y p.x p.y) ∧
        (∀ (i : Nat) (p : Position), i < j → (posList bf enemy)[i]? = some p →
          is_valid_attack_target bf attacker att_pos.x att_pos.y p.x p.y = true →
          manhattan_distance att_pos.x att_pos.y q.x q.y <
            manhattan_distance att_pos.x att_pos.y p.x p.y)) := by
  obtain ⟨hnone, hsome⟩ := scan_targets_spec bf attacker att_pos (enemy - 1) hv
  have hsel : ∀ j : Nat, scan_targets bf attacker att_pos (enemy - 1) = some j →
      ∃ q : Position, (posList bf enemy)[j]? = some q ∧
        is_valid_attack_target bf attacker att_pos.x att_pos.y q.x q.y = true ∧
        (∀ p ∈ posList bf enemy,
          is_valid_attack_target bf attacker att_pos.x att_pos.y p.x p.y = true →
          manhattan_distance att_pos.x att_pos.y q.x q.y ≤
            manhattan_distance att_pos.x att_pos.y p.x p.y) ∧
        (∀ (i : Nat) (p : Position), i < j → (posList bf enemy)[i]? = some p →
          is_valid_attack_target bf attacker att_pos.x att_pos.y p.x p.y = true →
          manhattan_distance att_pos.x att_pos.y q.x q.y <
            manhattan_distance att_pos.x att_pos.y p.x p.y) := by
    intro j hj
    obtain ⟨h1, h2, h3, h4⟩ := hsome j hj
    refine ⟨bf.positions (enemy - 1) (j : Int), (rowList_getElem? _ _ _ _).mpr ⟨h1, rfl⟩, h2,
      fun p hp hpass => ?_, fun i p hi hip hpass => ?_⟩
    · obtain ⟨i, hi, rfl⟩ := mem_rowList.mp hp
      exact h3 i hi hpass
    · obtain ⟨_, rfl⟩ := (rowList_getElem? _ _ _ _).mp hip
      exact h4 i hi hpass
  refine ⟨⟨fun h => ?_, fun h => ?_⟩, hsel⟩
  · obtain ⟨j, hj⟩ := Option.isSome_iff_exists.mp h
    obtain ⟨q, hq, hpass, _⟩ := hsel j hj
    exact ⟨q, List.getElem?_mem hq, hpass⟩
  · obtain ⟨p, hp, hpass⟩ := h
    obtain ⟨i, hi, rfl⟩ := mem_rowList.mp hp
    cases hs : scan_targets bf attacker att_pos (enemy - 1) with
    | some j => rfl
    | none => exact absurd hpass (hnone hs i hi)

/-- Witness of C16: on `bf_two` the Sword unit on (0,0) scans the list of
team 2 and selects its entry (1,0). -/
theorem target_scan_selects_witness :
    (scan_targets bf_two ⟨name_buf [65], some sword, none, 100⟩ ⟨0, 0⟩ (2 - 1)).isSome = true :=
  (target_scan_selects bf_two ⟨name_buf [65], some sword, none, 100⟩ sword ⟨0, 0⟩ 2
    (by decide) rfl).1.mpr ⟨⟨1, 0⟩, by decide, by decide⟩

/-! ## AI fallback step -/

/-- What `move_towards_target` does to the grid: either it reports `false` and
leaves the battlefield as it was, or it reports `true` and the cells are those
after `move_unit` from the entry `p` to a square `q` that is a legal move,
one step from `p` towards the target, horizontally if that square is legal,
else vertically. -/
theorem move_towards_target_cases (bf : Battlefield) (t i : Int) (target : Position) :
    ((move_towards_target bf t i target).1 = false ∧
      (move_towards_target bf t i target).2 = bf) ∨
    ((move_towards_target bf t i target).1 = true ∧
      ∃ q : Position,
        is_valid_move bf (bf.positions t i).x (bf.positions t i).y q.x q.y = true ∧
        (move_towards_target bf t i target).2.cells =
          (move_unit bf (bf.positions t i).x (bf.positions t i).y q.x q.y).2.cells ∧
        ((q.y = (bf.positions t i).y ∧
            ((target.x > (bf.positions t i).x ∧ q.x = (bf.positions t i).x + 1) ∨
              (target.x < (bf.positions t i).x ∧ q.x = (bf.positions t i).x - 1))) ∨
          (q.x = (bf.positions t i).x ∧
            ((target.y > (bf.positions t i).y ∧ q.y = (bf.positions t i).y + 1) ∨
              (target.y < (bf.positions t i).y ∧ q.y = (bf.positions t i).y - 1)) ∧
            (target.x = (bf.positions t i).x ∨
              (target.x > (bf.positions t i).x ∧
                is_valid_move bf (bf.positions t i).x (bf.positions t i).y
                  ((bf.positions t i).x + 1) (bf.positions t i).y = false) ∨
              (target.x < (bf.positions t i).x ∧
                is_valid_move bf (bf.positions t i).x (bf.positions t i).y
                  ((bf.positions t i).x - 1) (bf.positions t i).y = false))))) := by
  unfold move_towards_target
  simp only
  by_cases h0 : (bf.positions t i).x = target.x ∧ (bf.positions t i).y = target.y
  · left; simp [h0]
  · rw [if_neg h0]
    by_cases hx : (if target.x > (bf.positions t i).x then (1 : Int)
        else if target.x < (bf.positions t i).x then -1 else 0) ≠ 0 ∧
        is_valid_move bf (bf.positions t i).x (bf.positions t i).y
          ((bf.positions t i).x + (if target.x > (bf.positions t i).x then (1 : Int)
            else if target.x < (bf.positions t i).x then -1 else 0)) (bf.positions t i).y = true
    · right
      rw [if_pos hx]
      refine ⟨rfl, ⟨(bf.positions t i).x + (if target.x > (bf.positions t i).x then (1 : Int)
            else if target.x < (bf.positions t i).x then -1 else 0), (bf.positions t i).y⟩,
        hx.2, rfl, Or.inl ⟨rfl, ?_⟩⟩
      obtain ⟨hx1, _⟩ := hx
      by_cases hgt : target.x > (bf.positions t i).x
      · left; simp only [hgt, if_true]; exact ⟨trivial, trivial⟩
      · by_cases hlt : target.x < (bf.positions t i).x
        · right; simp only [hgt, hlt, if_false, if_true]; exact ⟨trivial, by omega⟩
        · simp only [hgt, hlt, if_false] at hx1; exact absurd rfl hx1
    · rw [if_neg hx]
      by_cases hy : (if target.y > (bf.positions t i).y then (1 : Int)
          else if target.y < (bf.positions t i).y then -1 else 0) ≠ 0 ∧
          is_valid_move bf (bf.positions t i).x (bf.positions t i).y (bf.positions t i).x
            ((bf.positions t i).y + (if target.y > (bf.positions t i).y then (1 : Int)
              else if target.y < (bf.positions t i).y then -1 else 0)) = true
      · right
        rw [if_pos hy]
        refine ⟨rfl, ⟨(bf.positions t i).x, (bf.positions t i).y +
            (if target.y > (bf.positions t i).y then (1 : Int)
              else if target.y < (bf.positions t i).y then -1 else 0)⟩,
          hy.2, rfl, Or.inr ⟨rfl, ?_, ?_⟩⟩
        · obtain ⟨hy1, _⟩ := hy
          by_cases hgt : target.y > (bf.positions t i).y
          · left; simp only [hgt, if_true]; exact ⟨trivial, trivial⟩
          · by_cases hlt : target.y < (bf.positions t i).y
            · right; simp only [hgt, hlt, if_false, if_true]; exact ⟨trivial, by omega⟩
            · simp only [hgt, hlt, if_false] at hy1; exact absurd rfl hy1
        · by_cases hgt : target.x > (bf.positions t i).x
          · right; left
            refine ⟨hgt, ?_⟩
            simp only [hgt, if_true] at hx
            have hx2 : ¬ is_valid_move bf (bf.positions t i).x (bf.positions t i).y
                ((bf.positions t i).x + 1) (bf.positions t i).y = true := fun h =>
              hx ⟨by decide, h⟩
            simpa using hx2
          · by_cases hlt : target.x < (bf.positions t i).x
            · right; right
              refine ⟨hlt, ?_⟩
              simp only [hgt, hlt, if_false, if_true] at hx
              have hx2 : ¬ is_valid_move bf (bf.positions t i).x (bf.positions t i).y
                  ((bf.positions t i).x - 1) (bf.positions t i).y = true := fun h =>
                hx ⟨by decide, by rw [← h]; rfl⟩
              simpa using hx2
            · left; omega
      · left
        rw [if_neg hy]
        exact ⟨rfl, rfl⟩

theorem mirror_bf_far : ListsMirror bf_far :=
  mirror_place _ _ _ _ _ mirror_bf_one (Or.inr rfl) (by decide)

theorem press_enter_turn (s : SimpleGame) (menu : Option ActionType) :
    (press_enter s menu).turn = s.turn ∨ TurnEnded s (press_enter s menu) := by
  unfold press_enter
  rcases menu with _ | (_ | _ | _ | _) <;> simp only <;> split <;> (try split_ifs) <;>
    first
    | (left; rfl)
    | (right; exact ⟨rfl, rfl, rfl, rfl, rfl, rfl⟩)

theorem game_key_turn (s : SimpleGame) (ch : Key) (menu : Option ActionType) :
    (game_key s ch menu).turn = s.turn ∨ TurnEnded s (game_key s ch menu) := by
  cases ch with
  | ENTER => exact press_enter_turn s menu
  | SAVE => left; rfl
  | QUIT => left; rfl
  | OTHER => left; rfl
  | KEY_UP => unfold game_key; simp only; split_ifs <;> (left; rfl)
  | KEY_DOWN => unfold game_key; simp only; split_ifs <;> (left; rfl)
  | KEY_LEFT => unfold game_key; simp only; split_ifs <;> (left; rfl)
  | KEY_RIGHT => unfold game_key; simp only; split_ifs <;> (left; rfl)
  | ESCAPE => unfold game_key; simp only; split_ifs <;> (left; rfl)

theorem press_enter_end_turn (s : SimpleGame)
    (hst : s.game.bf.state = GameState.STATE_SELECT_UNIT)
    (hc : (s.game.bf.cells s.game.bf.cursor_pos.y s.game.bf.cursor_pos.x).unit ≠ none ∧
      (s.game.bf.cells s.game.bf.cursor_pos.y s.game.bf.cursor_pos.x).team = s.turn) :
    TurnEnded s (press_enter s (some ActionType.ACTION_END_TURN)) := by
  unfold press_enter
  simp only [hst, hc, ne_eq, not_false_eq_true, and_self, if_true]
  exact ⟨rfl, rfl, rfl, rfl, rfl, rfl⟩

theorem press_enter_move (s : SimpleGame) (menu : Option ActionType)
    (hst : s.game.bf.state = GameState.STATE_MOVE_UNIT)
    (hv : is_valid_move s.game.bf s.game.bf.selected_pos.x s.game.bf.selected_pos.y
      s.game.bf.cursor_pos.x s.game.bf.cursor_pos.y = true) :
    press_enter s menu = end_turn s (move_unit s.game.bf s.game.bf.selected_pos.x
      s.game.bf.selected_pos.y s.game.bf.cursor_pos.x s.game.bf.cursor_pos.y).2 s.game.units := by
  unfold press_enter
  simp only [hst, hv, if_true]

theorem press_enter_attack (s : SimpleGame) (menu : Option ActionType)
    (hst : s.game.bf.state = GameState.STATE_SELECT_TARGET)
    (hv : is_valid_attack_target s.game.bf (deref_unit s.game.units s.selected_unit)
      s.game.bf.selected_pos.x s.game.bf.selected_pos.y
      s.game.bf.cursor_pos.x s.game.bf.cursor_pos.y = true) :
    TurnEnded s (press_enter s menu) := by
  unfold press_enter
  simp only [hst, hv, if_true]
  split_ifs <;> exact ⟨rfl, rfl, rfl, rfl, rfl, rfl⟩

theorem press_enter_illegal_move (s : SimpleGame) (menu : Option ActionType)
    (hst : s.game.bf.state = GameState.STATE_MOVE_UNIT)
    (hv : is_valid_move s.game.bf s.game.bf.selected_pos.x s.game.bf.selected_pos.y
      s.game.bf.cursor_pos.x s.game.bf.cursor_pos.y = false) :
    press_enter s menu = s := by
  unfold press_enter
  simp [hst, hv]

theorem press_enter_illegal_attack (s : SimpleGame) (menu : Option ActionType)
    (hst : s.game.bf.state = GameState.STATE_SELECT_TARGET)
    (hv : is_valid_attack_target s.game.bf (deref_unit s.game.units s.selected_unit)
      s.game.bf.selected_pos.x s.game.bf.selected_pos.y
      s.game.bf.cursor_pos.x s.game.bf.cursor_pos.y = false) :
    press_enter s menu = s := by
  unfold press_enter
  simp [hst, hv]


theorem defined_access_sg (st : GameState) (x y : Int) (h : is_valid_position x y = true) :
    DefinedAccess (sg st ⟨x, y⟩) :=
  ⟨h, rfl, fun _ => ⟨0, rfl, fun h0 => Option.noConfusion h0⟩⟩

/-- C19: in the two-player game every transition that ends a turn - End Turn
chosen in the menu on an own unit, Enter on a legal destination in the
move-target phase, Enter on a legal target in the attack-target phase - sets
the active team to `3 - turn`, clears the selection, clears the moved and
attacked flags and puts the phase back to unit-select; the same holds of every
key whatsoever that changes the active team.  A team in {1,2} stays in {1,2}
and two turn ends restore the original team. -/
theorem turn_end_resets (s : SimpleGame) (menu : Option ActionType) (_hd : DefinedAccess s) :
    (s.game.bf.state = GameState.STATE_SELECT_UNIT →
      (s.game.bf.cells s.game.bf.cursor_pos.y s.game.bf.cursor_pos.x).unit ≠ none ∧
        (s.game.bf.cells s.game.bf.cursor_pos.y s.game.bf.cursor_pos.x).team = s.turn →
      TurnEnded s (game_key s Key.ENTER (some ActionType.ACTION_END_TURN))) ∧
    (s.game.bf.state = GameState.STATE_MOVE_UNIT →
      is_valid_move s.game.bf s.game.bf.selected_pos.x s.game.bf.selected_pos.y
        s.game.bf.cursor_pos.x s.game.bf.cursor_pos.y = true →
      TurnEnded s (game_key s Key.ENTER menu)) ∧
    (s.game.bf.state = GameState.STATE_SELECT_TARGET →
      is_valid_attack_target s.game.bf (deref_unit s.game.units s.selected_unit)
        s.game.bf.selected_pos.x s.game.bf.selected_pos.y
        s.game.bf.cursor_pos.x s.game.bf.cursor_pos.y = true →
      TurnEnded s (game_key s Key.ENTER menu)) ∧
    (∀ ch : Key, (game_key s ch menu).turn ≠ s.turn → TurnEnded s (game_key s ch menu)) ∧
    (s.turn = 1 ∨ s.turn = 2 → ∀ s1 s2 : SimpleGame, TurnEnded s s1 → TurnEnded s1 s2 →
      (s1.turn = 1 ∨ s1.turn = 2) ∧ s1.turn ≠ s.turn ∧ s2.turn = s.turn) := by
  refine ⟨fun hst hc => press_enter_end_turn s hst hc, fun hst hv => ?_,
    fun hst hv => press_enter_attack s menu hst hv, fun ch hne => ?_, fun ht s1 s2 h1 h2 => ?_⟩
  · show TurnEnded s (press_enter s menu)
    rw [press_enter_move s menu hst hv]
    exact ⟨rfl, rfl, rfl, rfl, rfl, rfl⟩
  · rcases game_key_turn s ch menu with h | h
    · exact absurd h hne
    · exact h
  · have e1 := h1.1
    have e2 := h2.1
    omega

theorem turn_end_resets_witness :
    TurnEnded (sg GameState.STATE_MOVE_UNIT ⟨0, 1⟩)
      (game_key (sg GameState.STATE_MOVE_UNIT ⟨0, 1⟩) Key.ENTER none) :=
  (turn_end_resets (sg GameState.STATE_MOVE_UNIT ⟨0, 1⟩) none
    (defined_access_sg _ 0 1 (by decide))).2.1 rfl (by decide)

/-- C20: in the two-player game, Enter on a destination that fails
`is_valid_move` in the move-target phase, or on a target that fails
`is_valid_attack_target` in the attack-target phase, leaves the whole state of
the loop as it was: active team, phase, selection, both flags, both live
counts, every unit (so every health value) and the battlefield with its grid,
position lists and counts. -/
theorem illegal_action_keeps_turn (s : SimpleGame) (menu : Option ActionType)
    (_hd : DefinedAccess s) :
    (s.game.bf.state = GameState.STATE_MOVE_UNIT →
      is_valid_move s.game.bf s.game.bf.selected_pos.x s.game.bf.selected_pos.y
        s.game.bf.cursor_pos.x s.game.bf.cursor_pos.y = false →
      game_key s Key.ENTER menu = s) ∧
    (s.game.bf.state = GameState.STATE_SELECT_TARGET →
      is_valid_attack_target s.game.bf (deref_unit s.game.units s.selected_unit)
        s.game.bf.selected_pos.x s.game.bf.selected_pos.y
        s.game.bf.cursor_pos.x s.game.bf.cursor_pos.y = false →
      game_key s Key.ENTER menu = s) :=
  ⟨fun hst hv => press_enter_illegal_move s menu hst hv,
   fun hst hv => press_enter_illegal_attack s menu hst hv⟩

theorem illegal_action_keeps_turn_witness :
    game_key (sg GameState.STATE_MOVE_UNIT ⟨5, 5⟩) Key.ENTER none =
        sg GameState.STATE_MOVE_UNIT ⟨5, 5⟩ ∧
      game_key (sg GameState.STATE_SELECT_TARGET ⟨5, 5⟩) Key.ENTER none =
        sg GameState.STATE_SELECT_TARGET ⟨5, 5⟩ :=
  ⟨(illegal_action_keeps_turn (sg GameState.STATE_MOVE_UNIT ⟨5, 5⟩) none
      (defined_access_sg _ 5 5 (by decide))).1 rfl (by decide),
   (illegal_action_keeps_turn (sg GameState.STATE_SELECT_TARGET ⟨5, 5⟩) none
      (defined_access_sg _ 5 5 (by decide))).2 rfl (by decide)⟩

/-! ## Bounds, zero range and the nearest enemy -/

/-- C22: for all integers `x` and `y`, `is_valid_position x y` is true if and
only if `0 <= x < 10` and `0 <= y < 10`, the grid being 10 wide and 10 high. -/
theorem is_valid_position_spec :
    MAX_GRID_WIDTH = 10 ∧ MAX_GRID_HEIGHT = 10 ∧
    ∀ x y : Int, is_valid_position x y = true ↔ (0 ≤ x ∧ x < 10 ∧ 0 ≤ y ∧ y < 10) :=
  ⟨rfl, rfl, fun x y => valid_pos_iff x y⟩

/-- C26: a unit whose effective range is 0 (slot-1 item of range `r1`, slot-2
item absent or of range `r2`, the larger of the two being 0) has no legal
attack target: `is_valid_attack_target` is false for every battlefield, every
own cell `(x1,y1)` and every target coordinate `(x2,y2)`.  The Shield and the
Armor of the catalog are such items. -/
theorem zero_range_never_attacks (bf : Battlefield) (attacker : UNIT) (i1 : ITEM)
    (x1 y1 x2 y2 : Int) (h1 : attacker.item1 = some i1)
    (hr : spec_effective_range i1 attacker.item2 = 0) :
    is_valid_attack_target bf attacker x1 y1 x2 y2 = false ∧
    (items[1]?.map (fun i => (i.name, i.range)) = some ("Shield", 0)) ∧
    (items[5]?.map (fun i => (i.name, i.range)) = some ("Armor", 0)) := by
  refine ⟨?_, by decide, by decide⟩
  unfold is_valid_attack_target
  by_cases hv : is_valid_position x2 y2 = true
  · simp only [hv, Bool.not_true, Bool.false_eq_true, if_false]
    split_ifs with hc
    · rfl
    · have hne : (bf.cells y2 x2).team ≠ (bf.cells y1 x1).team := fun h => hc (Or.inr h)
      have hpos : ¬ (x1 = x2 ∧ y1 = y2) := by
        rintro ⟨rfl, rfl⟩; exact hne rfl
      have hd : 0 < manhattan_distance x1 y1 x2 y2 := by
        unfold manhattan_distance; omega
      rw [h1]
      unfold spec_effective_range at hr
      cases h2 : attacker.item2 with
      | none =>
        rw [h2] at hr
        simp only [deref] at hr ⊢
        simp only [decide_eq_false_iff_not, not_le]
        omega
      | some i2 =>
        rw [h2] at hr
        simp only [deref] at hr ⊢
        simp only [decide_eq_false_iff_not, not_le]
        split_ifs with hgt
        · have := le_max_right i1.range i2.range; omega
        · have := le_max_left i1.range i2.range; omega
  · simp [hv]

/-- Witness of C26: on `bf_two` a unit that holds only the Shield, standing on
(0,0), cannot attack the enemy on the adjacent cell (1,0). -/
theorem zero_range_never_attacks_witness :
    is_valid_attack_target bf_two ⟨name_buf [83], some ⟨"Shield", 0, 15, 1, 0, 0⟩, none, 100⟩
      0 0 1 0 = false :=
  (zero_range_never_attacks bf_two ⟨name_buf [83], some ⟨"Shield", 0, 15, 1, 0, 0⟩, none, 100⟩
    ⟨"Shield", 0, 15, 1, 0, 0⟩ 0 0 1 0 rfl rfl).1

/-- The loop of `find_closest_enemy` as a fold over the indices `0, ..., n-1`
of a row whose entries are all closer than the initial bound `M`: on the empty
row the result is the initial pair; otherwise it is the first entry of
minimal distance. -/
theorem closest_fold_inv (row : Nat → Position) (dist : Nat → Int) (M : Int) (p0 : Position)
    (n : Nat) (hM : ∀ j, j < n → dist j < M) :
    (n = 0 ∧ (List.range n).foldl
        (fun (st : Int × Position) (i : Nat) =>
          if dist i < st.1 then (dist i, (⟨(row i).x, (row i).y⟩ : Position)) else st)
        (M, p0) = (M, p0)) ∨
    (∃ j, j < n ∧ (List.range n).foldl
        (fun (st : Int × Position) (i : Nat) =>
          if dist i < st.1 then (dist i, (⟨(row i).x, (row i).y⟩ : Position)) else st)
        (M, p0) = (dist j, row j) ∧
      (∀ i, i < n → dist j ≤ dist i) ∧ (∀ i, i < j → dist j < dist i)) := by
  induction n with
  | zero => left; exact ⟨rfl, rfl⟩
  | succ k ih =>
    right
    rw [List.range_succ, List.foldl_append]
    simp only [List.foldl_cons, List.foldl_nil]
    rcases ih (fun j hj => hM j (by omega)) with ⟨hk, h0⟩ | ⟨j, hj, hf, hmin, hfirst⟩
    · subst hk
      rw [h0]
      simp only
      rw [if_pos (hM 0 (by omega))]
      exact ⟨0, by omega, rfl, fun i hi => by
        have : i = 0 := by omega
        subst this; exact le_refl _, fun i hi => by omega⟩
    · rw [hf]
      simp only
      by_cases hlt : dist k < dist j
      · rw [if_pos hlt]
        refine ⟨k, by omega, rfl, fun i hi => ?_, fun i hi => ?_⟩
        · rcases Nat.lt_succ_iff_lt_or_eq.mp hi with h | h
          · have := hmin i h; omega
          · subst h; exact le_refl _
        · have := hmin i hi; omega
      · rw [if_neg hlt]
        refine ⟨j, by omega, rfl, fun i hi => ?_, hfirst⟩
        rcases Nat.lt_succ_iff_lt_or_eq.mp hi with h | h
        · exact hmin i h
        · subst h; omega

/-- C25: `find_closest_enemy` for an acting team in {1,2} and an in-bounds
`(x,y)`, on a battlefield whose position list of the opposing team holds
in-bounds coordinates.  It returns (-1,-1) if and only if the opposing list is
empty; otherwise it returns an entry of the opposing list whose Manhattan
distance to `(x,y)` is minimal over that list and strictly smaller than that
of every earlier entry (the first such entry in list order).  The result is
read off the opposing team's list alone: it is the same on every battlefield
with that list, whatever the cells (so whatever is a legal attack), the units
and the acting team's own list are. -/
theorem find_closest_enemy_spec (bf : Battlefield) (team x y : Int)
    (ht : team = 1 ∨ team = 2) (hxy : is_valid_position x y = true)
    (hin : ∀ p ∈ posList bf (3 - team), is_valid_position p.x p.y = true) :
    (find_closest_enemy bf team x y = ⟨-1, -1⟩ ↔ posList bf (3 - team) = []) ∧
    (posList bf (3 - team) ≠ [] →
      ∃ j : Nat, (posList bf (3 - team))[j]? = some (find_closest_enemy bf team x y) ∧
        (∀ p ∈ posList bf (3 - team),
          manhattan_distance x y (find_closest_enemy bf team x y).x
              (find_closest_enemy bf team x y).y ≤ manhattan_distance x y p.x p.y) ∧
        (∀ (i : Nat) (p : Position), i < j → (posList bf (3 - team))[i]? = some p →
          manhattan_distance x y (find_closest_enemy bf team x y).x
              (find_closest_enemy bf team x y).y < manhattan_distance x y p.x p.y)) ∧
    (∀ bf1 : Battlefield, bf1.positions (3 - team - 1) = bf.positions (3 - team - 1) →
      bf1.unit_counts (3 - team - 1) = bf.unit_counts (3 - team - 1) →
      find_closest_enemy bf1 team x y = find_closest_enemy bf team x y) := by
  have he : (if team = 1 then (1 : Int) else 0) = 3 - team - 1 := by
    rcases ht with h | h <;> subst h <;> rfl
  have hlist : posList bf (3 - team) =
      rowList (bf.positions (3 - team - 1)) (bf.unit_counts (3 - team - 1)) := rfl
  have hM : ∀ j, j < (bf.unit_counts (3 - team - 1)).toNat →
      manhattan_distance x y (bf.positions (3 - team - 1) (j : Int)).x
        (bf.positions (3 - team - 1) (j : Int)).y < MAX_GRID_WIDTH + MAX_GRID_HEIGHT :=
    fun j hj => manhattan_lt_bound _ _ _ _ hxy (hin _ (mem_rowList.mpr ⟨j, hj, rfl⟩))
  have hfold := closest_fold_inv (fun j : Nat => bf.positions (3 - team - 1) (j : Int))
    (fun j : Nat => manhattan_distance x y (bf.positions (3 - team - 1) (j : Int)).x
      (bf.positions (3 - team - 1) (j : Int)).y)
    (MAX_GRID_WIDTH + MAX_GRID_HEIGHT) ⟨-1, -1⟩ (bf.unit_counts (3 - team - 1)).toNat hM
  have hdef : find_closest_enemy bf team x y =
      ((List.range (bf.unit_counts (3 - team - 1)).toNat).foldl
        (fun (st : Int × Position) (i : Nat) =>
          if manhattan_distance x y (bf.positions (3 - team - 1) (i : Int)).x
              (bf.positions (3 - team - 1) (i : Int)).y < st.1 then
            (manhattan_distance x y (bf.positions (3 - team - 1) (i : Int)).x
              (bf.positions (3 - team - 1) (i : Int)).y,
              (⟨(bf.positions (3 - team - 1) (i : Int)).x,
                (bf.positions (3 - team - 1) (i : Int)).y⟩ : Position))
          else st)
        (MAX_GRID_WIDTH + MAX_GRID_HEIGHT, ⟨-1, -1⟩)).2 := by
    unfold find_closest_enemy
    simp only [he]
  have hempty : posList bf (3 - team) = [] ↔ (bf.unit_counts (3 - team - 1)).toNat = 0 := by
    rw [hlist, ← List.length_eq_zero, rowList_length]
  refine ⟨?_, ?_, ?_⟩
  · rw [hempty, hdef]
    rcases hfold with ⟨hn, h0⟩ | ⟨j, hj, hf, _, _⟩
    · simp only at h0
      rw [h0]
      exact ⟨fun _ => hn, fun _ => rfl⟩
    · simp only at hf
      rw [hf]
      constructor
      · intro h
        have hv := hin _ (mem_rowList.mpr ⟨j, hj, rfl⟩)
        have h1 : bf.positions (3 - team - 1) (j : Int) = ⟨-1, -1⟩ := h
        rw [h1] at hv
        exact absurd hv (by decide)
      · intro h; omega
  · intro hne
    rw [hdef]
    rcases hfold with ⟨hn, _⟩ | ⟨j, hj, hf, hmin, hfirst⟩
    · exact absurd (hempty.mpr hn) hne
    · simp only at hf hmin hfirst
      rw [hf]
      refine ⟨j, ?_, fun p hp => ?_, fun i p hi hip => ?_⟩
      · rw [hlist]; exact (rowList_getElem? _ _ _ _).mpr ⟨hj, rfl⟩
      · obtain ⟨i, hi, rfl⟩ := mem_rowList.mp hp
        exact hmin i hi
      · rw [hlist] at hip
        obtain ⟨_, rfl⟩ := (rowList_getElem? _ _ _ _).mp hip
        exact hfirst i hi
  · intro bf1 hp hc
    unfold find_closest_enemy
    simp only [he, hp, hc]

/-- Witness of C25: on `bf_two` the nearest enemy of team 1 seen from (0,0) is
the only entry (1,0) of the list of team 2. -/
theorem find_closest_enemy_spec_witness :
    ¬ (find_closest_enemy bf_two 1 0 0 = ⟨-1, -1⟩) :=
  fun h => absurd (((find_closest_enemy_spec bf_two 1 0 0 (Or.inl rfl) (by decide)
    (by decide)).1).mp h) (by decide)

/-! ## The fallback step and the position list -/

/-- What a successful `move_towards_target` leaves behind: the battlefield
after `move_unit` from the entry `p` to a legal square `q` one step away,
with the list entry `(t, i)` of that battlefield advanced once more by the
same step. -/
theorem move_towards_target_entry (bf : Battlefield) (t i : Int) (target : Position)
    (h : (move_towards_target bf t i target).1 = true) :
    ∃ q : Position,
      is_valid_move bf (bf.positions t i).x (bf.positions t i).y q.x q.y = true ∧
      ((q.x - (bf.positions t i).x).natAbs + (q.y - (bf.positions t i).y).natAbs = 1) ∧
      (move_towards_target bf t i target).2.cells =
        (move_unit bf (bf.positions t i).x (bf.positions t i).y q.x q.y).2.cells ∧
      (move_towards_target bf t i target).2.unit_counts = bf.unit_counts ∧
      (move_towards_target bf t i target).2.positions =
        set2 (move_unit bf (bf.positions t i).x (bf.positions t i).y q.x q.y).2.positions t i
          ⟨((move_unit bf (bf.positions t i).x (bf.positions t i).y q.x q.y).2.positions t i).x +
              (q.x - (bf.positions t i).x),
            ((move_unit bf (bf.positions t i).x (bf.positions t i).y q.x q.y).2.positions t i).y +
              (q.y - (bf.positions t i).y)⟩ := by
  have hdx : ∀ a b : Int, (if a > b then (1 : Int) else if a < b then -1 else 0) = 1 ∨
      (if a > b then (1 : Int) else if a < b then -1 else 0) = -1 ∨
      (if a > b then (1 : Int) else if a < b then -1 else 0) = 0 := by
    intro a b; split_ifs <;> simp
  unfold move_towards_target at h ⊢
  simp only at h ⊢
  have h1 := hdx target.x (bf.positions t i).x
  have h2 := hdx target.y (bf.positions t i).y
  generalize (if target.x > (bf.positions t i).x then (1 : Int)
    else if target.x < (bf.positions t i).x then -1 else 0) = dx at h h1 ⊢
  generalize (if target.y > (bf.positions t i).y then (1 : Int)
    else if target.y < (bf.positions t i).y then -1 else 0) = dy at h h2 ⊢
  by_cases h0 : (bf.positions t i).x = target.x ∧ (bf.positions t i).y = target.y
  · rw [if_pos h0] at h; exact absurd h Bool.false_ne_true
  · rw [if_neg h0] at h ⊢
    by_cases hx : dx ≠ 0 ∧ is_valid_move bf (bf.positions t i).x (bf.positions t i).y
        ((bf.positions t i).x + dx) (bf.positions t i).y = true
    · rw [if_pos hx]
      refine ⟨⟨(bf.positions t i).x + dx, (bf.positions t i).y⟩, hx.2, ?_, rfl, ?_, ?_⟩
      · have := hx.1
        simp only
        omega
      · simp only [move_unit_counts]
      · simp only [add_sub_cancel_left, sub_self, add_zero]
    · rw [if_neg hx] at h ⊢
      by_cases hy : dy ≠ 0 ∧ is_valid_move bf (bf.positions t i).x (bf.positions t i).y
          (bf.positions t i).x ((bf.positions t i).y + dy) = true
      · rw [if_pos hy]
        refine ⟨⟨(bf.positions t i).x, (bf.positions t i).y + dy⟩, hy.2, ?_, rfl, ?_, ?_⟩
        · have := hy.1
          simp only
          omega
        · simp only [move_unit_counts]
        · simp only [add_sub_cancel_left, sub_self, add_zero]
      · rw [if_neg hy] at h; exact absurd h Bool.false_ne_true

theorem move_unit_positions (bf : Battlefield) (fx fy tx ty : Int) (i : Nat)
    (h : is_valid_move bf fx fy tx ty = true)
    (hf : find_pos (bf.positions ((bf.cells fy fx).team - 1))
      (bf.unit_counts ((bf.cells fy fx).team - 1)) fx fy = some i) :
    (move_unit bf fx fy tx ty).2.positions =
      set1 bf.positions ((bf.cells fy fx).team - 1)
        (set1 (bf.positions ((bf.cells fy fx).team - 1)) (i : Int) ⟨tx, ty⟩) := by
  simp [move_unit, h, hf]

/-- The search of `move_unit` finds the index of a list entry itself when the
lists mirror the grid (no coordinate is listed twice). -/
theorem mirror_find_index {bf : Battlefield} {team : Int} {i : Nat} (hm : ListsMirror bf)
    (ht : team = 1 ∨ team = 2) (hi : i < (bf.unit_counts (team - 1)).toNat) :
    find_pos (bf.positions (team - 1)) (bf.unit_counts (team - 1))
      (bf.positions (team - 1) (i : Int)).x (bf.positions (team - 1) (i : Int)).y = some i := by
  have hmem : bf.positions (team - 1) (i : Int) ∈ posList bf team := mem_rowList.mpr ⟨i, hi, rfl⟩
  obtain ⟨k, hk⟩ := find_pos_of_mem hmem
  have hs := find_pos_some.mp hk
  have hlk : k < (posList bf team).length := by
    simp only [posList, rowList_length]; exact hs.1
  have hli : i < (posList bf team).length := by
    simp only [posList, rowList_length]; exact hi
  have hek : (posList bf team)[k] = (posList bf team)[i] := by
    simp only [posList, rowList_getElem]
    exact hs.2.1
  have := (List.Nodup.getElem_inj_iff (hm.nodup team ht)).mp hek
  rw [hk, this]


/-- Every successful fallback step leaves the acting unit's list entry two
squares from where it was, one square beyond the cell the unit now stands on,
and the lists no longer mirror the grid. -/
theorem ai_fallback_entry_overshoots (bf : Battlefield) (team : Int) (i : Nat)
    (hc : CellsTyped bf) (hm : ListsMirror bf) (ht : team = 1 ∨ team = 2)
    (hi : i < (bf.unit_counts (team - 1)).toNat)
    (hs : (ai_fallback bf team (i : Int)).1 = true) :
    ∃ q : Position,
      is_valid_position q.x q.y = true ∧
      ((q.x - (bf.positions (team - 1) (i : Int)).x).natAbs +
        (q.y - (bf.positions (team - 1) (i : Int)).y).natAbs = 1) ∧
      (ai_fallback bf team (i : Int)).2.cells q.y q.x =
        bf.cells (bf.positions (team - 1) (i : Int)).y (bf.positions (team - 1) (i : Int)).x ∧
      (ai_fallback bf team (i : Int)).2.positions (team - 1) (i : Int) =
        ⟨2 * q.x - (bf.positions (team - 1) (i : Int)).x,
          2 * q.y - (bf.positions (team - 1) (i : Int)).y⟩ ∧
      (ai_fallback bf team (i : Int)).2.positions (team - 1) (i : Int) ≠ q ∧
      ¬ ListsMirror (ai_fallback bf team (i : Int)).2 := by
  have hmem : bf.positions (team - 1) (i : Int) ∈ posList bf team :=
    mem_rowList.mpr ⟨i, hi, rfl⟩
  obtain ⟨hvp, htag⟩ := (hm.mem_iff team ht _).mp hmem
  have hup := (typed_tag hc hvp (by omega)).1
  have hfind := mirror_find_index hm ht hi
  unfold ai_fallback at hs ⊢
  simp only at hs ⊢
  split_ifs at hs ⊢ with hx
  obtain ⟨q, hq, hstep, hcells, hcounts, hpos⟩ := move_towards_target_entry bf (team - 1) (i : Int) _ hs
  generalize move_towards_target bf (team - 1) (i : Int)
    (find_closest_enemy bf team (bf.positions (team - 1) (i : Int)).x
      (bf.positions (team - 1) (i : Int)).y) = r at hcells hcounts hpos ⊢
  generalize hp : bf.positions (team - 1) (i : Int) = p at *
  obtain ⟨hvq, huq, _⟩ := (is_valid_move_iff bf p.x p.y q.x q.y).mp hq
  have hne : ¬ (q.y = p.y ∧ q.x = p.x) := by
    rintro ⟨h1, h2⟩; rw [h1, h2] at huq; exact hup huq
  rw [← htag] at hfind
  have hmp := move_unit_positions bf p.x p.y q.x q.y i hq hfind
  rw [htag] at hmp
  have hentry : r.2.positions (team - 1) (i : Int) = ⟨2 * q.x - p.x, 2 * q.y - p.y⟩ := by
    rw [hpos, set2_same, hmp, set1_same, set1_same]
    simp only [Position.mk.injEq]
    constructor <;> ring
  have hcq : r.2.cells q.y q.x = bf.cells p.y p.x := by
    rw [hcells, move_unit_cells bf p.x p.y q.x q.y hq, set2_other _ _ _ _ _ _ hne, set2_same]
  have hneq : r.2.positions (team - 1) (i : Int) ≠ q := by
    rw [hentry]
    intro h
    have h1 := congrArg Position.x h
    have h2 := congrArg Position.y h
    simp only at h1 h2
    exact hne ⟨by omega, by omega⟩
  refine ⟨q, hvq, hstep, hcq, hentry, hneq, fun hm1 => ?_⟩
  have hq1 : q ∈ posList r.2 team := (hm1.mem_iff team ht q).mpr ⟨hvq, by rw [hcq]; exact htag⟩
  obtain ⟨k, hk, hkq⟩ := mem_rowList.mp hq1
  by_cases hki : k = i
  · subst hki; exact hneq hkq
  · have hki1 : ¬ ((team - 1 = team - 1) ∧ (k : Int) = (i : Int)) := by
      rintro ⟨_, h⟩; exact hki (by exact_mod_cast h)
    rw [hpos, set2_other _ _ _ _ _ _ hki1, hmp, set1_same,
      set1_other _ _ _ _ (by exact_mod_cast hki)] at hkq
    rw [hcounts] at hk
    have hq0 : q ∈ posList bf team := mem_rowList.mpr ⟨k, hk, hkq⟩
    have := ((hm.mem_iff team ht q).mp hq0).2
    have h0 := typed_empty hc hvq huq
    omega

/-- C23: on `bf_far` (unit 0 of team 1 on (0,0), unit 1 of team 2 on (9,0),
lists mirroring the grid) the fallback step of the battle loop for entry 0 of
team 1 succeeds and moves the unit to (1,0), but the unit's list entry ends
on (2,0), an empty cell: the position list of team 1 is no longer the set of
cells that team occupies. -/
theorem ai_fallback_desyncs_list :
    ListsMirror bf_far ∧
    (ai_fallback bf_far 1 0).1 = true ∧
    (ai_fallback bf_far 1 0).2.cells 0 1 = ⟨some 0, 1⟩ ∧
    posList (ai_fallback bf_far 1 0).2 1 = [⟨2, 0⟩] ∧
    (ai_fallback bf_far 1 0).2.cells 0 2 = ⟨none, 0⟩ ∧
    ¬ ListsMirror (ai_fallback bf_far 1 0).2 := by
  refine ⟨mirror_bf_far, by decide, by decide, by decide, by decide, fun h => ?_⟩
  have := (h.mem_iff 1 (Or.inl rfl) ⟨2, 0⟩).mp (by decide)
  exact absurd this.2 (by decide)

/-! ## Battle setup -/

theorem place_fold_cells_other (base : UnitRef) (team x : Int) (l : List Nat) :
    ∀ (bf : Battlefield) (a b : Int), (a ≠ x ∨ ∀ i ∈ l, b ≠ (i : Int) * 2) →
      (l.foldl (fun b (i : Nat) => place_unit b (base + i) team x ((i : Int) * 2)) bf).cells b a =
        bf.cells b a := by
  induction l with
  | nil => intro bf a b _; rfl
  | cons i l ih =>
    intro bf a b h
    rw [List.foldl_cons, ih]
    · have hne : ¬ (b = (i : Int) * 2 ∧ a = x) := by
        rintro ⟨h1, h2⟩
        rcases h with h | h
        · exact h h2
        · exact h i (List.mem_cons_self _ _) h1
      unfold place_unit
      simp only
      split_ifs
      · rfl
      · rfl
      · exact set2_other _ _ _ _ _ _ hne
    · rcases h with h | h
      · exact Or.inl h
      · exact Or.inr (fun k hk => h k (List.mem_cons_of_mem _ hk))

theorem place_fold_typed (base : UnitRef) (team x : Int) (ht : team = 1 ∨ team = 2)
    (l : List Nat) :
    ∀ bf : Battlefield, CellsTyped bf →
      CellsTyped (l.foldl (fun b (i : Nat) => place_unit b (base + i) team x ((i : Int) * 2)) bf) := by
  induction l with
  | nil => intro bf h; exact h
  | cons i l ih =>
    intro bf h
    rw [List.foldl_cons]
    exact ih _ (typed_place _ _ _ _ _ h ht)

theorem place_fold_mirror (base : UnitRef) (team x : Int) (ht : team = 1 ∨ team = 2)
    (l : List Nat) :
    ∀ bf : Battlefield, l.Nodup → ListsMirror bf →
      (∀ i ∈ l, (bf.cells ((i : Int) * 2) x).team = 0) →
      ListsMirror (l.foldl (fun b (i : Nat) => place_unit b (base + i) team x ((i : Int) * 2)) bf) := by
  induction l with
  | nil => intro bf _ h _; exact h
  | cons i l ih =>
    intro bf hnd hm h0
    rw [List.foldl_cons]
    obtain ⟨hi, hnd1⟩ := List.nodup_cons.mp hnd
    refine ih _ hnd1 (mirror_place _ _ _ _ _ hm ht (h0 i (List.mem_cons_self _ _))) ?_
    intro k hk
    have hki : k ≠ i := fun h => hi (h ▸ hk)
    have h1 := place_fold_cells_other base team x [i] bf x ((k : Int) * 2)
      (Or.inr (fun j hj => by
        rw [List.mem_singleton] at hj
        subst hj
        intro h
        exact hki (by omega)))
    simp only [List.foldl_cons, List.foldl_nil] at h1
    rw [h1]
    exact h0 k (List.mem_cons_of_mem _ hk)

/-- C29: battle setup.  For army sizes `n1`, `n2` between 1 and 5 the two
placement loops put unit `i` of army 1 on (0, 2i) and unit `i` of army 2 on
(9, 2i); all these cells are in bounds and pairwise distinct, no placement is
dropped (the counts are `n1` and `n2`), each position list is the list of
those cells in army order, the cells are typed and the lists mirror the
grid. -/
theorem placement_establishes_invariant (n1 n2 : Int) (h1 : 1 ≤ n1 ∧ n1 ≤ 5)
    (h2 : 1 ≤ n2 ∧ n2 ≤ 5) :
    (∀ i ∈ List.range n1.toNat, is_valid_position 0 ((i : Int) * 2) = true ∧
      (place_armies n1 n2).cells ((i : Int) * 2) 0 = ⟨some i, 1⟩) ∧
    (∀ i ∈ List.range n2.toNat, is_valid_position 9 ((i : Int) * 2) = true ∧
      (place_armies n1 n2).cells ((i : Int) * 2) 9 = ⟨some (5 + i), 2⟩) ∧
    (place_armies n1 n2).unit_counts 0 = n1 ∧ (place_armies n1 n2).unit_counts 1 = n2 ∧
    posList (place_armies n1 n2) 1 =
      (List.range n1.toNat).map (fun i : Nat => (⟨0, (i : Int) * 2⟩ : Position)) ∧
    posList (place_armies n1 n2) 2 =
      (List.range n2.toNat).map (fun i : Nat => (⟨9, (i : Int) * 2⟩ : Position)) ∧
    (posList (place_armies n1 n2) 1 ++ posList (place_armies n1 n2) 2).Nodup ∧
    CellsTyped (place_armies n1 n2) ∧ ListsMirror (place_armies n1 n2) := by
  have hc1 : CellsTyped (place_army init_battlefield 0 n1 1 0) :=
    place_fold_typed 0 1 0 (Or.inl rfl) _ _ typed_init
  have hm1 : ListsMirror (place_army init_battlefield 0 n1 1 0) :=
    place_fold_mirror 0 1 0 (Or.inl rfl) _ _ (List.nodup_range _) mirror_init (fun _ _ => rfl)
  have hc : CellsTyped (place_armies n1 n2) :=
    place_fold_typed 5 2 _ (Or.inr rfl) _ _ hc1
  have hm : ListsMirror (place_armies n1 n2) := by
    refine place_fold_mirror 5 2 _ (Or.inr rfl) _ _ (List.nodup_range _) hm1 (fun i _ => ?_)
    unfold place_army
    rw [place_fold_cells_other 0 1 0 _ _ _ _ (Or.inl (by decide))]
    rfl
  have e1 : n1 = 1 ∨ n1 = 2 ∨ n1 = 3 ∨ n1 = 4 ∨ n1 = 5 := by omega
  have e2 : n2 = 1 ∨ n2 = 2 ∨ n2 = 3 ∨ n2 = 4 ∨ n2 = 5 := by omega
  refine ⟨?_, ?_, ?_, ?_, ?_, ?_, ?_, hc, hm⟩ <;>
    rcases e1 with rfl | rfl | rfl | rfl | rfl <;>
    rcases e2 with rfl | rfl | rfl | rfl | rfl <;> decide

/-- Witness of C29: two armies of five units. -/
theorem placement_establishes_invariant_witness :
    (place_armies 5 5).unit_counts 0 = 5 ∧ ListsMirror (place_armies 5 5) :=
  ⟨(placement_establishes_invariant 5 5 (by decide) (by decide)).2.2.1,
    (placement_establishes_invariant 5 5 (by decide) (by decide)).2.2.2.2.2.2.2.2⟩

/-! ## Army setup -/

/-- The statements that close a pass keep the selection on the catalog and
put it on the current page. -/
theorem keep_on_page_catalog (menu : ItemMenu) (h : MenuOnCatalog menu) :
    MenuOnCatalog (keep_on_page menu) ∧ OnPage (keep_on_page menu) := by
  obtain ⟨h1, h2, h3, h4, h5, h6⟩ := h
  unfold keep_on_page
  simp only
  by_cases ha : menu.selected_item < menu.current_page * ITEMS_PER_PAGE
  · rw [if_pos ha]
    have hb : ¬ (menu.current_page * ITEMS_PER_PAGE ≥
        (menu.current_page + 1) * ITEMS_PER_PAGE) := by
      simp only [ITEMS_PER_PAGE]; omega
    rw [if_neg hb]
    simp only [ITEMS_PER_PAGE] at ha
    refine ⟨⟨h1, h2, h3, h4, ?_, ?_⟩, ?_, ?_⟩ <;> simp only [ITEMS_PER_PAGE] <;> omega
  · rw [if_neg ha]
    simp only [ITEMS_PER_PAGE] at ha
    by_cases hb : menu.selected_item ≥ (menu.current_page + 1) * ITEMS_PER_PAGE
    · rw [if_pos hb]
      simp only [ITEMS_PER_PAGE] at hb
      refine ⟨⟨h1, h2, h3, h4, ?_, ?_⟩, ?_, ?_⟩ <;> simp only [ITEMS_PER_PAGE] <;> omega
    · rw [if_neg hb]
      simp only [ITEMS_PER_PAGE] at hb
      refine ⟨⟨h1, h2, h3, h4, h5, h6⟩, ?_, ?_⟩ <;> simp only [ITEMS_PER_PAGE] <;> omega

/-- On a menu whose selection is on the current page the closing statements of
a pass change nothing. -/
theorem keep_on_page_fixed (menu : ItemMenu) (h : OnPage menu) : keep_on_page menu = menu := by
  obtain ⟨h1, h2⟩ := h
  unfold keep_on_page
  simp only
  rw [if_neg (not_lt.mpr h1), if_neg (not_le.mpr h2)]

/-- An item returned by `show_item_selection` is an entry of the catalog whose
slot-cost is within the slots available, and the menu stays on the catalog. -/
theorem show_item_selection_accepts (slots_available : Int) (keys : List Key) :
    ∀ (menu : ItemMenu) (r : Option ITEM) (menu1 : ItemMenu) (rest : List Key),
      MenuOnCatalog menu →
      show_item_selection menu slots_available keys = some (r, menu1, rest) →
      MenuOnCatalog menu1 ∧ ∀ it, r = some it → it ∈ items ∧ it.slots ≤ slots_available := by
  induction keys with
  | nil => intro menu r menu1 rest _ h; simp [show_item_selection] at h
  | cons ch keys ih =>
    intro menu r menu1 rest hm h
    obtain ⟨h1, h2, h3, h4, h5, h6⟩ := hm
    have hkeep : MenuOnCatalog menu := ⟨h1, h2, h3, h4, h5, h6⟩
    have hpass := (keep_on_page_catalog menu hkeep).1
    cases ch <;> simp only [show_item_selection] at h
    · split_ifs at h with hc
      · refine ih _ _ _ _ (keep_on_page_catalog _ ?_).1 h
        refine ⟨h1, h2, h3, h4, ?_, ?_⟩ <;> dsimp only <;> omega
      · exact ih _ _ _ _ hpass h
    · split_ifs at h with hc
      · refine ih _ _ _ _ (keep_on_page_catalog _ ?_).1 h
        refine ⟨h1, h2, h3, h4, ?_, ?_⟩ <;> dsimp only <;> omega
      · exact ih _ _ _ _ hpass h
    · split_ifs at h with hc
      · refine ih _ _ _ _ (keep_on_page_catalog _ ?_).1 h
        refine ⟨h1, h2, ?_, ?_, ?_, ?_⟩ <;> dsimp only [ITEMS_PER_PAGE] <;> omega
      · exact ih _ _ _ _ hpass h
    · split_ifs at h with hc
      · refine ih _ _ _ _ (keep_on_page_catalog _ ?_).1 h
        refine ⟨h1, h2, ?_, ?_, ?_, ?_⟩ <;> dsimp only [ITEMS_PER_PAGE] <;> omega
      · exact ih _ _ _ _ hpass h
    · split_ifs at h with hc
      · simp only [Option.some.injEq, Prod.mk.injEq] at h
        obtain ⟨hr, hm1, _⟩ := h
        subst hm1
        refine ⟨hkeep, fun it hit => ?_⟩
        rw [← hr] at hit
        cases hit
        refine ⟨?_, hc⟩
        have hlt : menu.selected_item.toNat < items.length := by
          have : items.length = 16 := rfl
          omega
        rw [List.getElem?_eq_getElem hlt]
        exact List.getElem_mem _
      · exact ih _ _ _ _ hpass h
    · simp only [Option.some.injEq, Prod.mk.injEq] at h
      obtain ⟨hr, hm1, _⟩ := h
      subst hm1
      exact ⟨hkeep, fun it hit => by rw [← hr] at hit; cases hit⟩
    · exact ih _ _ _ _ hpass h
    · exact ih _ _ _ _ hpass h
    · exact ih _ _ _ _ hpass h

/-- The selection never leaves the displayed page: five times Down on the
fresh menu and Enter accept the Axe, the last entry of page 1 (index 4); Right,
Up and Enter accept the Armor, the first entry of page 2 (index 5); and in the
last page, which holds the Lightning Rod alone, Up changes nothing. -/
theorem show_item_selection_stays_on_page :
    (show_item_selection create_item_menu 2
      [Key.KEY_DOWN, Key.KEY_DOWN, Key.KEY_DOWN, Key.KEY_DOWN, Key.KEY_DOWN, Key.ENTER]).map
        (fun r => (r.1, r.2.1.selected_item, r.2.1.current_page)) = some (some axe, 4, 0) ∧
    (show_item_selection create_item_menu 2 [Key.KEY_RIGHT, Key.KEY_UP, Key.ENTER]).map
        (fun r => (r.1, r.2.1.selected_item, r.2.1.current_page)) = some (some armor, 5, 1) ∧
    (show_item_selection create_item_menu 2
      [Key.KEY_RIGHT, Key.KEY_RIGHT, Key.KEY_RIGHT, Key.KEY_UP, Key.ENTER]).map
        (fun r => (r.1, r.2.1.selected_item, r.2.1.current_page)) =
      some (some ⟨"Lightning Rod", 14, 0, 2, 2, 1⟩, 15, 3) := by
  decide

theorem catalog_slots : ∀ it ∈ items, it.slots = 1 ∨ it.slots = 2 := by decide

/-- C21: every unit that `setup_unit_curses` produces (return code 0) has a
primary item, an entry of the catalog of slot-cost at most 2; its secondary
item is absent or an entry of the catalog of slot-cost at most 2 minus the
primary's; so the total slot-cost of what it has equipped is at most 2, and a
unit whose primary item costs 2 slots has no secondary item (every catalog
entry costs 1 or 2 slots).  The unit starts with 100 health. -/
theorem setup_unit_slot_invariant (unit : UNIT) (typed : List Nat) (keys : List Key)
    (r : UNIT) (rest : List Key) (h : setup_unit_curses unit typed keys = some (0, r, rest)) :
    (∃ i1, r.item1 = some i1 ∧ i1 ∈ items ∧ i1.slots ≤ 2 ∧
      (∀ i2, r.item2 = some i2 → i2 ∈ items ∧ i2.slots ≤ 2 - i1.slots) ∧
      (i1.slots = 2 → r.item2 = none)) ∧
    slot_cost r ≤ 2 ∧ r.hp = 100 ∧ (∀ it ∈ items, it.slots = 1 ∨ it.slots = 2) := by
  unfold setup_unit_curses at h
  simp only at h
  have hm0 : MenuOnCatalog create_item_menu := by
    refine ⟨rfl, by decide, by decide, by decide, by decide, by decide⟩
  cases hs1 : show_item_selection create_item_menu 2 keys with
  | none => rw [hs1] at h; simp at h
  | some v1 =>
    obtain ⟨o1, menu1, rest1⟩ := v1
    rw [hs1] at h
    cases o1 with
    | none =>
      simp only [Option.some.injEq, Prod.mk.injEq] at h
      exact absurd h.1 (by decide)
    | some item1 =>
      simp only at h
      obtain ⟨hmenu1, hacc1⟩ := show_item_selection_accepts 2 keys _ _ _ _ hm0 hs1
      obtain ⟨hin1, hsl1⟩ := hacc1 item1 rfl
      cases hs2 : show_item_selection menu1 (2 - item1.slots) rest1 with
      | none => rw [hs2] at h; simp at h
      | some v2 =>
        obtain ⟨o2, menu2, rest2⟩ := v2
        rw [hs2] at h
        simp only [Option.some.injEq, Prod.mk.injEq, true_and] at h
        obtain ⟨hr, _⟩ := h
        subst hr
        obtain ⟨_, hacc2⟩ := show_item_selection_accepts _ rest1 _ _ _ _ hmenu1 hs2
        have hnone : item1.slots = 2 → o2 = none := by
          intro h2
          cases o2 with
          | none => rfl
          | some i2 =>
            obtain ⟨hin2, hsl2⟩ := hacc2 i2 rfl
            have := catalog_slots i2 hin2
            omega
        refine ⟨⟨item1, rfl, hin1, hsl1, fun i2 hi2 => hacc2 i2 hi2, hnone⟩, ?_, rfl, catalog_slots⟩
        unfold slot_cost
        simp only
        cases o2 with
        | none => simp only; omega
        | some i2 =>
          have := (hacc2 i2 rfl).2
          simp only
          omega

/-- Witness of C21: the name "A"; in the first menu Right, Up and Enter take
the Armor (2 slots); in the second menu, opened with no slot left on the same
menu state, Enter on the Armor is refused, Left and Enter on the Sword are
refused as well, and Escape leaves the unit with the Armor alone. -/
theorem setup_unit_slot_invariant_witness :
    setup_unit_curses ⟨name_buf [], none, none, 0⟩ [65]
        [Key.KEY_RIGHT, Key.KEY_UP, Key.ENTER, Key.ENTER, Key.KEY_LEFT, Key.ENTER, Key.ESCAPE] =
      some (0, ⟨name_buf [65], some armor, none, 100⟩, []) ∧
    slot_cost ⟨name_buf [65], some armor, none, 100⟩ ≤ 2 :=
  ⟨by decide,
    (setup_unit_slot_invariant ⟨name_buf [], none, none, 0⟩ [65]
      [Key.KEY_RIGHT, Key.KEY_UP, Key.ENTER, Key.ENTER, Key.KEY_LEFT, Key.ENTER, Key.ESCAPE]
      ⟨name_buf [65], some armor, none, 100⟩ [] (by decide)).2.1⟩

/-! ## Saving and loading -/

theorem bytes_int_int_bytes (v : Int) (rest : List Nat)
    (h : -2147483648 ≤ v ∧ v < 2147483648) : bytes_int (int_bytes v ++ rest) = v := by
  unfold bytes_int int_bytes
  simp only [List.cons_append, List.getD_cons_zero, List.getD_cons_succ]
  split_ifs <;> omega

theorem strncpy_length (dst src : List Nat) (n : Nat) (h : n ≤ dst.length) :
    (strncpy dst src n).length = dst.length := by
  unfold strncpy
  have h1 : ((src.take n).takeWhile (fun b => decide (b ≠ 0))).length ≤ n :=
    le_trans (List.takeWhile_sublist _).length_le
      (by rw [List.length_take]; exact min_le_left _ _)
  simp only [List.length_append, List.length_replicate, List.length_drop]
  omega

theorem save_unit_length (u : UNIT) : (save_unit u).length = SAVE_UNIT_SIZE := by
  unfold save_unit
  have h := strncpy_length (List.replicate (MAX_NAME + 1) 0) u.name MAX_NAME (by simp)
  rw [List.length_replicate] at h
  simp only [List.length_append, h, int_bytes, List.length_cons, List.length_nil,
    SAVE_UNIT_SIZE]
  rfl

theorem item_index_catalog : ∀ i : Nat, i < 16 →
    ∃ e, items[i]? = some e ∧ item_index (some e) = (i : Int) ∧ load_item (i : Int) = some e := by
  decide

theorem item_index_range (it : Option ITEM) : -1 ≤ item_index it ∧ item_index it < 16 := by
  unfold item_index
  cases it with
  | none => simp
  | some v =>
    simp only
    cases h : (List.range NUMBER_OF_ITEMS).find? (fun i => decide (items[i]? = some v)) with
    | none => simp
    | some i =>
      have := List.mem_of_find?_eq_some h
      rw [List.mem_range] at this
      simp only [NUMBER_OF_ITEMS] at this
      simp only
      omega

theorem load_army_ok (idx : List Nat) : ∀ (a : Int → UNIT) (f : List Nat),
    ((load_army a f idx).1 = true ↔ SAVE_UNIT_SIZE * idx.length ≤ f.length) ∧
    ((load_army a f idx).1 = true →
      (load_army a f idx).2.2 = f.drop (SAVE_UNIT_SIZE * idx.length)) := by
  induction idx with
  | nil => intro a f; simp [load_army]
  | cons i idx ih =>
    intro a f
    unfold load_army
    by_cases hlt : f.length < SAVE_UNIT_SIZE
    · rw [if_pos hlt]
      simp only [Bool.false_eq_true, List.length_cons, false_iff, not_le, false_implies, and_true]
      have : SAVE_UNIT_SIZE * (idx.length + 1) = SAVE_UNIT_SIZE * idx.length + SAVE_UNIT_SIZE := by
        ring
      omega
    · rw [if_neg hlt]
      obtain ⟨h1, h2⟩ := ih (set1 a (i : Int) (load_unit (a (i : Int)) (f.take SAVE_UNIT_SIZE)))
        (f.drop SAVE_UNIT_SIZE)
      have e : SAVE_UNIT_SIZE * (idx.length + 1) = SAVE_UNIT_SIZE + SAVE_UNIT_SIZE * idx.length := by
        ring
      refine ⟨?_, ?_⟩
      · rw [h1, List.length_drop, List.length_cons, e]
        omega
      · intro h
        rw [h2 h, List.drop_drop, List.length_cons, e]

theorem load_army_units (n : Nat) : ∀ (s : Nat) (a : Int → UNIT) (f : List Nat) (i : Int),
    (load_army a f (List.range' s n)).2.1 i =
      if (s : Int) ≤ i ∧ i < (s : Int) + min n (f.length / SAVE_UNIT_SIZE) then
        load_unit (a i) ((f.drop (SAVE_UNIT_SIZE * (i.toNat - s))).take SAVE_UNIT_SIZE)
      else a i := by
  induction n with
  | zero =>
    intro s a f i
    simp only [List.range'_zero, load_army, Nat.zero_min, Nat.cast_zero, add_zero]
    rw [if_neg (by omega)]
  | succ n ih =>
    intro s a f i
    rw [List.range'_succ]
    unfold load_army
    by_cases hlt : f.length < SAVE_UNIT_SIZE
    · rw [if_pos hlt]
      have h0 : f.length / SAVE_UNIT_SIZE = 0 := Nat.div_eq_of_lt hlt
      rw [h0, if_neg (by simp)]
    · rw [if_neg hlt, ih]
      have hd : (f.drop SAVE_UNIT_SIZE).length / SAVE_UNIT_SIZE + 1 = f.length / SAVE_UNIT_SIZE := by
        rw [List.length_drop]
        simp only [SAVE_UNIT_SIZE] at hlt ⊢
        omega
      by_cases his : i = (s : Int)
      · subst his
        rw [if_neg (by push_cast; omega), set1_same, if_pos (by
          constructor
          · exact le_refl _
          · have : 1 ≤ min (n + 1) (f.length / SAVE_UNIT_SIZE) := by
              simp only [SAVE_UNIT_SIZE] at hlt hd ⊢
              omega
            omega)]
        simp
      · rw [set1_other _ _ _ _ his]
        by_cases hin : ((s + 1 : Nat) : Int) ≤ i ∧
            i < ((s + 1 : Nat) : Int) + min n ((f.drop SAVE_UNIT_SIZE).length / SAVE_UNIT_SIZE)
        · rw [if_pos hin, if_pos (by
            obtain ⟨h1, h2⟩ := hin
            constructor
            · push_cast at h1; omega
            · have : min (n + 1) (f.length / SAVE_UNIT_SIZE) =
                  min n ((f.drop SAVE_UNIT_SIZE).length / SAVE_UNIT_SIZE) + 1 := by
                omega
              rw [this]
              push_cast at h1 h2 ⊢
              omega), List.drop_drop]
          have e : SAVE_UNIT_SIZE + SAVE_UNIT_SIZE * (i.toNat - (s + 1)) =
              SAVE_UNIT_SIZE * (i.toNat - s) := by
            obtain ⟨h1, _⟩ := hin
            have : i.toNat - s = (i.toNat - (s + 1)) + 1 := by push_cast at h1; omega
            rw [this]; ring
          rw [e]
        · rw [if_neg hin, if_neg (by
            intro hc
            apply hin
            obtain ⟨h1, h2⟩ := hc
            constructor
            · push_cast; omega
            · have : min (n + 1) (f.length / SAVE_UNIT_SIZE) =
                  min n ((f.drop SAVE_UNIT_SIZE).length / SAVE_UNIT_SIZE) + 1 := by
                omega
              rw [this] at h2
              push_cast at h2 ⊢
              omega)]

/-- The function `load_game` on a file that holds the three header integers:
the counts and the active team are overwritten first, then come the range
check and the two unit loops. -/
theorem load_game_header (f : List Nat) (st : Armies) (h : 12 ≤ f.length) :
    load_game (some f) st =
      if header_n1 f < 1 ∨ header_n1 f > 5 ∨ header_n2 f < 1 ∨ header_n2 f > 5 then
        (false, { st with n1 := header_n1 f, n2 := header_n2 f, turn := header_turn f })
      else if (load_army st.a1 (f.drop 12) (List.range (header_n1 f).toNat)).1 = false then
        (false, { st with
          n1 := header_n1 f, n2 := header_n2 f, turn := header_turn f
          a1 := (load_army st.a1 (f.drop 12) (List.range (header_n1 f).toNat)).2.1 })
      else
        ((load_army st.a2
            (load_army st.a1 (f.drop 12) (List.range (header_n1 f).toNat)).2.2
            (List.range (header_n2 f).toNat)).1,
          { st with
            n1 := header_n1 f, n2 := header_n2 f, turn := header_turn f
            a1 := (load_army st.a1 (f.drop 12) (List.range (header_n1 f).toNat)).2.1
            a2 := (load_army st.a2
              (load_army st.a1 (f.drop 12) (List.range (header_n1 f).toNat)).2.2
              (List.range (header_n2 f).toNat)).2.1 }) := by
  have h1 : 4 ≤ f.length := by omega
  have h2 : 4 ≤ (f.drop 4).length := by rw [List.length_drop]; omega
  have h3 : 4 ≤ ((f.drop 4).drop 4).length := by simp only [List.length_drop]; omega
  have e8 : (f.drop 4).drop 4 = f.drop 8 := by rw [List.drop_drop]
  have e12 : (f.drop 8).drop 4 = f.drop 12 := by rw [List.drop_drop]
  unfold load_game
  simp only [fread_int, h1, h2, h3, if_true, Bool.not_true, Bool.false_eq_true, if_false, e8, e12]
  simp only [header_n1, header_n2, header_turn]
  split_ifs with hr hl1 hl2 hl3 hl4 <;> simp_all

theorem fread_int_fst (old : Int) (f : List Nat) :
    (fread_int old f).1 = decide (4 ≤ f.length) := by
  unfold fread_int
  by_cases h : 4 ≤ f.length
  · simp [h]
  · rw [if_neg h]
    cases f <;> simp_all

theorem fread_int_rest (old : Int) (f : List Nat) (h : 4 ≤ f.length) :
    (fread_int old f).2.2 = f.drop 4 := by
  unfold fread_int
  rw [if_pos h]

/-- The function `load_game` on a file too short for the three header
integers: it fails and writes to neither army array. -/
theorem load_game_short (f : List Nat) (st : Armies) (h : f.length < 12) :
    (load_game (some f) st).1 = false ∧ (load_game (some f) st).2.a1 = st.a1 ∧
      (load_game (some f) st).2.a2 = st.a2 := by
  unfold load_game
  simp only [fread_int_fst]
  by_cases h1 : 4 ≤ f.length
  · rw [fread_int_rest _ f h1]
    by_cases h2 : 4 ≤ (f.drop 4).length
    · rw [fread_int_rest _ _ h2]
      have h3 : ¬ 4 ≤ ((f.drop 4).drop 4).length := by
        simp only [List.length_drop] at h2 ⊢; omega
      simp only [h1, h2, h3, decide_True, decide_False, Bool.not_true, Bool.not_false,
        Bool.false_eq_true, if_false, if_true]
      exact ⟨trivial, trivial, trivial⟩
    · simp only [h1, h2, decide_True, decide_False, Bool.not_true, Bool.not_false,
        Bool.false_eq_true, if_false, if_true]
      exact ⟨trivial, trivial, trivial⟩
  · simp only [h1, decide_False, Bool.not_false, if_true]
    exact ⟨trivial, trivial, trivial⟩

/-- When `load_game` returns true, in terms of the bytes of the file. -/
theorem load_game_true_iff (f : List Nat) (st : Armies) :
    (load_game (some f) st).1 = true ↔
      12 ≤ f.length ∧ (1 ≤ header_n1 f ∧ header_n1 f ≤ 5) ∧
      (1 ≤ header_n2 f ∧ header_n2 f ≤ 5) ∧
      12 + SAVE_UNIT_SIZE * ((header_n1 f).toNat + (header_n2 f).toNat) ≤ f.length := by
  by_cases h : 12 ≤ f.length
  · rw [load_game_header f st h]
    by_cases hr : header_n1 f < 1 ∨ header_n1 f > 5 ∨ header_n2 f < 1 ∨ header_n2 f > 5
    · rw [if_pos hr]
      simp only [Bool.false_eq_true, false_iff]
      omega
    · rw [if_neg hr]
      obtain ⟨ha, hb⟩ := load_army_ok (List.range (header_n1 f).toNat) st.a1 (f.drop 12)
      rw [List.length_range, List.length_drop] at ha
      by_cases hl1 : (load_army st.a1 (f.drop 12) (List.range (header_n1 f).toNat)).1 = false
      · rw [if_pos hl1]
        simp only [Bool.false_eq_true, false_iff]
        have hn : ¬ SAVE_UNIT_SIZE * (header_n1 f).toNat ≤ f.length - 12 := by
          rw [← ha, hl1]; simp
        rw [Nat.mul_add]
        omega
      · rw [if_neg hl1]
        have ht : (load_army st.a1 (f.drop 12) (List.range (header_n1 f).toNat)).1 = true := by
          simpa using hl1
        have hrest := hb ht
        rw [List.length_range] at hrest
        simp only
        rw [hrest]
        obtain ⟨hc, _⟩ := load_army_ok (List.range (header_n2 f).toNat) st.a2
          (List.drop (SAVE_UNIT_SIZE * (header_n1 f).toNat) (List.drop 12 f))
        rw [List.length_range, List.length_drop, List.length_drop] at hc
        rw [hc, Nat.mul_add]
        have := ha.mp ht
        omega
  · have := (load_game_short f st (by omega)).1
    rw [this]
    simp only [Bool.false_eq_true, false_iff]
    omega

/-- C14: `load_game` returns true exactly for the inputs that hold the three
header integers, have both counts in [1,5] and hold all countTeam1 +
countTeam2 unit records of 116 bytes behind the header; so it returns false
when the file cannot be opened, when a count is outside [1,5] and when the
data is too short for the header and all those records. -/
theorem load_game_succeeds_iff (f : List Nat) (st : Armies) :
    (load_game none st).1 = false ∧
    ((load_game (some f) st).1 = true ↔
      12 ≤ f.length ∧ (1 ≤ header_n1 f ∧ header_n1 f ≤ 5) ∧
      (1 ≤ header_n2 f ∧ header_n2 f ≤ 5) ∧
      12 + SAVE_UNIT_SIZE * ((header_n1 f).toNat + (header_n2 f).toNat) ≤ f.length) :=
  ⟨rfl, load_game_true_iff f st⟩

theorem save_unit_fields (u : UNIT) :
    (save_unit u).take (MAX_NAME + 1) =
        strncpy (List.replicate (MAX_NAME + 1) 0) u.name MAX_NAME ∧
      (save_unit u).drop 104 =
        int_bytes u.hp ++ (int_bytes (item_index u.item1) ++ int_bytes (item_index u.item2)) ∧
      (save_unit u).drop 108 = int_bytes (item_index u.item1) ++ int_bytes (item_index u.item2) ∧
      (save_unit u).drop 112 = int_bytes (item_index u.item2) := by
  have h := strncpy_length (List.replicate (MAX_NAME + 1) 0) u.name MAX_NAME (by simp)
  rw [List.length_replicate] at h
  unfold save_unit
  generalize strncpy (List.replicate (MAX_NAME + 1) 0) u.name MAX_NAME = nm at h ⊢
  simp only [MAX_NAME] at h ⊢
  refine ⟨?_, ?_, ?_, ?_⟩
  · simp only [List.append_assoc]
    exact List.take_left' h
  · have e : (nm ++ [0, 0, 0]).length = 104 := by simp [h]
    simp only [List.append_assoc] at e ⊢
    rw [← List.append_assoc nm]
    exact List.drop_left' (by simpa using e)
  · have e : (nm ++ [0, 0, 0] ++ int_bytes u.hp).length = 108 := by simp [h, int_bytes]
    rw [List.append_assoc (nm ++ [0, 0, 0] ++ int_bytes u.hp)]
    exact List.drop_left' e
  · have e : (nm ++ [0, 0, 0] ++ int_bytes u.hp ++ int_bytes (item_index u.item1)).length = 112 := by
      simp [h, int_bytes]
    exact List.drop_left' e

/-- C15: items are persisted by catalog index.  For every `i < 16` the
`item_index` of catalog entry `i` is `i` and `load_game` maps the stored index
`i` back to entry `i`; `item_index` of an absent item is -1; `load_game` maps
-1, every other negative index and every index from 16 on to no item.  The
record written for a unit holds the two indices at byte offsets 108 and 112,
which is where `load_game` reads them; the catalog entries are pairwise
distinct. -/
theorem item_index_stable :
    (∀ i : Nat, i < 16 →
      ∃ e, items[i]? = some e ∧ item_index (some e) = (i : Int) ∧ load_item (i : Int) = some e) ∧
    item_index none = -1 ∧
    load_item (-1) = none ∧
    (∀ idx : Int, idx < 0 ∨ idx ≥ 16 → load_item idx = none) ∧
    (∀ (old : UNIT) (su : List Nat),
      (load_unit old su).item1 = load_item (bytes_int (su.drop 108)) ∧
      (load_unit old su).item2 = load_item (bytes_int (su.drop 112))) ∧
    (∀ u : UNIT, bytes_int ((save_unit u).drop 108) = item_index u.item1 ∧
      bytes_int ((save_unit u).drop 112) = item_index u.item2) ∧
    items.Nodup := by
  refine ⟨item_index_catalog, rfl, rfl, fun idx h => ?_, fun _ _ => ⟨rfl, rfl⟩, fun u => ?_,
    by decide⟩
  · unfold load_item
    rw [if_neg]
    simp only [NUMBER_OF_ITEMS]
    push_cast
    omega
  · obtain ⟨_, _, h3, h4⟩ := save_unit_fields u
    have r1 := item_index_range u.item1
    have r2 := item_index_range u.item2
    rw [h3, h4]
    constructor
    · exact bytes_int_int_bytes _ _ (by omega)
    · have := bytes_int_int_bytes (item_index u.item2) [] (by omega)
      rwa [List.append_nil] at this

/-! ## A failing load -/

set_option maxRecDepth 100000 in
/-- C13, counterexample: a failing `load_game` does write to the caller's
state.  On a file whose first count is 7 it returns false after it has
stored 7 in the first count and 2 in the active team; on a file that ends
after the first of two records it returns false after it has overwritten unit
0 of army 1. -/
theorem load_game_failure_overwrites :
    (load_game (some file_bad_count) armies_before).1 = false ∧
    (load_game (some file_bad_count) armies_before).2.n1 = 7 ∧ armies_before.n1 = 2 ∧
    (load_game (some file_bad_count) armies_before).2.turn = 2 ∧ armies_before.turn = 1 ∧
    (load_game (some file_one_record) armies_before).1 = false ∧
    ((load_game (some file_one_record) armies_before).2.a1 0).hp = 99 ∧
    (armies_before.a1 0).hp = 50 := by
  decide

/-- The effect of `load_game` on the two army arrays for a file with the
three header integers and counts in [1,5], `k` being the number of complete
unit records in the file: unit `i` of army 1 is overwritten from record `i`
if `i < min n1 k`, unit `i` of army 2 from record `n1 + i` if
`i < min n2 (k - n1)`, and every other unit is left as it was. -/
theorem load_game_units (f : List Nat) (st : Armies) (h : 12 ≤ f.length)
    (hr : ¬ (header_n1 f < 1 ∨ header_n1 f > 5 ∨ header_n2 f < 1 ∨ header_n2 f > 5)) :
    (∀ i : Int, (load_game (some f) st).2.a1 i =
      if 0 ≤ i ∧ i.toNat < min (header_n1 f).toNat ((f.length - 12) / SAVE_UNIT_SIZE) then
        load_unit (st.a1 i) (file_record f i.toNat)
      else st.a1 i) ∧
    (∀ i : Int, (load_game (some f) st).2.a2 i =
      if 0 ≤ i ∧ i.toNat <
          min (header_n2 f).toNat ((f.length - 12) / SAVE_UNIT_SIZE - (header_n1 f).toNat) then
        load_unit (st.a2 i) (file_record f ((header_n1 f).toNat + i.toNat))
      else st.a2 i) := by
  rw [load_game_header f st h, if_neg hr]
  have hu1 := load_army_units (header_n1 f).toNat 0 st.a1 (f.drop 12)
  rw [← List.range_eq_range'] at hu1
  obtain ⟨ha, hb⟩ := load_army_ok (List.range (header_n1 f).toNat) st.a1 (f.drop 12)
  rw [List.length_range, List.length_drop] at ha
  rw [List.length_range] at hb
  have hA : ∀ i : Int,
      (load_army st.a1 (f.drop 12) (List.range (header_n1 f).toNat)).2.1 i =
      if 0 ≤ i ∧ i.toNat < min (header_n1 f).toNat ((f.length - 12) / SAVE_UNIT_SIZE) then
        load_unit (st.a1 i) (file_record f i.toNat)
      else st.a1 i := by
    intro i
    rw [hu1 i, List.length_drop]
    by_cases hc : 0 ≤ i ∧ i.toNat < min (header_n1 f).toNat ((f.length - 12) / SAVE_UNIT_SIZE)
    · rw [if_pos hc, if_pos (by push_cast; omega), List.drop_drop]
      rfl
    · rw [if_neg hc, if_neg (by push_cast; omega)]
  by_cases hl1 : (load_army st.a1 (f.drop 12) (List.range (header_n1 f).toNat)).1 = false
  · rw [if_pos hl1]
    refine ⟨hA, fun i => ?_⟩
    have hn : ¬ SAVE_UNIT_SIZE * (header_n1 f).toNat ≤ f.length - 12 := by
      rw [← ha, hl1]; simp
    rw [if_neg]
    simp only [SAVE_UNIT_SIZE] at hn ⊢
    omega
  · rw [if_neg hl1]
    have ht : (load_army st.a1 (f.drop 12) (List.range (header_n1 f).toNat)).1 = true := by
      simpa using hl1
    refine ⟨hA, fun i => ?_⟩
    simp only
    rw [hb ht]
    have hu2 := load_army_units (header_n2 f).toNat 0 st.a2
      (List.drop (SAVE_UNIT_SIZE * (header_n1 f).toNat) (List.drop 12 f)) i
    rw [← List.range_eq_range'] at hu2
    rw [hu2, List.length_drop, List.length_drop]
    have hle := ha.mp ht
    have hk : (f.length - 12 - SAVE_UNIT_SIZE * (header_n1 f).toNat) / SAVE_UNIT_SIZE =
        (f.length - 12) / SAVE_UNIT_SIZE - (header_n1 f).toNat := by
      simp only [SAVE_UNIT_SIZE] at hle ⊢
      omega
    rw [hk]
    by_cases hc : 0 ≤ i ∧ i.toNat <
        min (header_n2 f).toNat ((f.length - 12) / SAVE_UNIT_SIZE - (header_n1 f).toNat)
    · rw [if_pos hc, if_pos (by push_cast; omega), List.drop_drop, List.drop_drop]
      unfold file_record
      congr 3
      simp only [Nat.sub_zero]
      ring
    · rw [if_neg hc, if_neg (by push_cast; omega)]

/-- C13, amended: what a failing `load_game` leaves behind.  If the file
cannot be opened or is empty the caller's state is untouched.  If the file is
shorter than the three header integers, both army arrays are untouched.  If
the header is there, both counts and the active team hold the header's values
afterwards; when a count is outside [1,5] both army arrays are untouched;
when the counts are in range and the data ends before all `n1 + n2` records,
exactly the units whose records are complete in the file (the first `k` in
file order) are overwritten and every other unit is as before. -/
theorem load_game_failure_effect (f : List Nat) (st : Armies) :
    load_game none st = (false, st) ∧
    load_game (some []) st = (false, st) ∧
    (f.length < 12 →
      (load_game (some f) st).1 = false ∧ (load_game (some f) st).2.a1 = st.a1 ∧
      (load_game (some f) st).2.a2 = st.a2) ∧
    (12 ≤ f.length →
      (load_game (some f) st).2.n1 = header_n1 f ∧ (load_game (some f) st).2.n2 = header_n2 f ∧
      (load_game (some f) st).2.turn = header_turn f) ∧
    (12 ≤ f.length →
      (header_n1 f < 1 ∨ header_n1 f > 5 ∨ header_n2 f < 1 ∨ header_n2 f > 5) →
      (load_game (some f) st).1 = false ∧ (load_game (some f) st).2.a1 = st.a1 ∧
      (load_game (some f) st).2.a2 = st.a2) ∧
    (12 ≤ f.length →
      ¬ (header_n1 f < 1 ∨ header_n1 f > 5 ∨ header_n2 f < 1 ∨ header_n2 f > 5) →
      (f.length - 12) / SAVE_UNIT_SIZE < (header_n1 f).toNat + (header_n2 f).toNat →
      (load_game (some f) st).1 = false ∧
      (∀ i : Int, (load_game (some f) st).2.a1 i =
        if 0 ≤ i ∧ i.toNat < min (header_n1 f).toNat ((f.length - 12) / SAVE_UNIT_SIZE) then
          load_unit (st.a1 i) (file_record f i.toNat)
        else st.a1 i) ∧
      (∀ i : Int, (load_game (some f) st).2.a2 i =
        if 0 ≤ i ∧ (header_n1 f).toNat + i.toNat < (f.length - 12) / SAVE_UNIT_SIZE then
          load_unit (st.a2 i) (file_record f ((header_n1 f).toNat + i.toNat))
        else st.a2 i)) := by
  refine ⟨rfl, rfl, load_game_short f st, fun h => ?_, fun h hr => ?_, fun h hr hk => ?_⟩
  · rw [load_game_header f st h]
    split_ifs <;> exact ⟨rfl, rfl, rfl⟩
  · rw [load_game_header f st h, if_pos hr]
    exact ⟨rfl, rfl, rfl⟩
  · obtain ⟨h1, h2⟩ := load_game_units f st h hr
    refine ⟨?_, h1, fun i => ?_⟩
    · have := load_game_true_iff f st
      cases hv : (load_game (some f) st).1 with
      | false => rfl
      | true =>
        have hx := (this.mp hv).2.2.2
        simp only [SAVE_UNIT_SIZE] at hx hk
        omega
    · rw [h2 i]
      by_cases hc : 0 ≤ i ∧ (header_n1 f).toNat + i.toNat < (f.length - 12) / SAVE_UNIT_SIZE
      · rw [if_pos hc, if_pos (by omega)]
      · rw [if_neg hc, if_neg (by omega)]

set_option maxRecDepth 100000 in
/-- Witness of C13 (amended): on the file that ends after the first of two
records the load fails, the counts are those of the header, unit 0 of army 1
is the unit of the record and unit 0 of army 2 is as before. -/
theorem load_game_failure_effect_witness :
    (load_game (some file_one_record) armies_before).1 = false ∧
    (load_game (some file_one_record) armies_before).2.n1 = 1 ∧
    (load_game (some file_one_record) armies_before).2.a1 0 =
      load_unit (armies_before.a1 0) (file_record file_one_record 0) ∧
    (load_game (some file_one_record) armies_before).2.a2 0 = armies_before.a2 0 := by
  have h := load_game_failure_effect file_one_record armies_before
  have h12 : 12 ≤ file_one_record.length := by decide
  obtain ⟨hf, h1, h2⟩ := h.2.2.2.2.2 h12 (by decide) (by decide)
  refine ⟨hf, (h.2.2.2.1 h12).1, ?_, ?_⟩
  · rw [h1 0, if_pos (by decide)]; rfl
  · rw [h2 0, if_neg (by decide)]

/-! ## The save/load round trip -/

theorem flatMap_block {α β : Type} (g : α → List β) (c : Nat) (hc : ∀ x, (g x).length = c)
    (l : List α) : ∀ (i : Nat) (h : i < l.length) (rest : List β),
      ((l.flatMap g ++ rest).drop (c * i)).take c = g (l.get ⟨i, h⟩) := by
  induction l with
  | nil => intro i h; exact absurd h (by simp)
  | cons x l ih =>
    intro i h rest
    rw [List.flatMap_cons, List.append_assoc]
    cases i with
    | zero =>
      simp only [Nat.mul_zero, List.drop_zero, List.get_eq_getElem, List.getElem_cons_zero]
      exact List.take_left' (hc x)
    | succ i =>
      have e : c * (i + 1) = (g x).length + c * i := by rw [hc x]; ring
      rw [e, ← List.drop_drop, List.drop_left]
      exact ih i (by simpa using h) rest

theorem flatMap_block_length {α β : Type} (g : α → List β) (c : Nat)
    (hc : ∀ x, (g x).length = c) (l : List α) : (l.flatMap g).length = c * l.length := by
  induction l with
  | nil => simp
  | cons x l ih => rw [List.flatMap_cons, List.length_append, ih, hc x, List.length_cons]; ring

theorem takeWhile_append_zeros (s : List Nat) (k : Nat) (hs : ∀ b ∈ s, b ≠ 0) :
    (s ++ List.replicate k 0).takeWhile (fun b => decide (b ≠ 0)) = s := by
  rw [List.takeWhile_append_of_pos (by simpa using hs)]
  cases k with
  | zero => simp
  | succ k => simp [List.replicate_succ]

/-- A name written by `save_game` and read back by `load_game`: the bytes of
the string (at most 100), zero bytes up to index 99, and behind them whatever
the destination buffer held from index 100 on. -/
theorem strncpy_round_trip (old nm : List Nat) :
    strncpy old (strncpy (List.replicate (MAX_NAME + 1) 0) nm MAX_NAME) MAX_NAME =
      (nm.take MAX_NAME).takeWhile (fun b => decide (b ≠ 0)) ++
        List.replicate (MAX_NAME - ((nm.take MAX_NAME).takeWhile (fun b => decide (b ≠ 0))).length) 0 ++
        old.drop MAX_NAME := by
  have hlen : ((nm.take MAX_NAME).takeWhile (fun b => decide (b ≠ 0))).length ≤ MAX_NAME :=
    le_trans (List.takeWhile_sublist _).length_le
      (by rw [List.length_take]; exact min_le_left _ _)
  have hnz : ∀ b ∈ (nm.take MAX_NAME).takeWhile (fun b => decide (b ≠ 0)), b ≠ 0 := by
    intro b hb
    simpa using List.mem_takeWhile_imp hb
  unfold strncpy
  simp only
  generalize (nm.take MAX_NAME).takeWhile (fun b => decide (b ≠ 0)) = s at hlen hnz ⊢
  have e1 : (s ++ List.replicate (MAX_NAME - s.length) 0 ++
      List.drop MAX_NAME (List.replicate (MAX_NAME + 1) 0)).take MAX_NAME =
      s ++ List.replicate (MAX_NAME - s.length) 0 := by
    apply List.take_left'
    rw [List.length_append, List.length_replicate]
    omega
  rw [e1, takeWhile_append_zeros s _ hnz]

theorem load_item_item_index (it : Option ITEM) (h : ∀ i, it = some i → i ∈ items) :
    load_item (item_index it) = it := by
  cases it with
  | none => rfl
  | some e =>
    obtain ⟨k, hk, hke⟩ := List.getElem_of_mem (h e rfl)
    have hk16 : k < 16 := hk
    obtain ⟨e1, h1, h2, h3⟩ := item_index_catalog k hk16
    rw [List.getElem?_eq_getElem hk, hke] at h1
    cases h1
    rw [h2, h3]

/-- The unit that `load_game` makes of the record `save_game` wrote for `u`:
health and items are those of `u`, the name buffer holds the string of `u`
(its first 100 bytes at most), zero bytes up to index 99 and, from index 100
on, what the destination buffer held before. -/
theorem load_unit_save_unit (old u : UNIT) (hs : Storable u) :
    load_unit old (save_unit u) =
      { name := (u.name.take MAX_NAME).takeWhile (fun b => decide (b ≠ 0)) ++
          List.replicate
            (MAX_NAME - ((u.name.take MAX_NAME).takeWhile (fun b => decide (b ≠ 0))).length) 0 ++
          old.name.drop MAX_NAME
        item1 := u.item1
        item2 := u.item2
        hp := u.hp } := by
  obtain ⟨hhp, hi1, hi2⟩ := hs
  obtain ⟨f1, f2, f3, f4⟩ := save_unit_fields u
  have r1 := item_index_range u.item1
  have r2 := item_index_range u.item2
  unfold load_unit
  rw [f1, f2, f3, f4, strncpy_round_trip, bytes_int_int_bytes _ _ hhp,
    bytes_int_int_bytes _ _ (by omega)]
  have := bytes_int_int_bytes (item_index u.item2) [] (by omega)
  rw [List.append_nil] at this
  rw [this, load_item_item_index _ hi1, load_item_item_index _ hi2]

theorem load_game_header_values (f : List Nat) (st : Armies) (h : 12 ≤ f.length) :
    (load_game (some f) st).2.n1 = header_n1 f ∧ (load_game (some f) st).2.n2 = header_n2 f ∧
      (load_game (some f) st).2.turn = header_turn f := by
  rw [load_game_header f st h]
  split_ifs <;> exact ⟨rfl, rfl, rfl⟩

theorem save_file_shape (a1 : Int → UNIT) (n1 : Int) (a2 : Int → UNIT) (n2 turn : Int)
    (ht : -2147483648 ≤ turn ∧ turn < 2147483648) (h1 : 1 ≤ n1 ∧ n1 ≤ 5) (h2 : 1 ≤ n2 ∧ n2 ≤ 5) :
    ∃ f, save_game true a1 n1 a2 n2 turn = some f ∧
      f.length = 12 + SAVE_UNIT_SIZE * (n1.toNat + n2.toNat) ∧
      header_n1 f = n1 ∧ header_n2 f = n2 ∧ header_turn f = turn ∧
      (∀ i : Nat, i < n1.toNat → file_record f i = save_unit (a1 (i : Int))) ∧
      (∀ i : Nat, i < n2.toNat → file_record f (n1.toNat + i) = save_unit (a2 (i : Int))) := by
  have e4 : ∀ v : Int, (int_bytes v).length = 4 := fun _ => rfl
  have l1 := flatMap_block_length (fun i : Nat => save_unit (a1 (i : Int))) SAVE_UNIT_SIZE
    (fun _ => save_unit_length _) (List.range n1.toNat)
  have l2 := flatMap_block_length (fun i : Nat => save_unit (a2 (i : Int))) SAVE_UNIT_SIZE
    (fun _ => save_unit_length _) (List.range n2.toNat)
  rw [List.length_range] at l1 l2
  refine ⟨_, rfl, ?_, ?_, ?_, ?_, ?_, ?_⟩
  · simp only [List.length_append, l1, l2, e4]
    ring
  · unfold header_n1
    simp only [List.append_assoc]
    rw [List.take_left' (e4 n1)]
    have := bytes_int_int_bytes n1 [] (by omega)
    rwa [List.append_nil] at this
  · unfold header_n2
    simp only [List.append_assoc]
    rw [List.drop_left' (e4 n1), List.take_left' (e4 n2)]
    have := bytes_int_int_bytes n2 [] (by omega)
    rwa [List.append_nil] at this
  · unfold header_turn
    have e : (int_bytes n1 ++ int_bytes n2).length = 8 := by
      rw [List.length_append, e4, e4]
    simp only [List.append_assoc]
    rw [← List.append_assoc (int_bytes n1), List.drop_left' e, List.take_left' (e4 turn)]
    have := bytes_int_int_bytes turn [] ht
    rwa [List.append_nil] at this
  · intro i hi
    unfold file_record
    have e : (int_bytes n1 ++ int_bytes n2 ++ int_bytes turn).length = 12 := by
      simp only [List.length_append, e4]
    rw [← List.drop_drop,
      List.append_assoc (int_bytes n1 ++ int_bytes n2 ++ int_bytes turn), List.drop_left' e]
    rw [flatMap_block (fun i : Nat => save_unit (a1 (i : Int))) SAVE_UNIT_SIZE
      (fun _ => save_unit_length _) (List.range n1.toNat) i (by simpa using hi)]
    simp
  · intro i hi
    unfold file_record
    have e : (int_bytes n1 ++ int_bytes n2 ++ int_bytes turn ++
        (List.range n1.toNat).flatMap (fun i : Nat => save_unit (a1 (i : Int)))).length =
        12 + SAVE_UNIT_SIZE * n1.toNat := by
      simp only [List.length_append, l1, e4]
    have e2 : 12 + SAVE_UNIT_SIZE * (n1.toNat + i) =
        (12 + SAVE_UNIT_SIZE * n1.toNat) + SAVE_UNIT_SIZE * i := by ring
    rw [e2, ← List.drop_drop, List.drop_left' e]
    have := flatMap_block (fun i : Nat => save_unit (a2 (i : Int))) SAVE_UNIT_SIZE
      (fun _ => save_unit_length _) (List.range n2.toNat) i (by simpa using hi) []
    rw [List.append_nil] at this
    rw [this]
    simp

/-- The round trip as far as it holds: for armies of 1 to 5 storable units
and an active team that is an `int`, `load_game` on the file `save_game`
wrote succeeds and returns the same counts, the same active team and, unit by
unit, the same health and the same items; the name buffer of each unit holds
the saved string, zero bytes up to index 99 and, in index 100, the byte the
destination buffer held before the call.  So the loaded name is the saved
name whenever that name is shorter than 100 bytes. -/
theorem save_load_round_trip (a1 : Int → UNIT) (n1 : Int) (a2 : Int → UNIT) (n2 turn : Int)
    (st : Armies) (ht : -2147483648 ≤ turn ∧ turn < 2147483648)
    (h1 : 1 ≤ n1 ∧ n1 ≤ 5) (h2 : 1 ≤ n2 ∧ n2 ≤ 5)
    (hs1 : ∀ i : Nat, i < n1.toNat → Storable (a1 (i : Int)))
    (hs2 : ∀ i : Nat, i < n2.toNat → Storable (a2 (i : Int))) :
    (load_game (save_game true a1 n1 a2 n2 turn) st).1 = true ∧
    (load_game (save_game true a1 n1 a2 n2 turn) st).2.n1 = n1 ∧
    (load_game (save_game true a1 n1 a2 n2 turn) st).2.n2 = n2 ∧
    (load_game (save_game true a1 n1 a2 n2 turn) st).2.turn = turn ∧
    (∀ i : Nat, i < n1.toNat →
      (load_game (save_game true a1 n1 a2 n2 turn) st).2.a1 (i : Int) =
        load_unit (st.a1 (i : Int)) (save_unit (a1 (i : Int))) ∧
      ((load_game (save_game true a1 n1 a2 n2 turn) st).2.a1 (i : Int)).hp = (a1 (i : Int)).hp ∧
      ((load_game (save_game true a1 n1 a2 n2 turn) st).2.a1 (i : Int)).item1 =
        (a1 (i : Int)).item1 ∧
      ((load_game (save_game true a1 n1 a2 n2 turn) st).2.a1 (i : Int)).item2 =
        (a1 (i : Int)).item2) ∧
    (∀ i : Nat, i < n2.toNat →
      (load_game (save_game true a1 n1 a2 n2 turn) st).2.a2 (i : Int) =
        load_unit (st.a2 (i : Int)) (save_unit (a2 (i : Int))) ∧
      ((load_game (save_game true a1 n1 a2 n2 turn) st).2.a2 (i : Int)).hp = (a2 (i : Int)).hp ∧
      ((load_game (save_game true a1 n1 a2 n2 turn) st).2.a2 (i : Int)).item1 =
        (a2 (i : Int)).item1 ∧
      ((load_game (save_game true a1 n1 a2 n2 turn) st).2.a2 (i : Int)).item2 =
        (a2 (i : Int)).item2) := by
  obtain ⟨f, hf, hlen, e1, e2, e3, hr1, hr2⟩ := save_file_shape a1 n1 a2 n2 turn ht h1 h2
  rw [hf]
  have h12 : 12 ≤ f.length := by omega
  have hr : ¬ (header_n1 f < 1 ∨ header_n1 f > 5 ∨ header_n2 f < 1 ∨ header_n2 f > 5) := by
    rw [e1, e2]; omega
  have hk : (f.length - 12) / SAVE_UNIT_SIZE = n1.toNat + n2.toNat := by
    rw [hlen]; simp [SAVE_UNIT_SIZE]
  obtain ⟨hu1, hu2⟩ := load_game_units f st h12 hr
  have hhead := load_game_header_values f st
  refine ⟨?_, ?_, ?_, ?_, fun i hi => ?_, fun i hi => ?_⟩
  · rw [load_game_true_iff f st, e1, e2, hlen]
    omega
  · rw [(hhead h12).1, e1]
  · rw [(hhead h12).2.1, e2]
  · rw [(hhead h12).2.2, e3]
  · have hx : (load_game (some f) st).2.a1 (i : Int) =
        load_unit (st.a1 (i : Int)) (save_unit (a1 (i : Int))) := by
      rw [hu1 (i : Int), if_pos (by rw [hk, e1]; simp only [Int.toNat_ofNat]; omega),
        Int.toNat_ofNat, hr1 i hi]
    rw [hx, load_unit_save_unit _ _ (hs1 i hi)]
    exact ⟨rfl, rfl, rfl, rfl⟩
  · have hx : (load_game (some f) st).2.a2 (i : Int) =
        load_unit (st.a2 (i : Int)) (save_unit (a2 (i : Int))) := by
      rw [hu2 (i : Int), if_pos (by rw [hk, e1, e2]; simp only [Int.toNat_ofNat]; omega),
        Int.toNat_ofNat, e1, hr2 i hi]
    rw [hx, load_unit_save_unit _ _ (hs2 i hi)]
    exact ⟨rfl, rfl, rfl, rfl⟩

/-- The string in a loaded name buffer: the saved string when it is shorter
than 100 bytes; when it is 100 bytes long, nothing in the 100 bytes written
ends it and the string runs on into byte 100 of the destination buffer. -/
theorem loaded_name_string (s tail : List Nat) (hs : ∀ b ∈ s, b ≠ 0) :
    (s.length < MAX_NAME →
      c_string (s ++ List.replicate (MAX_NAME - s.length) 0 ++ tail) = s) ∧
    (s.length = MAX_NAME →
      c_string (s ++ List.replicate (MAX_NAME - s.length) 0 ++ tail) = s ++ c_string tail) := by
  unfold c_string
  constructor
  · intro h
    obtain ⟨k, hk⟩ : ∃ k, MAX_NAME - s.length = k + 1 := ⟨MAX_NAME - s.length - 1, by omega⟩
    rw [hk, List.append_assoc, List.takeWhile_append_of_pos (by simpa using hs)]
    simp [List.replicate_succ]
  · intro h
    rw [h, Nat.sub_self, List.replicate_zero, List.append_nil,
      List.takeWhile_append_of_pos (by simpa using hs)]

set_option maxRecDepth 100000 in
/-- C12: the round trip loses the end of a 100-byte name.  A unit whose name
is 100 bytes long is saved (armies of one unit each) and loaded into arrays
whose name buffers hold the byte 88 everywhere.  The load succeeds; the name
buffer of the loaded unit holds the 100 name bytes and, in byte 100, the 88
that was there before: no byte of the buffer ends the string, which is not the
name that was saved. -/
theorem load_drops_name_terminator :
    c_string unit_long_name.name = List.replicate 100 65 ∧
    (load_game (save_game true (fun _ => unit_long_name) 1 (fun _ => unit_long_name) 1 1)
      armies_stack).1 = true ∧
    ((load_game (save_game true (fun _ => unit_long_name) 1 (fun _ => unit_long_name) 1 1)
      armies_stack).2.a1 0).name = List.replicate 100 65 ++ [88] ∧
    c_string ((load_game (save_game true (fun _ => unit_long_name) 1 (fun _ => unit_long_name) 1 1)
      armies_stack).2.a1 0).name ≠ c_string unit_long_name.name := by
  decide

/-! ## Saving after a defeat -/

/-- What a save request writes: the header `n1`, `n2`, `turn` and the records
of `a1[0..n1)` and `a2[0..n2)`, whatever the health of those units and
wherever the units still on the grid are stored. -/
theorem save_request_records (s : SimpleGame) (h1 : 1 ≤ s.n1 ∧ s.n1 ≤ 5)
    (h2 : 1 ≤ s.n2 ∧ s.n2 ≤ 5) (ht : s.turn = 1 ∨ s.turn = 2) :
    ∃ f, save_request s = some f ∧
      header_n1 f = s.n1 ∧ header_n2 f = s.n2 ∧ header_turn f = s.turn ∧
      (∀ i : Nat, i < s.n1.toNat → file_record f i = save_unit (s.game.units i)) ∧
      (∀ i : Nat, i < s.n2.toNat →
        file_record f (s.n1.toNat + i) = save_unit (s.game.units (5 + i))) := by
  obtain ⟨f, hf, _, e1, e2, e3, r1, r2⟩ := save_file_shape (fun i => s.game.units i.toNat) s.n1
    (fun i => s.game.units (5 + i.toNat)) s.n2 s.turn (by omega) h1 h2
  exact ⟨f, hf, e1, e2, e3, fun i hi => by simpa using r1 i hi, fun i hi => by simpa using r2 i hi⟩

set_option maxRecDepth 100000 in
/-- C28: a save taken after a defeat.  From the setup with armies of 2 and 1
units the play `keys_defeat` ends with army 2 defeating `a1[0]`: that unit has
health 0 and is off the grid, `a1[1]` stands on (0,2) with 100 health, and
the count of army 1 is 1.  The file a save request now writes holds one
record for army 1, and it is the record of the defeated `a1[0]`; the
surviving `a1[1]` is in no record of the file. -/
theorem save_after_defeat_keeps_defeated :
    game_after_defeat.n1 = 1 ∧ game_after_defeat.n2 = 1 ∧
    (game_after_defeat.game.units 0).hp = 0 ∧
    game_after_defeat.game.bf.cells 0 0 = ⟨none, 0⟩ ∧
    game_after_defeat.game.bf.cells 2 0 = ⟨some 1, 1⟩ ∧
    (game_after_defeat.game.units 1).hp = 100 ∧
    posList game_after_defeat.game.bf 1 = [⟨0, 2⟩] ∧
    (save_request game_after_defeat).map List.length = some (12 + 2 * SAVE_UNIT_SIZE) ∧
    (save_request game_after_defeat).map header_n1 = some 1 ∧
    (save_request game_after_defeat).map (fun f => file_record f 0) =
      some (save_unit (game_after_defeat.game.units 0)) ∧
    (save_request game_after_defeat).map (fun f => file_record f 1) =
      some (save_unit (game_after_defeat.game.units 5)) ∧
    save_unit (game_after_defeat.game.units 1) ≠ save_unit (game_after_defeat.game.units 0) ∧
    save_unit (game_after_defeat.game.units 1) ≠ save_unit (game_after_defeat.game.units 5) := by
  decide

/-! ## Defeats by the area ability -/

theorem blast_cell_bf (u : UnitRef) (x y : Int) (g : Game) (c : Position) :
    (blast_cell u x y g c.x c.y).bf =
      if blast_defeats g u x y c = true then remove_unit g.bf c.x c.y else g.bf := by
  unfold blast_cell blast_defeats
  by_cases hv : is_valid_position c.x c.y = true
  · cases hu : (g.bf.cells c.y c.x).unit with
    | none => simp [hv]
    | some t =>
      by_cases ht : (g.bf.cells c.y c.x).team = (g.bf.cells y x).team
      · simp [hv, ht]
      · simp only [hv, ht, Bool.not_true, Bool.false_eq_true, if_false, ne_eq,
          not_false_eq_true, if_true, set_hp_same, decide_True, Bool.true_and,
          decide_eq_true_eq]
        split <;> rfl
  · simp [hv]

theorem noshared_remove (bf : Battlefield) (x y : Int) (h : NoSharedUnit bf) :
    NoSharedUnit (remove_unit bf x y) := by
  by_cases hv : is_valid_position x y = true
  · by_cases h0 : (bf.cells y x).team = 0
    · rw [remove_unit_noop_untagged bf x y h0]; exact h
    · rw [NoSharedUnit, remove_unit_cells bf x y hv h0]
      intro x1 y1 x2 y2 k hv1 hv2 h1 h2
      by_cases hp1 : y1 = y ∧ x1 = x
      · obtain ⟨rfl, rfl⟩ := hp1
        rw [set2_same] at h1
        exact absurd h1 (by simp)
      · by_cases hp2 : y2 = y ∧ x2 = x
        · obtain ⟨rfl, rfl⟩ := hp2
          rw [set2_same] at h2
          exact absurd h2 (by simp)
        · rw [set2_other _ _ _ _ _ _ hp1] at h1
          rw [set2_other _ _ _ _ _ _ hp2] at h2
          exact h x1 y1 x2 y2 k hv1 hv2 h1 h2
  · rw [remove_unit_noop_invalid bf x y (by simpa using hv)]; exact h

theorem blast_defeats_tagged {g : Game} {u : UnitRef} {x y : Int} {c : Position}
    (h : blast_defeats g u x y c = true) :
    is_valid_position c.x c.y = true ∧ (g.bf.cells c.y c.x).unit ≠ none ∧
      (g.bf.cells c.y c.x).team ≠ (g.bf.cells y x).team := by
  unfold blast_defeats at h
  cases hu : (g.bf.cells c.y c.x).unit with
  | none => simp [hu] at h
  | some k =>
    simp only [hu, Bool.and_eq_true, decide_eq_true_eq] at h
    exact ⟨h.1, by simp, h.2.1⟩

/-- One step of the blast loop on a battlefield with typed cells and mirroring
lists: when the target is defeated its cell is emptied and its position is
filtered out of the lists; otherwise grid and lists stay as they are. -/
theorem blast_cell_step (u : UnitRef) (x y : Int) (g : Game) (c : Position)
    (hc : CellsTyped g.bf) (hm : ListsMirror g.bf) (hs : NoSharedUnit g.bf) :
    (∀ a b : Int, (blast_cell u x y g c.x c.y).bf.cells b a =
      if (⟨a, b⟩ : Position) = c ∧ blast_defeats g u x y c = true then ⟨none, 0⟩
      else g.bf.cells b a) ∧
    (∀ t : Int, t = 1 ∨ t = 2 → posList (blast_cell u x y g c.x c.y).bf t =
      (posList g.bf t).filter (fun c1 => !(decide (c1 = c) && blast_defeats g u x y c))) ∧
    CellsTyped (blast_cell u x y g c.x c.y).bf ∧ ListsMirror (blast_cell u x y g c.x c.y).bf ∧
    NoSharedUnit (blast_cell u x y g c.x c.y).bf := by
  rw [blast_cell_bf]
  by_cases hd : blast_defeats g u x y c = true
  · rw [if_pos hd]
    obtain ⟨hv, hu, _⟩ := blast_defeats_tagged hd
    have hT := typed_unit hc hv hu
    have h0 : (g.bf.cells c.y c.x).team ≠ 0 := by omega
    refine ⟨fun a b => ?_, fun t ht => ?_, typed_remove _ _ _ hc, mirror_remove _ _ _ hc hm,
      noshared_remove _ _ _ hs⟩
    · rw [remove_unit_cells _ _ _ hv h0]
      by_cases hp : (⟨a, b⟩ : Position) = c
      · rw [if_pos ⟨hp, hd⟩]
        subst hp
        exact set2_same _ _ _ _
      · rw [if_neg (fun h => hp h.1)]
        apply set2_other
        rintro ⟨rfl, rfl⟩
        exact hp rfl
    · simp only [hd, Bool.and_true]
      by_cases htt : t = (g.bf.cells c.y c.x).team
      · subst htt
        rw [remove_unit_posList_erase _ _ _ hm hv hT]
        have := (hm.nodup _ hT).erase_eq_filter (⟨c.x, c.y⟩ : Position)
        rw [this]
        apply List.filter_congr
        intro c1 _
        rfl
      · rw [remove_unit_posList_other _ _ _ _ htt]
        symm
        rw [List.filter_eq_self]
        intro c1 hc1
        have := ((hm.mem_iff t ht c1).mp hc1).2
        simp only [Bool.not_eq_true', decide_eq_false_iff_not]
        rintro rfl
        exact htt this.symm
  · rw [if_neg hd]
    refine ⟨fun a b => ?_, fun t _ => ?_, hc, hm, hs⟩
    · rw [if_neg (fun h => hd h.2)]
    · simp only [Bool.not_eq_true] at hd
      simp [hd]

theorem blast_defeats_later (u : UnitRef) (x y : Int) (g : Game) (c c1 : Position)
    (hs : NoSharedUnit g.bf) (h : c1 ≠ c) :
    blast_defeats (blast_cell u x y g c.x c.y) u x y c1 = blast_defeats g u x y c1 := by
  have hne : ¬ (c1.y = c.y ∧ c1.x = c.x) := by
    rintro ⟨hy, hx⟩
    apply h
    cases c1; cases c; simp_all
  unfold blast_defeats
  rw [blast_cell_cells_other u x y g c.x c.y c1.y c1.x hne, blast_cell_tag]
  by_cases hv : is_valid_position c1.x c1.y = true
  · cases hu : (g.bf.cells c1.y c1.x).unit with
    | none => rfl
    | some k =>
      have hk : (blast_cell u x y g c.x c.y).units k = g.units k := by
        rw [blast_cell_units, if_neg]
        intro hh
        unfold blast_hits at hh
        simp only [Bool.and_eq_true, decide_eq_true_eq] at hh
        obtain ⟨hx, hy⟩ := hs c.x c.y c1.x c1.y k hh.1.1 hv hh.1.2 hu
        exact hne ⟨hy.symm, hx.symm⟩
      have hdmg : calculate_damage ((blast_cell u x y g c.x c.y).units u)
          ((blast_cell u x y g c.x c.y).units k) = calculate_damage (g.units u) (g.units k) :=
        calculate_damage_congr (blast_cell_items u x y g c.x c.y u).1
          (blast_cell_items u x y g c.x c.y u).2 (blast_cell_items u x y g c.x c.y k).1
          (blast_cell_items u x y g c.x c.y k).2
      rw [hk] at hdmg
      simp only [hk, hdmg]
  · simp [hv]

/-- The grid bookkeeping of the blast loop over any duplicate-free list of
target cells, on a battlefield with typed cells, mirroring lists and no unit
on two cells: exactly the visited cells whose unit the blast defeats are
emptied, exactly their positions are filtered out of the lists (the order of
the others kept), and the three invariants hold afterwards. -/
theorem blast_fold_grid (u : UnitRef) (x y : Int) (L : List Position) (hL : L.Nodup) :
    ∀ g : Game, CellsTyped g.bf → ListsMirror g.bf → NoSharedUnit g.bf →
      (∀ a b : Int, (L.foldl (fun g1 c => blast_cell u x y g1 c.x c.y) g).bf.cells b a =
        if (⟨a, b⟩ : Position) ∈ L ∧ blast_defeats g u x y ⟨a, b⟩ = true then ⟨none, 0⟩
        else g.bf.cells b a) ∧
      (∀ t : Int, t = 1 ∨ t = 2 →
        posList (L.foldl (fun g1 c => blast_cell u x y g1 c.x c.y) g).bf t =
          (posList g.bf t).filter (fun c1 => !(decide (c1 ∈ L) && blast_defeats g u x y c1))) ∧
      CellsTyped (L.foldl (fun g1 c => blast_cell u x y g1 c.x c.y) g).bf ∧
      ListsMirror (L.foldl (fun g1 c => blast_cell u x y g1 c.x c.y) g).bf ∧
      NoSharedUnit (L.foldl (fun g1 c => blast_cell u x y g1 c.x c.y) g).bf := by
  induction L with
  | nil =>
    intro g hc hm hs
    refine ⟨fun a b => by simp, fun t _ => by simp, hc, hm, hs⟩
  | cons c L ih =>
    intro g hc hm hs
    rw [List.nodup_cons] at hL
    obtain ⟨s1, s2, s3, s4, s5⟩ := blast_cell_step u x y g c hc hm hs
    obtain ⟨i1, i2, i3, i4, i5⟩ := ih hL.2 (blast_cell u x y g c.x c.y) s3 s4 s5
    rw [List.foldl_cons]
    refine ⟨fun a b => ?_, fun t ht => ?_, i3, i4, i5⟩
    · rw [i1 a b, s1 a b]
      by_cases hp : (⟨a, b⟩ : Position) = c
      · subst hp
        have hnot : (⟨a, b⟩ : Position) ∉ L := hL.1
        simp only [hnot, false_and, if_false, List.mem_cons_self, true_and]
      · have hmem : (⟨a, b⟩ : Position) ∈ c :: L ↔ (⟨a, b⟩ : Position) ∈ L := by
          simp [hp]
        rw [blast_defeats_later u x y g c ⟨a, b⟩ hs hp]
        simp only [hmem, hp, false_and, if_false]
    · rw [i2 t ht, s2 t ht, List.filter_filter]
      apply List.filter_congr
      intro c1 _
      by_cases hp : c1 = c
      · subst hp
        have hnot : ¬ c1 ∈ L := hL.1
        simp [hnot]
      · have e := blast_defeats_later u x y g c c1 hs hp
        rw [e]
        simp [hp]

theorem mirror_count_length {bf : Battlefield} (hm : ListsMirror bf) (t : Int)
    (ht : t = 1 ∨ t = 2) : bf.unit_counts (t - 1) = ((posList bf t).length : Int) := by
  have := (hm.count_range t ht).1
  simp only [posList, rowList_length]
  omega

/-- C24: defeats by the area ability.  Let unit `u` stand on the in-bounds
cell `(x,y)` of a battlefield with typed cells, lists that mirror the grid and
no unit on two cells, and let its first area item be `it`.  After
`use_special_ability`: an enemy unit in the blast square (Chebyshev distance
at most the radius) whose health is now 0 or below is off the grid and its
position is not in its team's list; an enemy in the square whose health is
still positive is on its cell and in the list; every cell that holds no enemy
in the square is as before.  Each position list is the old one without the
positions of the defeated units, in the old order; the enemy team's count has
dropped by the number of its listed units that were defeated, the invoker's
team's count is unchanged, and the cells are typed and the lists mirror the
grid afterwards. -/
theorem blast_defeats_resolved (g : Game) (u : UnitRef) (x y : Int) (it : ITEM)
    (hc : CellsTyped g.bf) (hm : ListsMirror g.bf) (hs : NoSharedUnit g.bf)
    (hv : is_valid_position x y = true) (hu : (g.bf.cells y x).unit = some u)
    (_h1 : ∀ (a b : Int) (k : UnitRef), is_valid_position a b = true →
      (g.bf.cells b a).unit = some k → (g.units k).item1 ≠ none)
    (hit : special_item (g.units u) = some it) :
    (∀ (k : UnitRef) (tx ty : Int), is_valid_position tx ty = true →
      (g.bf.cells ty tx).unit = some k →
      (g.bf.cells ty tx).team ≠ (g.bf.cells y x).team →
      chebyshev_distance x y tx ty ≤ it.radius →
      (((use_special_ability g u x y).units k).hp ≤ 0 →
        (use_special_ability g u x y).bf.cells ty tx = ⟨none, 0⟩ ∧
        (⟨tx, ty⟩ : Position) ∉
          posList (use_special_ability g u x y).bf (g.bf.cells ty tx).team) ∧
      (0 < ((use_special_ability g u x y).units k).hp →
        (use_special_ability g u x y).bf.cells ty tx = g.bf.cells ty tx ∧
        (⟨tx, ty⟩ : Position) ∈
          posList (use_special_ability g u x y).bf (g.bf.cells ty tx).team)) ∧
    (∀ tx ty : Int,
      ((g.bf.cells ty tx).team = (g.bf.cells y x).team ∨ (g.bf.cells ty tx).unit = none ∨
        it.radius < chebyshev_distance x y tx ty) →
      (use_special_ability g u x y).bf.cells ty tx = g.bf.cells ty tx) ∧
    (∀ t : Int, t = 1 ∨ t = 2 →
      posList (use_special_ability g u x y).bf t =
        (posList g.bf t).filter (fun c =>
          !(decide (chebyshev_distance x y c.x c.y ≤ it.radius) && blast_defeats g u x y c))) ∧
    (use_special_ability g u x y).bf.unit_counts (3 - (g.bf.cells y x).team - 1) =
      g.bf.unit_counts (3 - (g.bf.cells y x).team - 1) -
        ((posList g.bf (3 - (g.bf.cells y x).team)).countP (fun c =>
          decide (chebyshev_distance x y c.x c.y ≤ it.radius) && blast_defeats g u x y c) : Int) ∧
    (use_special_ability g u x y).bf.unit_counts ((g.bf.cells y x).team - 1) =
      g.bf.unit_counts ((g.bf.cells y x).team - 1) ∧
    CellsTyped (use_special_ability g u x y).bf ∧
    ListsMirror (use_special_ability g u x y).bf := by
  have hT : (g.bf.cells y x).team = 1 ∨ (g.bf.cells y x).team = 2 :=
    typed_unit hc hv (by rw [hu]; simp)
  obtain ⟨f1, f2, f3, f4, _⟩ := blast_fold_grid u x y (blast_targets x y it.radius)
    (nodup_blast_targets x y it.radius) g hc hm hs
  rw [← use_special_ability_eq g u x y it hit] at f1 f2 f3 f4
  have hlists : ∀ t : Int, t = 1 ∨ t = 2 →
      posList (use_special_ability g u x y).bf t =
        (posList g.bf t).filter (fun c =>
          !(decide (chebyshev_distance x y c.x c.y ≤ it.radius) && blast_defeats g u x y c)) := by
    intro t ht
    rw [f2 t ht]
    apply List.filter_congr
    intro c _
    simp only [mem_blast_targets_iff]
  have hhp : ∀ (k : UnitRef) (tx ty : Int), is_valid_position tx ty = true →
      (g.bf.cells ty tx).unit = some k →
      (g.bf.cells ty tx).team ≠ (g.bf.cells y x).team →
      chebyshev_distance x y tx ty ≤ it.radius →
      ((use_special_ability g u x y).units k).hp =
        (g.units k).hp - calculate_damage (g.units u) (g.units k) := by
    intro k tx ty hvt hk hne hd
    rw [use_special_ability_eq g u x y it hit,
      blast_fold_units u x y _ (nodup_blast_targets x y it.radius) g k,
      blast_count_hit g.bf x y k _ (nodup_blast_targets x y it.radius) hs ⟨tx, ty⟩
        ((mem_blast_targets_iff x y it.radius ⟨tx, ty⟩).mpr hd) hvt hk hne]
    simp
  have hdef : ∀ (k : UnitRef) (tx ty : Int), is_valid_position tx ty = true →
      (g.bf.cells ty tx).unit = some k →
      (g.bf.cells ty tx).team ≠ (g.bf.cells y x).team →
      (blast_defeats g u x y ⟨tx, ty⟩ = true ↔
        (g.units k).hp - calculate_damage (g.units u) (g.units k) ≤ 0) := by
    intro k tx ty hvt hk hne
    unfold blast_defeats
    simp only [hvt, hk, hne, ne_eq, not_false_eq_true, decide_True, Bool.true_and,
      decide_eq_true_eq]
  refine ⟨fun k tx ty hvt hk hne hd => ⟨fun hle => ?_, fun hgt => ?_⟩, fun tx ty hcase => ?_,
    hlists, ?_, ?_, f3, f4⟩
  · have hdead : blast_defeats g u x y ⟨tx, ty⟩ = true := by
      rw [hdef k tx ty hvt hk hne, ← hhp k tx ty hvt hk hne hd]; exact hle
    have hmem := (mem_blast_targets_iff x y it.radius ⟨tx, ty⟩).mpr hd
    refine ⟨by rw [f1 tx ty, if_pos ⟨hmem, hdead⟩], fun hin => ?_⟩
    rw [hlists _ (typed_unit hc hvt (by rw [hk]; simp)), List.mem_filter] at hin
    have := hin.2
    simp [hd, hdead] at this
  · have hlive : ¬ blast_defeats g u x y ⟨tx, ty⟩ = true := by
      rw [hdef k tx ty hvt hk hne, ← hhp k tx ty hvt hk hne hd]; omega
    refine ⟨by rw [f1 tx ty, if_neg (fun h => hlive h.2)], ?_⟩
    have hTt := typed_unit hc hvt (by rw [hk]; simp)
    rw [hlists _ hTt, List.mem_filter]
    refine ⟨(hm.mem_iff _ hTt _).mpr ⟨hvt, rfl⟩, ?_⟩
    simp only [Bool.not_eq_true] at hlive
    simp [hlive]
  · rw [f1 tx ty, if_neg]
    rintro ⟨hmem, hdead⟩
    obtain ⟨_, hun, hne⟩ := blast_defeats_tagged hdead
    have hd := (mem_blast_targets_iff x y it.radius ⟨tx, ty⟩).mp hmem
    rcases hcase with h | h | h
    · exact hne h
    · exact hun h
    · simp only at hd; omega
  · have hE : 3 - (g.bf.cells y x).team = 1 ∨ 3 - (g.bf.cells y x).team = 2 := by omega
    rw [mirror_count_length f4 _ hE, mirror_count_length hm _ hE, hlists _ hE]
    have h1 := List.length_eq_countP_add_countP (fun c =>
      decide (chebyshev_distance x y c.x c.y ≤ it.radius) && blast_defeats g u x y c)
      (posList g.bf (3 - (g.bf.cells y x).team))
    rw [List.countP_eq_length_filter (fun a => decide ¬ _)] at h1
    have h2 : List.filter (fun a => decide ¬(decide (chebyshev_distance x y a.x a.y ≤ it.radius) &&
        blast_defeats g u x y a) = true) (posList g.bf (3 - (g.bf.cells y x).team)) =
        List.filter (fun c => !(decide (chebyshev_distance x y c.x c.y ≤ it.radius) &&
          blast_defeats g u x y c)) (posList g.bf (3 - (g.bf.cells y x).team)) := by
      apply List.filter_congr
      intro c _
      cases (decide (chebyshev_distance x y c.x c.y ≤ it.radius) && blast_defeats g u x y c) <;>
        simp
    rw [h2] at h1
    omega
  · rw [mirror_count_length f4 _ hT, mirror_count_length hm _ hT, hlists _ hT]
    congr 2
    rw [List.filter_eq_self]
    intro c hcm
    have htag := ((hm.mem_iff _ hT c).mp hcm).2
    simp only [Bool.not_eq_true', Bool.and_eq_false_imp, decide_eq_true_eq]
    intro _
    by_contra hdead
    have hdead1 : blast_defeats g u x y c = true := by simpa using hdead
    exact (blast_defeats_tagged hdead1).2.2 htag

theorem typed_bf_three : CellsTyped bf_three :=
  typed_place _ _ _ _ _ typed_bf_two (Or.inr rfl)

theorem mirror_bf_three : ListsMirror bf_three :=
  mirror_place _ _ _ _ _ mirror_bf_two (Or.inr rfl) (by decide)

/-- Witness of C24: on `game_blast_weak` the blast of unit 0 from (0,0) takes
unit 1 on (1,0) from 7 health to 0; afterwards the cell (1,0) is empty and
(1,0) is not in the list of team 2, whose count has dropped from 2 to 1;
unit 2 on (2,0), outside the square, is still on its cell. -/
theorem blast_defeats_resolved_witness :
    ((use_special_ability game_blast_weak 0 0 0).units 1).hp ≤ 0 ∧
    (use_special_ability game_blast_weak 0 0 0).bf.cells 0 1 = ⟨none, 0⟩ ∧
    (⟨1, 0⟩ : Position) ∉ posList (use_special_ability game_blast_weak 0 0 0).bf 2 ∧
    (use_special_ability game_blast_weak 0 0 0).bf.cells 0 2 = game_blast_weak.bf.cells 0 2 ∧
    posList (use_special_ability game_blast_weak 0 0 0).bf 2 = [⟨2, 0⟩] ∧
    (use_special_ability game_blast_weak 0 0 0).bf.unit_counts 1 = 1 := by
  have h := blast_defeats_resolved game_blast_weak 0 0 0 fireball_staff typed_bf_three
    mirror_bf_three noshared_bf_three (by decide) (by decide)
    (fun _ _ k _ _ => by simp only [game_blast_weak]; split_ifs <;> simp) rfl
  have hle : ((use_special_ability game_blast_weak 0 0 0).units 1).hp ≤ 0 := by decide
  have h1 := (h.1 1 1 0 (by decide) (by decide) (by decide) (by decide)).1 hle
  refine ⟨hle, h1.1, h1.2, h.2.1 2 0 (Or.inr (Or.inr (by decide))), ?_, ?_⟩
  · rw [h.2.2.1 2 (Or.inr rfl)]
    decide
  · have := h.2.2.2.1
    have e : (3 : Int) - (game_blast_weak.bf.cells 0 0).team - 1 = 1 := by decide
    rw [e] at this
    rw [this]
    decide

/-! ## The round budget of the AI battle -/

theorem ai_unit_action_budget (s : Battle) (team : Int) (i : Nat) :
    (ai_unit_action s team i).max_rounds = s.max_rounds := by
  unfold ai_unit_action
  simp only
  split
  · split_ifs <;> rfl
  · rfl

theorem army_loop_budget (team : Int) (fuel : Nat) :
    ∀ (i : Nat) (s : Battle), (army_loop team fuel i s).max_rounds = s.max_rounds := by
  induction fuel with
  | zero => intro i s; rfl
  | succ fuel ih =>
    intro i s
    unfold army_loop
    split_ifs
    · rw [ih, ai_unit_action_budget]
    · rfl

theorem battle_round_budget (s : Battle) :
    (battle_round s).max_rounds =
      if s.max_rounds > 0 then s.max_rounds - 1 else s.max_rounds := by
  have h : ∀ s1 : Battle,
      (if s1.n2 > 0 ∧ s1.n1 > 0 then army_loop 2 5 0 s1 else s1).max_rounds = s1.max_rounds := by
    intro s1
    split_ifs
    · exact army_loop_budget 2 5 0 s1
    · rfl
  have h0 : (if s.n1 > 0 ∧ s.n2 > 0 then army_loop 1 5 0 s else s).max_rounds = s.max_rounds := by
    split_ifs
    · exact army_loop_budget 1 5 0 s
    · rfl
  unfold battle_round
  simp only [h, h0]

theorem battle_loop_bounded (quit : Nat → Bool) (k : Nat) :
    ∀ (r0 : Nat) (s : Battle), s.max_rounds = (k : Int) →
      ∃ r s1, battle_loop quit (k + 1) r0 s = some (r, s1) ∧ r ≤ r0 + k := by
  induction k with
  | zero =>
    intro r0 s h
    refine ⟨r0, s, ?_, le_refl _⟩
    unfold battle_loop
    rw [if_neg]
    simp only [h, Nat.cast_zero, ne_eq, not_true_eq_false, and_false, not_false_eq_true]
  | succ k ih =>
    intro r0 s h
    unfold battle_loop
    by_cases hc : s.n1 > 0 ∧ s.n2 > 0 ∧ s.max_rounds ≠ 0
    · rw [if_pos hc]
      by_cases hq : quit r0 = true
      · rw [if_pos hq]
        exact ⟨r0, s, rfl, by omega⟩
      · rw [if_neg hq]
        have hb : (battle_round s).max_rounds = (k : Int) := by
          rw [battle_round_budget, h, if_pos (by push_cast; omega)]
          push_cast
          omega
        obtain ⟨r, s1, h1, h2⟩ := ih (r0 + 1) (battle_round s) hb
        exact ⟨r, s1, h1, by omega⟩
    · rw [if_neg hc]
      exact ⟨r0, s, rfl, by omega⟩

theorem battle_loop_exit (quit : Nat → Bool) (fuel : Nat) :
    ∀ (r0 : Nat) (s s1 : Battle) (r : Nat), battle_loop quit fuel r0 s = some (r, s1) →
      (s1.n1 ≤ 0 ∨ s1.n2 ≤ 0 ∨ s1.max_rounds = 0 ∨ quit r = true) ∧
      (s.max_rounds < 0 → s1.max_rounds = s.max_rounds) := by
  induction fuel with
  | zero => intro r0 s s1 r h; simp [battle_loop] at h
  | succ fuel ih =>
    intro r0 s s1 r h
    unfold battle_loop at h
    by_cases hc : s.n1 > 0 ∧ s.n2 > 0 ∧ s.max_rounds ≠ 0
    · rw [if_pos hc] at h
      by_cases hq : quit r0 = true
      · rw [if_pos hq] at h
        simp only [Option.some.injEq, Prod.mk.injEq] at h
        obtain ⟨rfl, rfl⟩ := h
        exact ⟨Or.inr (Or.inr (Or.inr hq)), fun _ => rfl⟩
      · rw [if_neg hq] at h
        obtain ⟨h1, h2⟩ := ih _ _ _ _ h
        refine ⟨h1, fun hneg => ?_⟩
        have hb : (battle_round s).max_rounds = s.max_rounds := by
          rw [battle_round_budget, if_neg (by omega)]
        rw [h2 (by rw [hb]; exact hneg), hb]
    · rw [if_neg hc] at h
      simp only [Option.some.injEq, Prod.mk.injEq] at h
      obtain ⟨rfl, rfl⟩ := h
      refine ⟨?_, fun _ => rfl⟩
      by_cases h1 : s.n1 ≤ 0
      · exact Or.inl h1
      · by_cases h2 : s.n2 ≤ 0
        · exact Or.inr (Or.inl h2)
        · refine Or.inr (Or.inr (Or.inl ?_))
          by_contra h3
          exact hc ⟨by omega, by omega, h3⟩

/-- C27: the round budget of the AI battle loop.  Started with a budget
`k >= 0` the loop is left after at most `k` rounds (`k + 1` tests of its
condition suffice); with budget 0, and likewise with a live count at 0 or
below, it is left at once, with no round run and the state untouched.  A
round lowers a positive budget by exactly 1 and leaves a negative budget as it
is; whenever the loop is left, a live count is at 0 or below, or the budget
is 0, or the user has quit; started with a negative budget the budget is the
same when the loop is left, so the loop is then left only because a live
count is at 0 or below or the user has quit.  Within a round army 2 does not
act once the actions of army 1 have brought a live count to 0. -/
theorem round_budget (quit : Nat → Bool) (s : Battle) :
    (0 ≤ s.max_rounds →
      ∃ r s1, battle_loop quit (s.max_rounds.toNat + 1) 0 s = some (r, s1) ∧
        (r : Int) ≤ s.max_rounds) ∧
    ((s.max_rounds = 0 ∨ s.n1 ≤ 0 ∨ s.n2 ≤ 0) →
      ∀ fuel r0 : Nat, battle_loop quit (fuel + 1) r0 s = some (r0, s)) ∧
    (0 < s.max_rounds → (battle_round s).max_rounds = s.max_rounds - 1) ∧
    (s.max_rounds < 0 → (battle_round s).max_rounds = s.max_rounds) ∧
    (∀ (fuel r0 r : Nat) (s1 : Battle), battle_loop quit fuel r0 s = some (r, s1) →
      (s1.n1 ≤ 0 ∨ s1.n2 ≤ 0 ∨ s1.max_rounds = 0 ∨ quit r = true) ∧
      (s.max_rounds < 0 →
        s1.max_rounds = s.max_rounds ∧ (s1.n1 ≤ 0 ∨ s1.n2 ≤ 0 ∨ quit r = true))) ∧
    ((army_loop 1 5 0 s).n1 ≤ 0 ∨ (army_loop 1 5 0 s).n2 ≤ 0 → s.n1 > 0 ∧ s.n2 > 0 →
      battle_round s =
        { army_loop 1 5 0 s with
          max_rounds := if s.max_rounds > 0 then s.max_rounds - 1 else s.max_rounds }) := by
  refine ⟨fun h => ?_, fun h fuel r0 => ?_, fun h => ?_, fun h => ?_, fun fuel r0 r s1 h => ?_,
    fun h hs => ?_⟩
  · obtain ⟨r, s1, h1, h2⟩ := battle_loop_bounded quit s.max_rounds.toNat 0 s (by omega)
    exact ⟨r, s1, h1, by omega⟩
  · unfold battle_loop
    rw [if_neg]
    rintro ⟨h1, h2, h3⟩
    rcases h with h | h | h
    · exact h3 h
    · omega
    · omega
  · rw [battle_round_budget, if_pos h]
  · rw [battle_round_budget, if_neg (by omega)]
  · obtain ⟨h1, h2⟩ := battle_loop_exit quit fuel r0 s s1 r h
    refine ⟨h1, fun hneg => ?_⟩
    have e := h2 hneg
    refine ⟨e, ?_⟩
    rcases h1 with h1 | h1 | h1 | h1
    · exact Or.inl h1
    · exact Or.inr (Or.inl h1)
    · omega
    · exact Or.inr (Or.inr h1)
  · unfold battle_round
    simp only
    rw [if_pos hs, if_neg (by omega), army_loop_budget]

/-- Witness of C27: with budget 0 the battle between two 1-unit armies is over
before any round, and with budget 3 it is over after at most 3 rounds. -/
theorem round_budget_witness :
    battle_loop (fun _ => false) 1 0 (battle_start game_two.units 1 1 0) =
      some (0, battle_start game_two.units 1 1 0) ∧
    ∃ r s1, battle_loop (fun _ => false) 4 0 (battle_start game_two.units 1 1 3) = some (r, s1) ∧
      (r : Int) ≤ 3 :=
  ⟨(round_budget (fun _ => false) (battle_start game_two.units 1 1 0)).2.1 (Or.inl rfl) 0 0,
    (round_budget (fun _ => false) (battle_start game_two.units 1 1 3)).1 (by decide)⟩

/-! ## Live counts and battlefield counts -/

theorem typed_of_cells {bf bf1 : Battlefield} (h1 : bf1.cells = bf.cells) (hc : CellsTyped bf) :
    CellsTyped bf1 := by
  intro x y hv
  rw [h1]
  exact hc x y hv

theorem mirror_of_eq {bf bf1 : Battlefield} (h1 : bf1.cells = bf.cells)
    (h2 : bf1.positions = bf.positions) (h3 : bf1.unit_counts = bf.unit_counts)
    (hm : ListsMirror bf) : ListsMirror bf1 := by
  have hp : ∀ t, posList bf1 t = posList bf t := by
    intro t; unfold posList; rw [h2, h3]
  refine ⟨fun t ht => ?_, fun t ht => ?_, fun t ht p => ?_⟩
  · rw [h3]; exact hm.count_range t ht
  · rw [hp]; exact hm.nodup t ht
  · rw [hp, h1]; exact hm.mem_iff t ht p

theorem place_armies_grid (n1 n2 : Int) :
    CellsTyped (place_armies n1 n2) ∧ ListsMirror (place_armies n1 n2) := by
  have hc1 : CellsTyped (place_army init_battlefield 0 n1 1 0) :=
    place_fold_typed 0 1 0 (Or.inl rfl) _ _ typed_init
  have hm1 : ListsMirror (place_army init_battlefield 0 n1 1 0) :=
    place_fold_mirror 0 1 0 (Or.inl rfl) _ _ (List.nodup_range _) mirror_init (fun _ _ => rfl)
  refine ⟨place_fold_typed 5 2 _ (Or.inr rfl) _ _ hc1, ?_⟩
  refine place_fold_mirror 5 2 _ (Or.inr rfl) _ _ (List.nodup_range _) hm1 (fun i _ => ?_)
  unfold place_army
  rw [place_fold_cells_other 0 1 0 _ _ _ _ (Or.inl (by decide))]
  rfl

theorem place_armies_counts (n1 n2 : Int) (h1 : 1 ≤ n1 ∧ n1 ≤ 5) (h2 : 1 ≤ n2 ∧ n2 ≤ 5) :
    CountsAgree (place_armies n1 n2) n1 n2 := by
  have e1 : n1 = 1 ∨ n1 = 2 ∨ n1 = 3 ∨ n1 = 4 ∨ n1 = 5 := by omega
  have e2 : n2 = 1 ∨ n2 = 2 ∨ n2 = 3 ∨ n2 = 4 ∨ n2 = 5 := by omega
  rcases e1 with rfl | rfl | rfl | rfl | rfl <;>
    rcases e2 with rfl | rfl | rfl | rfl | rfl <;> exact ⟨by decide, by decide⟩

theorem move_unit_ui (bf : Battlefield) (fx fy tx ty : Int) :
    (move_unit bf fx fy tx ty).2.cursor_pos = bf.cursor_pos := by
  unfold move_unit
  split_ifs <;> rfl

theorem game_inv_start (units : UnitRef → UNIT) (n1 n2 turn : Int) (h1 : 1 ≤ n1 ∧ n1 ≤ 5)
    (h2 : 1 ≤ n2 ∧ n2 ≤ 5) : GameInv (simple_game_start units n1 n2 turn) := by
  obtain ⟨hc, hm⟩ := place_armies_grid n1 n2
  refine ⟨@typed_of_cells (place_armies n1 n2) _ rfl hc,
    @mirror_of_eq (place_armies n1 n2) _ rfl rfl rfl hm, place_armies_counts n1 n2 h1 h2,
    ?_, ?_⟩
  · have e : (simple_game_start units n1 n2 turn).game.bf.cursor_pos =
        (place_armies n1 n2).cursor_pos := rfl
    have e0 : ∀ (l : List Nat) (b : UnitRef) (t x : Int) (bf : Battlefield),
        (l.foldl (fun b1 (i : Nat) => place_unit b1 (b + i) t x ((i : Int) * 2)) bf).cursor_pos =
          bf.cursor_pos := by
      intro l b t x
      induction l with
      | nil => intro bf; rfl
      | cons i l ih =>
        intro bf
        rw [List.foldl_cons, ih]
        unfold place_unit
        simp only
        split_ifs <;> rfl
    rw [e]
    unfold place_armies place_army
    rw [e0, e0]
    rfl
  · intro h
    rcases h with h | h <;> exact absurd h (by simp [simple_game_start, set_game_state])

theorem game_inv_of {s s1 : SimpleGame} (h : GameInv s)
    (hcells : s1.game.bf.cells = s.game.bf.cells)
    (hpos : s1.game.bf.positions = s.game.bf.positions)
    (hcnt : s1.game.bf.unit_counts = s.game.bf.unit_counts)
    (hn1 : s1.n1 = s.n1) (hn2 : s1.n2 = s.n2)
    (hcur : is_valid_position s1.game.bf.cursor_pos.x s1.game.bf.cursor_pos.y = true)
    (hsel : s1.game.bf.state = GameState.STATE_MOVE_UNIT ∨
        s1.game.bf.state = GameState.STATE_SELECT_TARGET →
      is_valid_position s1.game.bf.selected_pos.x s1.game.bf.selected_pos.y = true ∧
        (s.game.bf.cells s1.game.bf.selected_pos.y s1.game.bf.selected_pos.x).unit ≠ none) :
    GameInv s1 := by
  refine ⟨typed_of_cells hcells h.typed, mirror_of_eq hcells hpos hcnt h.mirror, ?_, hcur, ?_⟩
  · unfold CountsAgree
    rw [hn1, hn2, hcnt]
    exact h.counts
  · intro hst
    rw [hcells]
    exact hsel hst

/-- What `perform_combat` does to the counters when attacker and target cell
hold units, on a battlefield with typed cells and mirroring lists: typing and
the mirror invariant are kept, and the caller's counter drops by 1 exactly
when the count of the target's team drops by 1; no other count changes. -/
theorem perform_combat_counts (g : Game) (ap tp : Position) (rem : Int)
    (hc : CellsTyped g.bf) (hm : ListsMirror g.bf)
    (ha : (g.bf.cells ap.y ap.x).unit ≠ none) (hv : is_valid_position tp.x tp.y = true)
    (ht : (g.bf.cells tp.y tp.x).unit ≠ none) :
    CellsTyped (perform_combat g ap tp rem).2.1.bf ∧
    ListsMirror (perform_combat g ap tp rem).2.1.bf ∧
    (perform_combat g ap tp rem).2.1.bf.cursor_pos = tp ∧
    (perform_combat g ap tp rem).2.1.bf.unit_counts ((g.bf.cells tp.y tp.x).team - 1) -
        (perform_combat g ap tp rem).2.2 =
      g.bf.unit_counts ((g.bf.cells tp.y tp.x).team - 1) - rem ∧
    (∀ k : Int, k ≠ (g.bf.cells tp.y tp.x).team - 1 →
      (perform_combat g ap tp rem).2.1.bf.unit_counts k = g.bf.unit_counts k) := by
  obtain ⟨a, ha1⟩ := Option.ne_none_iff_exists'.mp ha
  obtain ⟨t, ht1⟩ := Option.ne_none_iff_exists'.mp ht
  have hT := typed_unit hc hv ht
  have h0 : (g.bf.cells tp.y tp.x).team ≠ 0 := by omega
  by_cases hd : (g.units t).hp - calculate_damage (g.units a) (g.units t) ≤ 0
  · rw [perform_combat_defeat g ap tp rem a t ha1 ht1 hd]
    refine ⟨@typed_of_cells (remove_unit g.bf tp.x tp.y) _ rfl (typed_remove _ _ _ hc),
      @mirror_of_eq (remove_unit g.bf tp.x tp.y) _ rfl rfl rfl (mirror_remove _ _ _ hc hm),
      rfl, ?_, fun k hk => ?_⟩
    · rw [remove_unit_counts _ _ _ hv h0, set1_same]
      ring
    · rw [remove_unit_counts _ _ _ hv h0, set1_other _ _ _ _ hk]
  · rw [perform_combat_survive g ap tp rem a t ha1 ht1 (by omega)]
    exact ⟨@typed_of_cells g.bf _ rfl hc, @mirror_of_eq g.bf _ rfl rfl rfl hm, rfl, rfl,
      fun _ _ => rfl⟩

theorem game_inv_end_turn (s : SimpleGame) (bf : Battlefield) (units : UnitRef → UNIT)
    (hc : CellsTyped bf) (hm : ListsMirror bf) (hn : CountsAgree bf s.n1 s.n2)
    (hcur : is_valid_position bf.cursor_pos.x bf.cursor_pos.y = true) :
    GameInv (end_turn s bf units) := by
  refine ⟨@typed_of_cells bf _ rfl hc, @mirror_of_eq bf _ rfl rfl rfl hm, hn, hcur, ?_⟩
  intro h
  rcases h with h | h <;> exact absurd h (by simp [end_turn, set_game_state])

theorem press_enter_inv (s : SimpleGame) (menu : Option ActionType) (h : GameInv s) :
    GameInv (press_enter s menu) := by
  unfold press_enter
  simp only
  split
  · -- unit selection
    by_cases hsel : (s.game.bf.cells s.game.bf.cursor_pos.y s.game.bf.cursor_pos.x).unit ≠ none ∧
        (s.game.bf.cells s.game.bf.cursor_pos.y s.game.bf.cursor_pos.x).team = s.turn
    · rw [if_pos hsel]
      rcases menu with _ | (_ | _ | _ | _) <;> simp only <;> (try split_ifs) <;>
        exact game_inv_of h rfl rfl rfl rfl rfl h.cursor (fun _ => ⟨h.cursor, hsel.1⟩)
    · rw [if_neg hsel]
      exact h
  · -- move
    rename_i hst
    obtain ⟨hv, hu⟩ := h.selected (Or.inl hst)
    split_ifs with hmv
    · refine game_inv_end_turn s _ _ (typed_move _ _ _ _ _ h.typed hv hu)
        (mirror_move _ _ _ _ _ h.typed h.mirror hv hu) ?_ ?_
      · unfold CountsAgree
        rw [move_unit_counts]
        exact h.counts
      · rw [move_unit_ui]
        exact h.cursor
    · exact h
  · -- attack
    rename_i hst
    obtain ⟨hv, hu⟩ := h.selected (Or.inr hst)
    split_ifs with hat h1
    · have hvt := attack_target_valid _ _ _ _ _ _ hat
      have hut : (s.game.bf.cells s.game.bf.cursor_pos.y s.game.bf.cursor_pos.x).unit ≠ none := by
        intro hn
        simp [is_valid_attack_target, hvt, hn] at hat
      obtain ⟨hc, hm, hcur, hd, ho⟩ := perform_combat_counts s.game s.game.bf.selected_pos
        s.game.bf.cursor_pos s.n1 h.typed h.mirror hu hvt hut
      refine game_inv_end_turn _ _ _ hc hm ?_ (by rw [hcur]; exact hvt)
      rw [h1] at hd ho
      have h2 := h.counts.2
      have h3 := h.counts.1
      refine ⟨?_, ?_⟩
      · simp only [sub_self] at hd
        show (perform_combat _ _ _ _).2.2 = _
        omega
      · show s.n2 = _
        rw [ho 1 (by decide)]
        exact h2
    · have hvt := attack_target_valid _ _ _ _ _ _ hat
      have hut : (s.game.bf.cells s.game.bf.cursor_pos.y s.game.bf.cursor_pos.x).unit ≠ none := by
        intro hn
        simp [is_valid_attack_target, hvt, hn] at hat
      have h2 : (s.game.bf.cells s.game.bf.cursor_pos.y s.game.bf.cursor_pos.x).team = 2 := by
        rcases typed_unit h.typed hvt hut with e | e
        · exact absurd e h1
        · exact e
      obtain ⟨hc, hm, hcur, hd, ho⟩ := perform_combat_counts s.game s.game.bf.selected_pos
        s.game.bf.cursor_pos s.n2 h.typed h.mirror hu hvt hut
      refine game_inv_end_turn _ _ _ hc hm ?_ (by rw [hcur]; exact hvt)
      rw [h2] at hd ho
      have h3 := h.counts.2
      have h4 := h.counts.1
      refine ⟨?_, ?_⟩
      · show s.n1 = _
        rw [ho 0 (by decide)]
        exact h4
      · simp only [show (2 : Int) - 1 = 1 from rfl] at hd
        show (perform_combat _ _ _ _).2.2 = _
        omega
    · exact h
  · exact h

theorem game_key_inv (s : SimpleGame) (ch : Key) (menu : Option ActionType) (h : GameInv s) :
    GameInv (game_key s ch menu) := by
  have hcur := h.cursor
  simp only [is_valid_position, MAX_GRID_WIDTH, MAX_GRID_HEIGHT, Bool.and_eq_true,
    decide_eq_true_eq] at hcur
  cases ch <;> unfold game_key <;> simp only
  case ENTER => exact press_enter_inv s menu h
  case ESCAPE =>
    split_ifs
    · exact game_inv_of h rfl rfl rfl rfl rfl h.cursor
        (fun hst => absurd hst (by simp [set_game_state]))
    · exact h
  case SAVE => exact h
  case QUIT => exact h
  case OTHER => exact h
  all_goals
    split_ifs with hk
    · refine game_inv_of h rfl rfl rfl rfl rfl ?_ (fun hst => h.selected hst)
      simp only [GRID_WIDTH, GRID_HEIGHT] at hk
      simp only [is_valid_position, MAX_GRID_WIDTH, MAX_GRID_HEIGHT, Bool.and_eq_true,
        decide_eq_true_eq]
      omega
    · exact h

/-- Every state the loop of the two-player game reaches from a state with the
invariant has it. -/
theorem simple_game_loop_inv (keys : List (Key × Option ActionType)) :
    ∀ s : SimpleGame, GameInv s → GameInv (simple_game_loop s keys) := by
  induction keys with
  | nil => intro s h; exact h
  | cons k rest ih =>
    intro s h
    obtain ⟨ch, menu⟩ := k
    unfold simple_game_loop
    split_ifs
    · cases ch <;> simp only <;> first | exact h | exact ih _ (game_key_inv s _ menu h)
    · exact h

/-! ## The AI battle while its entries name units -/

theorem posList_of_eq {bf bf1 : Battlefield} (h2 : bf1.positions = bf.positions)
    (h3 : bf1.unit_counts = bf.unit_counts) (t : Int) : posList bf1 t = posList bf t := by
  unfold posList
  rw [h2, h3]

theorem deployed_of_eq {bf bf1 : Battlefield} (h1 : bf1.cells = bf.cells)
    (h2 : bf1.positions = bf.positions) (h3 : bf1.unit_counts = bf.unit_counts)
    (h : Deployed bf) : Deployed bf1 := by
  refine ⟨typed_of_cells h1 h.typed, fun t ht => ?_, fun t ht x y hv => ?_, fun t ht p hp => ?_⟩
  · rw [posList_of_eq h2 h3]; exact h.nodup t ht
  · rw [h1]; exact h.column t ht x y hv
  · rw [posList_of_eq h2 h3] at hp
    rw [h1]
    exact h.entry t ht p hp

/-- An entry of a list that stands on a cell of its team is at home. -/
theorem deployed_home {bf : Battlefield} (h : Deployed bf) {t : Int} (ht : t = 1 ∨ t = 2)
    {p : Position} (hp : p ∈ posList bf t) (hu : (bf.cells p.y p.x).unit ≠ none) :
    is_valid_position p.x p.y = true ∧ p.x = home_column t ∧ (bf.cells p.y p.x).team = t ∧
      (bf.cells p.y (p.x + advance t)).unit = none := by
  obtain ⟨hv, hh | hh⟩ := h.entry t ht p hp
  · exact ⟨hv, hh⟩
  · exfalso
    rcases typed_unit h.typed hv hu with h1 | h1
    · have := h.column 1 (Or.inl rfl) p.x p.y hv h1
      have e := hh.1
      rcases ht with rfl | rfl <;>
        simp only [home_column, advance, MAX_GRID_WIDTH] at this e <;> norm_num at this e <;>
        omega
    · have := h.column 2 (Or.inr rfl) p.x p.y hv h1
      have e := hh.1
      rcases ht with rfl | rfl <;>
        simp only [home_column, advance, MAX_GRID_WIDTH] at this e <;> norm_num at this e <;>
        omega

theorem nodup_posList_erase {bf : Battlefield} {e : Int} {c : Position}
    (hn : (posList bf e).Nodup) (hc : c ∈ posList bf e)
    (hv : is_valid_position c.x c.y = true) (htag : (bf.cells c.y c.x).team = e) (h0 : e ≠ 0) :
    posList (remove_unit bf c.x c.y) e = (posList bf e).erase c := by
  obtain ⟨k, hk⟩ := find_pos_of_mem (x := c.x) (y := c.y) hc
  have hs := find_pos_some.mp hk
  have hlen : k < (posList bf e).length := by
    simp only [posList, rowList_length]; exact hs.1
  have hget : (posList bf e)[k] = c := by
    simp only [posList, rowList_getElem]
    exact hs.2.1
  have h1 := remove_unit_posList_same bf c.x c.y k hv (by rw [htag]; exact h0)
    (by rw [htag]; exact hk)
  rw [htag] at h1
  rw [h1, ← hget]
  exact (hn.erase_getElem k hlen).symm

theorem deployed_remove {bf : Battlefield} {e : Int} {c : Position} (h : Deployed bf)
    (he : e = 1 ∨ e = 2) (hc : c ∈ posList bf e) (hu : (bf.cells c.y c.x).unit ≠ none) :
    Deployed (remove_unit bf c.x c.y) := by
  obtain ⟨hv, hx, htag, _⟩ := deployed_home h he hc hu
  have h0 : (bf.cells c.y c.x).team ≠ 0 := by omega
  have hcells := remove_unit_cells bf c.x c.y hv h0
  have hpl := nodup_posList_erase (h.nodup e he) hc hv htag (by omega)
  have hother : ∀ t, t ≠ e → posList (remove_unit bf c.x c.y) t = posList bf t := fun t hte =>
    remove_unit_posList_other bf c.x c.y t (by rw [htag]; exact hte)
  refine ⟨typed_remove _ _ _ h.typed, fun t ht => ?_, fun t ht x y hxy => ?_, fun t ht p hp => ?_⟩
  · by_cases hte : t = e
    · subst hte; rw [hpl]; exact (h.nodup t ht).erase _
    · rw [hother t hte]; exact h.nodup t ht
  · rw [hcells]
    by_cases hp : y = c.y ∧ x = c.x
    · obtain ⟨rfl, rfl⟩ := hp
      rw [set2_same]
      intro h1
      simp only at h1
      omega
    · rw [set2_other _ _ _ _ _ _ hp]
      exact h.column t ht x y hxy
  · rw [hcells]
    have key : ∀ x y : Int, (x ≠ c.x) →
        set2 bf.cells c.y c.x (⟨none, 0⟩ : GridCell) y x = bf.cells y x := fun x y hne =>
      set2_other _ _ _ _ _ _ (fun hh => hne hh.2)
    by_cases hte : t = e
    · subst hte
      rw [hpl, (h.nodup t ht).mem_erase_iff] at hp
      obtain ⟨hv1, hh | hh⟩ := h.entry t ht p hp.2
      · refine ⟨hv1, Or.inl ⟨hh.1, ?_, ?_⟩⟩
        · rw [set2_other _ _ _ _ _ _ (fun hq => hp.1 (by cases p; cases c; simp_all))]
          exact hh.2.1
        · rw [key _ _ (by
            have := hh.1
            rcases ht with rfl | rfl <;> simp only [home_column, advance] at * <;> omega)]
          exact hh.2.2
      · refine ⟨hv1, Or.inr ⟨hh.1, ?_⟩⟩
        rw [key _ _ (by
            have := hh.1
            rcases ht with rfl | rfl <;> simp only [home_column, advance] at * <;> omega)]
        exact hh.2
    · rw [hother t hte] at hp
      obtain ⟨hv1, hh | hh⟩ := h.entry t ht p hp
      · refine ⟨hv1, Or.inl ⟨hh.1, ?_, ?_⟩⟩
        · rw [set2_other _ _ _ _ _ _ (fun hq => hte (by rw [← hh.2.1, hq.1, hq.2, htag]))]
          exact hh.2.1
        · by_cases hq : p.y = c.y ∧ p.x + advance t = c.x
          · rw [hq.1, hq.2, set2_same]
          · rw [set2_other _ _ _ _ _ _ hq]; exact hh.2.2
      · refine ⟨hv1, Or.inr ⟨hh.1, ?_⟩⟩
        rw [set2_other _ _ _ _ _ _ (fun hq => hte (by rw [← hh.2, hq.1, hq.2, htag]))]
        exact hh.2

theorem deployed_advance {bf bf1 : Battlefield} {t : Int} {i : Nat} {p : Position}
    (h : Deployed bf) (ht : t = 1 ∨ t = 2) (hi : i < (bf.unit_counts (t - 1)).toNat)
    (hp : bf.positions (t - 1) (i : Int) = p) (hu : (bf.cells p.y p.x).unit ≠ none)
    (hcells : bf1.cells = set2 (set2 bf.cells p.y (p.x + advance t)
      ⟨(bf.cells p.y p.x).unit, (bf.cells p.y p.x).team⟩) p.y p.x ⟨none, 0⟩)
    (hcnt : bf1.unit_counts = bf.unit_counts)
    (hpos : bf1.positions =
      set2 bf.positions (t - 1) (i : Int) ⟨p.x + 2 * advance t, p.y⟩) :
    Deployed bf1 := by
  have hmem : p ∈ posList bf t := mem_rowList.mpr ⟨i, hi, hp⟩
  obtain ⟨hv, hx, htag, hfront⟩ := deployed_home h ht hmem hu
  have hlen : i < (posList bf t).length := by
    simp only [posList, rowList_length]; exact hi
  have hget : (posList bf t)[i] = p := by
    simp only [posList, rowList_getElem]; exact hp
  have hpl : posList bf1 t = (posList bf t).set i ⟨p.x + 2 * advance t, p.y⟩ := by
    unfold posList
    rw [hpos, hcnt, set2_row_same, rowList_set]
  have hother : ∀ e : Int, e ≠ t → posList bf1 e = posList bf e := by
    intro e he
    unfold posList
    rw [hpos, hcnt, set2_row_other _ _ _ _ _ (by omega)]
  have hadv : advance t = 1 ∨ advance t = -1 := by
    rcases ht with rfl | rfl <;> simp [advance]
  have hvp := (valid_pos_iff _ _).mp hv
  have hvq : is_valid_position (p.x + advance t) p.y = true := by
    rw [valid_pos_iff]
    rcases ht with rfl | rfl <;> simp only [home_column, advance, MAX_GRID_WIDTH] at * <;>
      norm_num at * <;> omega
  have hvr : is_valid_position (p.x + 2 * advance t) p.y = true := by
    rw [valid_pos_iff]
    rcases ht with rfl | rfl <;> simp only [home_column, advance, MAX_GRID_WIDTH] at * <;>
      norm_num at * <;> omega
  have hq0 : (bf.cells p.y (p.x + advance t)).team = 0 := typed_empty h.typed hvq hfront
  have cell : ∀ x y : Int, bf1.cells y x =
      if y = p.y ∧ x = p.x then (⟨none, 0⟩ : GridCell)
      else if y = p.y ∧ x = p.x + advance t then ⟨(bf.cells p.y p.x).unit, t⟩
      else bf.cells y x := by
    intro x y
    rw [hcells, htag]
    simp only [set2]
  have hnot : (⟨p.x + 2 * advance t, p.y⟩ : Position) ∉ posList bf t := by
    intro hm
    obtain ⟨_, hh | hh⟩ := h.entry t ht _ hm
    · have := hh.1
      simp only at this
      omega
    · have := hh.2
      simp only at this
      rw [show p.x + 2 * advance t - advance t = p.x + advance t by ring] at this
      omega
  refine ⟨fun x y hxy => ?_, fun e he => ?_, fun e he x y hxy => ?_, fun e he r hr => ?_⟩
  · rw [cell]
    split_ifs
    · exact Or.inl ⟨rfl, rfl⟩
    · exact Or.inr ⟨hu, ht⟩
    · exact h.typed x y hxy
  · by_cases hte : e = t
    · subst hte
      rw [hpl]
      exact (h.nodup e he).set hnot
    · rw [hother e hte]; exact h.nodup e he
  · rw [cell]
    split_ifs with h1 h2
    · intro h0; simp only at h0; omega
    · intro h0
      simp only at h0
      subst h0
      right
      rw [h2.2, hx]
    · exact h.column e he x y hxy
  · by_cases hte : e = t
    · subst hte
      rw [hpl, mem_set_nodup (h.nodup e he) hlen, hget] at hr
      rcases hr with rfl | ⟨hr, hne⟩
      · refine ⟨hvr, Or.inr ⟨?_, ?_⟩⟩
        · simp only; rw [hx]
        · have hc1 : bf1.cells p.y (p.x + 2 * advance e - advance e) =
              ⟨(bf.cells p.y p.x).unit, e⟩ := by
            rw [cell, if_neg (by omega), if_pos ⟨rfl, by ring⟩]
          show (bf1.cells p.y (p.x + 2 * advance e - advance e)).team = e
          rw [hc1]
      · obtain ⟨hv1, hh | hh⟩ := h.entry e he r hr
        · have hry : r.y ≠ p.y := by
            intro hy
            apply hne
            have hxx : r.x = p.x := by rw [hh.1, hx]
            cases r; cases p
            simp only [Position.mk.injEq]
            exact ⟨hxx, hy⟩
          refine ⟨hv1, Or.inl ⟨hh.1, ?_, ?_⟩⟩
          · rw [cell, if_neg (fun hq => hry hq.1), if_neg (fun hq => hry hq.1)]
            exact hh.2.1
          · rw [cell, if_neg (fun hq => hry hq.1), if_neg (fun hq => hry hq.1)]
            exact hh.2.2
        · refine ⟨hv1, Or.inr ⟨hh.1, ?_⟩⟩
          rw [cell, if_neg (by
            have := hh.1
            omega)]
          split_ifs
          · rfl
          · exact hh.2
    · rw [hother e hte] at hr
      have hcol : home_column e ≠ home_column t ∧ home_column e ≠ home_column t + advance t ∧
          home_column e + advance e ≠ home_column t ∧
          home_column e + advance e ≠ home_column t + advance t := by
        rcases he with rfl | rfl <;> rcases ht with rfl | rfl <;>
          simp [home_column, advance, MAX_GRID_WIDTH] at hte ⊢
      obtain ⟨hv1, hh | hh⟩ := h.entry e he r hr
      · refine ⟨hv1, Or.inl ⟨hh.1, ?_, ?_⟩⟩
        · rw [cell, if_neg (by have := hh.1; omega), if_neg (by have := hh.1; omega)]
          exact hh.2.1
        · rw [cell, if_neg (by have := hh.1; omega), if_neg (by have := hh.1; omega)]
          exact hh.2.2
      · refine ⟨hv1, Or.inr ⟨hh.1, ?_⟩⟩
        rw [cell, if_neg (by have := hh.1; omega), if_neg (by have := hh.1; omega)]
        exact hh.2

/-- The two ways `perform_combat` can leave the grid: as it was (the
caller's counter kept), or with the target removed by `remove_unit` (the
caller's counter lowered by 1). -/
theorem perform_combat_shape (g : Game) (ap tp : Position) (rem : Int) :
    ((perform_combat g ap tp rem).2.1.bf.cells = g.bf.cells ∧
      (perform_combat g ap tp rem).2.1.bf.positions = g.bf.positions ∧
      (perform_combat g ap tp rem).2.1.bf.unit_counts = g.bf.unit_counts ∧
      (perform_combat g ap tp rem).2.2 = rem) ∨
    ((perform_combat g ap tp rem).2.1.bf.cells = (remove_unit g.bf tp.x tp.y).cells ∧
      (perform_combat g ap tp rem).2.1.bf.positions = (remove_unit g.bf tp.x tp.y).positions ∧
      (perform_combat g ap tp rem).2.1.bf.unit_counts =
        (remove_unit g.bf tp.x tp.y).unit_counts ∧
      (perform_combat g ap tp rem).2.2 = rem - 1) := by
  cases ha : (g.bf.cells ap.y ap.x).unit with
  | none =>
    left
    unfold perform_combat
    rw [ha]
    exact ⟨rfl, rfl, rfl, rfl⟩
  | some a =>
    cases ht : (g.bf.cells tp.y tp.x).unit with
    | none =>
      left
      unfold perform_combat
      rw [ha, ht]
      exact ⟨rfl, rfl, rfl, rfl⟩
    | some t =>
      by_cases hd : (g.units t).hp - calculate_damage (g.units a) (g.units t) ≤ 0
      · right
        rw [perform_combat_defeat g ap tp rem a t ha ht hd]
        exact ⟨rfl, rfl, rfl, rfl⟩
      · left
        rw [perform_combat_survive g ap tp rem a t ha ht (by omega)]
        exact ⟨rfl, rfl, rfl, rfl⟩

/-- The step of `move_towards_target` when the target lies in direction `dx`
along `x` and the square in that direction is free: `move_unit` to that
square, then the list entry advanced by `dx` once more. -/
theorem move_towards_target_x (bf : Battlefield) (t i : Int) (target : Position) (dx : Int)
    (hd : (dx = 1 ∧ target.x > (bf.positions t i).x) ∨
      (dx = -1 ∧ target.x < (bf.positions t i).x))
    (hv : is_valid_move bf (bf.positions t i).x (bf.positions t i).y
      ((bf.positions t i).x + dx) (bf.positions t i).y = true) :
    (move_towards_target bf t i target).2 =
      { (move_unit bf (bf.positions t i).x (bf.positions t i).y ((bf.positions t i).x + dx)
          (bf.positions t i).y).2 with
        positions := set2
          (move_unit bf (bf.positions t i).x (bf.positions t i).y ((bf.positions t i).x + dx)
            (bf.positions t i).y).2.positions t i
          ⟨((move_unit bf (bf.positions t i).x (bf.positions t i).y ((bf.positions t i).x + dx)
              (bf.positions t i).y).2.positions t i).x + dx,
            ((move_unit bf (bf.positions t i).x (bf.positions t i).y ((bf.positions t i).x + dx)
              (bf.positions t i).y).2.positions t i).y⟩ } := by
  have hdx : (if target.x > (bf.positions t i).x then (1 : Int)
      else if target.x < (bf.positions t i).x then -1 else 0) = dx := by
    rcases hd with ⟨rfl, h⟩ | ⟨rfl, h⟩
    · rw [if_pos h]
    · rw [if_neg (by omega), if_pos h]
  have h0 : ¬ ((bf.positions t i).x = target.x ∧ (bf.positions t i).y = target.y) := by
    intro h
    rcases hd with ⟨_, h1⟩ | ⟨_, h1⟩ <;> omega
  have hne : dx ≠ 0 := by
    rcases hd with ⟨rfl, _⟩ | ⟨rfl, _⟩ <;> decide
  unfold move_towards_target
  simp only
  rw [if_neg h0, hdx, if_pos ⟨hne, hv⟩]

/-- The search of `move_unit` finds the index of a list entry itself when the
list names no coordinate twice. -/
theorem nodup_find_index {bf : Battlefield} {team : Int} {i : Nat}
    (hn : (posList bf team).Nodup) (hi : i < (bf.unit_counts (team - 1)).toNat) :
    find_pos (bf.positions (team - 1)) (bf.unit_counts (team - 1))
      (bf.positions (team - 1) (i : Int)).x (bf.positions (team - 1) (i : Int)).y = some i := by
  have hmem : bf.positions (team - 1) (i : Int) ∈ posList bf team := mem_rowList.mpr ⟨i, hi, rfl⟩
  obtain ⟨k, hk⟩ := find_pos_of_mem hmem
  have hs := find_pos_some.mp hk
  have hlk : k < (posList bf team).length := by
    simp only [posList, rowList_length]; exact hs.1
  have hli : i < (posList bf team).length := by
    simp only [posList, rowList_length]; exact hi
  have hek : (posList bf team)[k] = (posList bf team)[i] := by
    simp only [posList, rowList_getElem]
    exact hs.2.1
  have := (List.Nodup.getElem_inj_iff hn).mp hek
  rw [hk, this]

/-- The result of `find_closest_enemy` is (-1,-1) or an entry of the list of
the opposing team. -/
theorem find_closest_enemy_mem (bf : Battlefield) (team x y : Int)
    (ht : team = 1 ∨ team = 2) :
    find_closest_enemy bf team x y = ⟨-1, -1⟩ ∨
      find_closest_enemy bf team x y ∈ posList bf (3 - team) := by
  have he : (if team = 1 then (1 : Int) else 0) = 3 - team - 1 := by
    rcases ht with h | h <;> subst h <;> rfl
  unfold find_closest_enemy
  simp only
  rw [he]
  have key : ∀ n : Nat,
      ((List.range n).foldl
        (fun (st : Int × Position) (i : Nat) =>
          if manhattan_distance x y (bf.positions (3 - team - 1) (i : Int)).x
              (bf.positions (3 - team - 1) (i : Int)).y < st.1 then
            (manhattan_distance x y (bf.positions (3 - team - 1) (i : Int)).x
              (bf.positions (3 - team - 1) (i : Int)).y,
              (⟨(bf.positions (3 - team - 1) (i : Int)).x,
                (bf.positions (3 - team - 1) (i : Int)).y⟩ : Position))
          else st)
        (MAX_GRID_WIDTH + MAX_GRID_HEIGHT, ⟨-1, -1⟩)).2 = ⟨-1, -1⟩ ∨
      ∃ i : Nat, i < n ∧ bf.positions (3 - team - 1) (i : Int) =
        ((List.range n).foldl
          (fun (st : Int × Position) (i : Nat) =>
            if manhattan_distance x y (bf.positions (3 - team - 1) (i : Int)).x
                (bf.positions (3 - team - 1) (i : Int)).y < st.1 then
              (manhattan_distance x y (bf.positions (3 - team - 1) (i : Int)).x
                (bf.positions (3 - team - 1) (i : Int)).y,
                (⟨(bf.positions (3 - team - 1) (i : Int)).x,
                  (bf.positions (3 - team - 1) (i : Int)).y⟩ : Position))
            else st)
          (MAX_GRID_WIDTH + MAX_GRID_HEIGHT, ⟨-1, -1⟩)).2 := by
    intro n
    induction n with
    | zero => left; rfl
    | succ k ih =>
      rw [List.range_succ, List.foldl_append]
      simp only [List.foldl_cons, List.foldl_nil]
      split_ifs
      · right
        exact ⟨k, by omega, rfl⟩
      · rcases ih with h | ⟨i, hi, h⟩
        · left; exact h
        · right; exact ⟨i, by omega, h⟩
  rcases key (bf.unit_counts (3 - team - 1)).toNat with h | ⟨i, hi, h⟩
  · left; exact h
  · right
    exact mem_rowList.mpr ⟨i, hi, h⟩

/-- The fallback step for an entry that names a unit, on a deployed
battlefield: the shape is kept and no count changes. -/
theorem ai_fallback_deployed (bf : Battlefield) (team : Int) (i : Nat)
    (ht : team = 1 ∨ team = 2) (hi : i < (bf.unit_counts (team - 1)).toNat)
    (hu : (bf.cells (bf.positions (team - 1) (i : Int)).y
      (bf.positions (team - 1) (i : Int)).x).unit ≠ none)
    (h : Deployed bf) :
    Deployed (ai_fallback bf team (i : Int)).2 ∧
      (ai_fallback bf team (i : Int)).2.unit_counts = bf.unit_counts := by
  have hmem : bf.positions (team - 1) (i : Int) ∈ posList bf team :=
    mem_rowList.mpr ⟨i, hi, rfl⟩
  obtain ⟨hv, hx, htag, hfront⟩ := deployed_home h ht hmem hu
  have he : 3 - team = 1 ∨ 3 - team = 2 := by omega
  have hfind := nodup_find_index (h.nodup team ht) hi
  unfold ai_fallback
  simp only
  by_cases hcl : (find_closest_enemy bf team (bf.positions (team - 1) (i : Int)).x
      (bf.positions (team - 1) (i : Int)).y).x ≠ -1
  · rw [if_pos hcl]
    have hcm : find_closest_enemy bf team (bf.positions (team - 1) (i : Int)).x
        (bf.positions (team - 1) (i : Int)).y ∈ posList bf (3 - team) := by
      rcases find_closest_enemy_mem bf team (bf.positions (team - 1) (i : Int)).x
        (bf.positions (team - 1) (i : Int)).y ht with h0 | h0
      · rw [h0] at hcl
        exact absurd rfl hcl
      · exact h0
    obtain ⟨_, hcx⟩ := h.entry (3 - team) he _ hcm
    generalize find_closest_enemy bf team (bf.positions (team - 1) (i : Int)).x
      (bf.positions (team - 1) (i : Int)).y = c at hcx ⊢
    generalize hp : bf.positions (team - 1) (i : Int) = p at *
    have hvp := (valid_pos_iff _ _).mp hv
    have hd : (advance team = 1 ∧ c.x > (bf.positions (team - 1) (i : Int)).x) ∨
        (advance team = -1 ∧ c.x < (bf.positions (team - 1) (i : Int)).x) := by
      rw [hp]
      rcases ht with rfl | rfl
      · left
        refine ⟨rfl, ?_⟩
        simp only [home_column, advance, MAX_GRID_WIDTH] at hcx hx
        norm_num at hcx hx
        omega
      · right
        refine ⟨rfl, ?_⟩
        simp only [home_column, advance, MAX_GRID_WIDTH] at hcx hx
        norm_num at hcx hx
        omega
    have hmv : is_valid_move bf p.x p.y (p.x + advance team) p.y = true := by
      rw [is_valid_move_iff]
      refine ⟨?_, hfront, ?_⟩
      · rw [valid_pos_iff]
        rcases ht with rfl | rfl <;> simp only [home_column, advance, MAX_GRID_WIDTH] at * <;>
          norm_num at * <;> omega
      · rw [manhattan_distance_eq_abs]
        rcases ht with rfl | rfl <;> simp [advance]
    have hstep := move_towards_target_x bf (team - 1) (i : Int) c (advance team) hd
      (by rw [hp]; exact hmv)
    rw [hp] at hstep
    rw [hstep]
    have hmp := move_unit_positions bf p.x p.y (p.x + advance team) p.y i hmv
      (by rw [htag]; exact hfind)
    rw [htag] at hmp
    refine ⟨deployed_advance h ht hi hp hu (move_unit_cells bf _ _ _ _ hmv)
      (move_unit_counts bf _ _ _ _) ?_, move_unit_counts bf _ _ _ _⟩
    simp only
    rw [hmp]
    funext k l
    by_cases hkl : k = team - 1 ∧ l = (i : Int)
    · rw [hkl.1, hkl.2, set2_same, set2_same, set1_same, set1_same]
      simp only [Position.mk.injEq, and_true]
      ring
    · rw [set2_other _ _ _ _ _ _ hkl, set2_other _ _ _ _ _ _ hkl]
      by_cases hk : k = team - 1
      · rw [hk, set1_same, set1_other _ _ _ _ (fun hl => hkl ⟨hk, hl⟩)]
      · rw [set1_other _ _ _ _ hk]
  · rw [if_neg hcl]
    exact ⟨h, rfl⟩

/-- An iteration of an army loop that finds a unit under its entry keeps the
invariant of the AI battle. -/
theorem ai_unit_action_inv (s : Battle) (team : Int) (i : Nat) (ht : team = 1 ∨ team = 2)
    (hi : (i : Int) < s.game.bf.unit_counts (team - 1)) (hu : AttackerPresent s team i)
    (h : BattleInv s) : BattleInv (ai_unit_action s team i) := by
  have hi1 : i < (s.game.bf.unit_counts (team - 1)).toNat := by omega
  have hmem : s.game.bf.positions (team - 1) (i : Int) ∈ posList s.game.bf team :=
    mem_rowList.mpr ⟨i, hi1, rfl⟩
  obtain ⟨hv, hx, htag, hfront⟩ := deployed_home h.deployed ht hmem hu
  have he : 3 - team = 1 ∨ 3 - team = 2 := by omega
  unfold ai_unit_action
  simp only
  split
  next j hscan =>
    obtain ⟨hj, hvalid, _⟩ := (scan_targets_spec _ _ _ _ hv).2 j hscan
    have hcm : s.game.bf.positions (3 - team - 1) (j : Int) ∈ posList s.game.bf (3 - team) :=
      mem_rowList.mpr ⟨j, hj, rfl⟩
    have hvc := attack_target_valid _ _ _ _ _ _ hvalid
    have hcu : (s.game.bf.cells (s.game.bf.positions (3 - team - 1) (j : Int)).y
        (s.game.bf.positions (3 - team - 1) (j : Int)).x).unit ≠ none := by
      intro hn
      simp [is_valid_attack_target, hvc, hn] at hvalid
    obtain ⟨_, hxc, htagc, _⟩ := deployed_home h.deployed he hcm hcu
    have h0 : (s.game.bf.cells (s.game.bf.positions (3 - team - 1) (j : Int)).y
        (s.game.bf.positions (3 - team - 1) (j : Int)).x).team ≠ 0 := by omega
    have hrc := remove_unit_counts s.game.bf _ _ hvc h0
    rw [htagc] at hrc
    split_ifs with h1
    · rcases perform_combat_shape s.game (s.game.bf.positions (team - 1) (i : Int))
        (s.game.bf.positions (3 - team - 1) (j : Int)) s.n2 with
        ⟨e1, e2, e3, e4⟩ | ⟨e1, e2, e3, e4⟩
      · refine ⟨deployed_of_eq e1 e2 e3 h.deployed, ?_⟩
        show s.n1 = _ ∧ _ = _
        rw [e3, e4]
        exact h.counts
      · refine ⟨deployed_of_eq e1 e2 e3 (deployed_remove h.deployed he hcm hcu), ?_⟩
        show s.n1 = _ ∧ _ = _
        rw [e3, e4, hrc, h1]
        have := h.counts
        unfold CountsAgree at this
        simp only [show (3 : Int) - 1 - 1 = 1 from rfl, set1_same,
          set1_other _ _ _ _ (show (0 : Int) ≠ 1 by decide)]
        omega
    · have h2 : team = 2 := by omega
      rcases perform_combat_shape s.game (s.game.bf.positions (team - 1) (i : Int))
        (s.game.bf.positions (3 - team - 1) (j : Int)) s.n1 with
        ⟨e1, e2, e3, e4⟩ | ⟨e1, e2, e3, e4⟩
      · refine ⟨deployed_of_eq e1 e2 e3 h.deployed, ?_⟩
        show _ = _ ∧ s.n2 = _
        rw [e3, e4]
        exact h.counts
      · refine ⟨deployed_of_eq e1 e2 e3 (deployed_remove h.deployed he hcm hcu), ?_⟩
        show _ = _ ∧ s.n2 = _
        rw [e3, e4, hrc, h2]
        have := h.counts
        unfold CountsAgree at this
        simp only [show (3 : Int) - 2 - 1 = 0 from rfl, set1_same,
          set1_other _ _ _ _ (show (1 : Int) ≠ 0 by decide)]
        omega
  next hscan =>
    obtain ⟨hd, hc⟩ := ai_fallback_deployed s.game.bf team i ht hi1 hu h.deployed
    refine ⟨hd, ?_⟩
    show s.n1 = _ ∧ s.n2 = _
    rw [hc]
    exact h.counts

/-- Every state the AI battle reaches from a state with the invariant,
through iterations that find a unit under their entry, has the invariant. -/
theorem battle_reach_inv {s0 s : Battle} (hr : BattleReach s0 s) (h0 : BattleInv s0) :
    BattleInv s := by
  induction hr with
  | start => exact h0
  | action s team i _ ht hi hu ih => exact ai_unit_action_inv s team i ht hi hu ih
  | budget s m _ ih => exact ⟨ih.deployed, ih.counts⟩

theorem place_fold_tags (base : UnitRef) (team x : Int) (l : List Nat) :
    ∀ (bf : Battlefield) (a b : Int),
      ((l.foldl (fun b (i : Nat) => place_unit b (base + i) team x ((i : Int) * 2)) bf).cells
          b a).team = (bf.cells b a).team ∨
        (((l.foldl (fun b (i : Nat) => place_unit b (base + i) team x ((i : Int) * 2)) bf).cells
          b a).team = team ∧ a = x) := by
  induction l with
  | nil => intro bf a b; exact Or.inl rfl
  | cons i l ih =>
    intro bf a b
    rw [List.foldl_cons]
    rcases ih (place_unit bf (base + i) team x ((i : Int) * 2)) a b with h | h
    · rw [h]
      unfold place_unit
      simp only
      split_ifs
      · exact Or.inl rfl
      · exact Or.inl rfl
      · by_cases hp : b = (i : Int) * 2 ∧ a = x
        · right
          rw [hp.1, hp.2]
          simp only [set2_same, and_self]
        · left
          simp only [set2_other _ _ _ _ _ _ hp]
    · exact Or.inr h

/-- The battlefield the setup loops leave is deployed. -/
theorem place_armies_deployed (n1 n2 : Int) : Deployed (place_armies n1 n2) := by
  obtain ⟨hc, hm⟩ := place_armies_grid n1 n2
  have htags : ∀ a b : Int, ((place_armies n1 n2).cells b a).team = 0 ∨
      (((place_armies n1 n2).cells b a).team = 1 ∧ a = 0) ∨
      (((place_armies n1 n2).cells b a).team = 2 ∧ a = 9) := by
    intro a b
    unfold place_armies place_army
    rcases place_fold_tags 5 2 (MAX_GRID_WIDTH - 1) (List.range n2.toNat)
      ((List.range n1.toNat).foldl
        (fun b (i : Nat) => place_unit b (0 + i) 1 0 ((i : Int) * 2)) init_battlefield) a b
      with h | h
    · rw [h]
      rcases place_fold_tags 0 1 0 (List.range n1.toNat) init_battlefield a b with h1 | h1
      · left; rw [h1]; rfl
      · right; left; exact h1
    · right; right; exact h
  have hfree : ∀ a b : Int, is_valid_position a b = true → a ≠ 0 → a ≠ 9 →
      ((place_armies n1 n2).cells b a).unit = none := by
    intro a b hv h0 h9
    rcases hc a b hv with h | h
    · exact h.1
    · rcases htags a b with h1 | h1 | h1 <;> omega
  refine ⟨hc, hm.nodup, fun t ht x y hv htag => ?_, fun t ht p hp => ?_⟩
  · left
    rcases htags x y with h1 | h1 | h1 <;> rcases ht with rfl | rfl <;>
      simp only [home_column, MAX_GRID_WIDTH] <;> norm_num <;> omega
  · obtain ⟨hv, htag⟩ := (hm.mem_iff t ht p).mp hp
    have hvp := (valid_pos_iff _ _).mp hv
    have hx : p.x = home_column t := by
      rcases htags p.x p.y with h1 | h1 | h1 <;> rcases ht with rfl | rfl <;>
        simp only [home_column, MAX_GRID_WIDTH] <;> norm_num <;> omega
    refine ⟨hv, Or.inl ⟨hx, htag, hfree _ _ ?_ ?_ ?_⟩⟩
    · rw [valid_pos_iff]
      rcases ht with rfl | rfl <;> simp only [home_column, advance, MAX_GRID_WIDTH] at * <;>
        norm_num at * <;> omega
    · rcases ht with rfl | rfl <;> simp only [home_column, advance, MAX_GRID_WIDTH] at * <;>
        norm_num at * <;> omega
    · rcases ht with rfl | rfl <;> simp only [home_column, advance, MAX_GRID_WIDTH] at * <;>
        norm_num at * <;> omega

/-- The state in which the loop of the AI battle is entered has the invariant. -/
theorem battle_start_inv (units : UnitRef → UNIT) (n1 n2 m : Int) (h1 : 1 ≤ n1 ∧ n1 ≤ 5)
    (h2 : 1 ≤ n2 ∧ n2 ≤ 5) : BattleInv (battle_start units n1 n2 m) :=
  ⟨place_armies_deployed n1 n2, place_armies_counts n1 n2 h1 h2⟩

/-- An iteration of an army loop whose scan selects no target and whose
fallback makes no move leaves the state as it is. -/
theorem ai_unit_action_idle (s : Battle) (team : Int) (i : Nat)
    (hscan : scan_targets s.game.bf
      (deref_unit s.game.units
        (s.game.bf.cells (s.game.bf.positions (team - 1) (i : Int)).y
          (s.game.bf.positions (team - 1) (i : Int)).x).unit)
      (s.game.bf.positions (team - 1) (i : Int)) (3 - team - 1) = none)
    (hf : (ai_fallback s.game.bf team (i : Int)).1 = false) :
    ai_unit_action s team i = s := by
  have hbf : (ai_fallback s.game.bf team (i : Int)).2 = s.game.bf := by
    unfold ai_fallback at hf ⊢
    simp only at hf ⊢
    split_ifs at hf ⊢ with hc
    · rcases move_towards_target_cases s.game.bf (team - 1) (i : Int)
        (find_closest_enemy s.game.bf team (s.game.bf.positions (team - 1) (i : Int)).x
          (s.game.bf.positions (team - 1) (i : Int)).y) with h | h
      · exact h.2
      · rw [h.1] at hf
        exact absurd hf (by decide)
    · rfl
  unfold ai_unit_action
  simp only
  rw [hscan]
  simp only
  rw [hbf]

theorem army_loop_reach (s0 : Battle) (team : Int) (ht : team = 1 ∨ team = 2) (fuel : Nat) :
    ∀ (i : Nat) (s : Battle), BattleReach s0 s → army_loop_present team fuel i s = true →
      BattleReach s0 (army_loop team fuel i s) := by
  induction fuel with
  | zero => intro i s hr _; exact hr
  | succ fuel ih =>
    intro i s hr hp
    unfold army_loop
    unfold army_loop_present at hp
    by_cases hi : (i : Int) < s.game.bf.unit_counts (team - 1)
    · rw [if_pos hi] at hp ⊢
      rw [Bool.and_eq_true] at hp
      refine ih _ _ (BattleReach.action s team i hr ht hi ?_) hp.2
      intro hn
      rw [hn] at hp
      exact absurd hp.1 (by decide)
    · rw [if_neg hi]
      exact hr

/-- A round in which every iteration finds a unit under its entry leads from a
reachable state to a reachable state. -/
theorem battle_round_reach (s0 s : Battle) (hr : BattleReach s0 s)
    (hp : round_present s = true) : BattleReach s0 (battle_round s) := by
  unfold round_present at hp
  rw [Bool.and_eq_true] at hp
  unfold battle_round
  simp only
  refine BattleReach.budget _ _ ?_
  have h1 : BattleReach s0 (if s.n1 > 0 ∧ s.n2 > 0 then army_loop 1 5 0 s else s) := by
    by_cases hg : s.n1 > 0 ∧ s.n2 > 0
    · rw [if_pos hg]
      have := hp.1
      rw [if_pos hg] at this
      exact army_loop_reach s0 1 (Or.inl rfl) 5 0 s hr this
    · rw [if_neg hg]; exact hr
  have hp2 := hp.2
  generalize (if s.n1 > 0 ∧ s.n2 > 0 then army_loop 1 5 0 s else s) = s1 at h1 hp2 ⊢
  by_cases hg : s1.n2 > 0 ∧ s1.n1 > 0
  · rw [if_pos hg] at hp2 ⊢
    exact army_loop_reach s0 2 (Or.inr rfl) 5 0 s1 h1 hp2
  · rw [if_neg hg]; exact h1

/-- The counter handed to `perform_combat` and the count of the target's
team move together: both drop by 1 when the target is defeated, neither
changes otherwise, and no other count changes. -/
theorem perform_combat_paired (g : Game) (ap tp : Position) (rem : Int)
    (hc : CellsTyped g.bf) (hv : is_valid_position tp.x tp.y = true)
    (ht : (g.bf.cells tp.y tp.x).unit ≠ none) :
    (perform_combat g ap tp rem).2.1.bf.unit_counts ((g.bf.cells tp.y tp.x).team - 1) -
        (perform_combat g ap tp rem).2.2 =
      g.bf.unit_counts ((g.bf.cells tp.y tp.x).team - 1) - rem ∧
    (∀ k : Int, k ≠ (g.bf.cells tp.y tp.x).team - 1 →
      (perform_combat g ap tp rem).2.1.bf.unit_counts k = g.bf.unit_counts k) := by
  have hT := typed_unit hc hv ht
  have h0 : (g.bf.cells tp.y tp.x).team ≠ 0 := by omega
  rcases perform_combat_shape g ap tp rem with ⟨_, _, e3, e4⟩ | ⟨_, _, e3, e4⟩
  · rw [e3, e4]
    exact ⟨rfl, fun _ _ => rfl⟩
  · rw [e3, e4, remove_unit_counts _ _ _ hv h0]
    refine ⟨?_, fun k hk => set1_other _ _ _ _ hk⟩
    rw [set1_same]
    ring

set_option maxRecDepth 100000 in
/-- The second round of the AI battle between armies of 2 and 1 units of
`units_loaded`: after the first round the entries of army 1 are (2,0) and
(2,2) and the entry of army 2 is (7,0), while unit 0 stands on (1,0); the
iteration for entry 0 of army 1 finds no unit under the entry, and its
fallback step does call `move_unit` from that empty cell. -/
theorem second_round_entry_names_no_unit :
    round_present (battle_round (battle_start units_loaded 2 1 (-1))) = false ∧
    ¬ AttackerPresent (battle_round (battle_start units_loaded 2 1 (-1))) 1 0 ∧
    posList (battle_round (battle_start units_loaded 2 1 (-1))).game.bf 1 = [⟨2, 0⟩, ⟨2, 2⟩] ∧
    posList (battle_round (battle_start units_loaded 2 1 (-1))).game.bf 2 = [⟨7, 0⟩] ∧
    (battle_round (battle_start units_loaded 2 1 (-1))).game.bf.cells 0 1 = ⟨some 0, 1⟩ ∧
    (ai_fallback (battle_round (battle_start units_loaded 2 1 (-1))).game.bf 1 0).1 = true := by
  unfold AttackerPresent
  decide

/-- C30: the live counts of the loops and the counts of the battlefield never
drift apart.  From the setup with army sizes `n1`, `n2` between 1 and 5:
(1) in every state the loop of the two-player game reaches, whatever the keys
and the menu choices, `n1 = unit_counts[0]` and `n2 = unit_counts[1]`;
(2) the same holds in every state the loop of the AI battle reaches through
iterations of its army loops that find a unit under their list entry;
(3) the reason: on typed cells `perform_combat` lowers the counter it is
handed exactly when it lowers the `unit_counts` entry of the team of the
target, and it changes no other entry. -/
theorem counts_never_drift (units : UnitRef → UNIT) (n1 n2 : Int)
    (h1 : 1 ≤ n1 ∧ n1 ≤ 5) (h2 : 1 ≤ n2 ∧ n2 ≤ 5) :
    (∀ (turn : Int) (keys : List (Key × Option ActionType)),
      CountsAgree (simple_game_loop (simple_game_start units n1 n2 turn) keys).game.bf
        (simple_game_loop (simple_game_start units n1 n2 turn) keys).n1
        (simple_game_loop (simple_game_start units n1 n2 turn) keys).n2) ∧
    (∀ (max_rounds : Int) (s : Battle), BattleReach (battle_start units n1 n2 max_rounds) s →
      CountsAgree s.game.bf s.n1 s.n2) ∧
    (∀ (g : Game) (ap tp : Position) (rem : Int), CellsTyped g.bf →
      is_valid_position tp.x tp.y = true → (g.bf.cells tp.y tp.x).unit ≠ none →
      (perform_combat g ap tp rem).2.1.bf.unit_counts ((g.bf.cells tp.y tp.x).team - 1) -
          (perform_combat g ap tp rem).2.2 =
        g.bf.unit_counts ((g.bf.cells tp.y tp.x).team - 1) - rem ∧
      ∀ k : Int, k ≠ (g.bf.cells tp.y tp.x).team - 1 →
        (perform_combat g ap tp rem).2.1.bf.unit_counts k = g.bf.unit_counts k) :=
  ⟨fun turn keys => (simple_game_loop_inv keys _ (game_inv_start units n1 n2 turn h1 h2)).counts,
    fun m _ hr => (battle_reach_inv hr (battle_start_inv units n1 n2 m h1 h2)).counts,
    fun g ap tp rem hc hv ht => perform_combat_paired g ap tp rem hc hv ht⟩

set_option maxRecDepth 100000 in
/-- C30 at work on armies of 2 and 1 units: after the play `keys_defeat` of the
two-player game, in which a unit of army 1 is defeated, and after the first
round of the AI battle, the live counts are the counts of the battlefield. -/
theorem counts_never_drift_witness :
    ((1 : Int) ≤ 2 ∧ (2 : Int) ≤ 5) ∧ ((1 : Int) ≤ 1 ∧ (1 : Int) ≤ 5) ∧
    CountsAgree game_after_defeat.game.bf game_after_defeat.n1 game_after_defeat.n2 ∧
    CountsAgree (battle_round (battle_start units_loaded 2 1 (-1))).game.bf
      (battle_round (battle_start units_loaded 2 1 (-1))).n1
      (battle_round (battle_start units_loaded 2 1 (-1))).n2 :=
  ⟨by decide, by decide,
    (counts_never_drift units_loaded 2 1 (by decide) (by decide)).1 2 keys_defeat,
    (counts_never_drift units_loaded 2 1 (by decide) (by decide)).2.1 (-1) _
      (battle_round_reach _ _ BattleReach.start (by decide))⟩

end BattleArena
